import Mathlib

/-!
# fixed_capacity_vector (src/src/vector.h)

A shallow embedding of the container `fixed_capacity_vector<_Ty, _Alloc>`.

* The buffer the container owns is a list of slots; a slot is `none` while it
  is raw storage and `some x` while it holds a constructed element `x`.
  `buffer_ = none` is the null pointer.
* Iterators and element pointers are offsets from `buffer_`.
* `size_type` is `unsigned int`: sizes are natural numbers and the arithmetic
  the source performs on them is taken modulo `2 ^ 32`.
* Every member function is a state transformer that returns an outcome
  together with the state it leaves behind, so that the state after a throw
  can be inspected.
* Calls that may throw (the strategy's `allocate`, element constructors and
  element assignment) consult a schedule `throws` indexed by a call counter.
* `std::rotate` is taken from its library contract as the rearrangement it
  performs when no element move throws. The number and order of the element
  moves inside it are left open by the standard, so they are not failure
  points of the schedule: what is stated about the result of `insert` and
  `erase` is stated for a world in which nothing throws.
* `assert` is active unless the build defines `NDEBUG`.
-/

namespace fcv

/-- The number of values of `size_type` (`unsigned int`). -/
abbrev size_type_mod : Nat := 4294967296

/-- The ways in which a call can end other than by returning. -/
inductive Failure where
  /-- Thrown `std::length_error`: the capacity would be exceeded. -/
  | length_error
  /-- An exception thrown by an element constructor or assignment. -/
  | element_exception
  /-- An exception thrown by the strategy's `allocate`. -/
  | bad_alloc
  /-- A failed `assert` (the program aborts). -/
  | assertion
  /-- Undefined behaviour: access outside the buffer or to a raw slot. -/
  | undefined
  /-- A loop of the model used up its iteration bound. -/
  | fuel
  deriving DecidableEq, Repr

/-- The result of a call. -/
inductive Outcome (α : Type) where
  | ok (a : α)
  | fail (f : Failure)
  deriving DecidableEq, Repr

/-- Build-time parameters of the class template. -/
structure Config where
  /-- `NDEBUG` is defined, so `assert` expands to nothing. -/
  ndebug : Bool
  /-- The enumerator `_req_destruction = !std::is_scalar<value_type>::value`. -/
  _req_destruction : Bool
  propagate_on_container_copy_assignment : Bool
  propagate_on_container_move_assignment : Bool
  propagate_on_container_swap : Bool
  select_on_container_copy_construction : Nat → Nat

/-- Calls made to the strategy and to the element type, as recorded in the trace. -/
inductive Event (T : Type) where
  | allocate (allocator : Nat) (n : Nat)
  | deallocate (allocator : Nat) (n : Nat)
  | construct (slot : Nat) (v : T)
  | destroy (slot : Nat)
  | assign (slot : Nat) (v : T)
  | value_init
  deriving DecidableEq, Repr

/-- What lies outside the containers: the failure schedule, the number of
fallible calls made so far, and the calls that completed. -/
structure World (T : Type) where
  throws : Nat → Bool
  clock : Nat
  trace : List (Event T)

/-- The data members of the class; an allocator is represented by its identity. -/
structure fixed_capacity_vector (T : Type) where
  buffer_ : Option (List (Option T))
  size_ : Nat
  capacity_ : Nat
  allocator_ : Nat
  deriving DecidableEq, Repr

/-- One container and the world. -/
structure State (T : Type) where
  self : fixed_capacity_vector T
  world : World T

/-- Two distinct containers, `*this` and `other`, and the world. -/
structure State2 (T : Type) where
  self : fixed_capacity_vector T
  other : fixed_capacity_vector T
  world : World T

/-- State transformers that keep the state on failure. -/
def M (σ α : Type) : Type := σ → Outcome α × σ

/-- Sequencing: a failure ends the computation and keeps the state reached. -/
def M.bind {σ α β : Type} (m : M σ α) (f : α → M σ β) : M σ β := fun s =>
  match m s with
  | (Outcome.ok a, s1) => f a s1
  | (Outcome.fail e, s1) => (Outcome.fail e, s1)

instance (σ : Type) : Monad (M σ) where
  pure a := fun s => (Outcome.ok a, s)
  bind := M.bind

/-- End the call with the failure `e`. -/
def raise {σ α : Type} (e : Failure) : M σ α := fun s => (Outcome.fail e, s)

/-- Read the state. -/
def get_state {σ : Type} : M σ σ := fun s => (Outcome.ok s, s)

/-- The macro `assert(c)`. -/
def cassert {σ : Type} (cfg : Config) (c : Bool) : M σ Unit := fun s =>
  if cfg.ndebug || c then (Outcome.ok (), s) else (Outcome.fail Failure.assertion, s)

/-- A loop `for(; cond; ) body` run for at most `fuel` iterations. -/
def while_loop {σ : Type} (cond : σ → Bool) (body : M σ Unit) : Nat → M σ Unit
  | 0 => fun s => if cond s then (Outcome.fail Failure.fuel, s) else (Outcome.ok (), s)
  | fuel + 1 => fun s =>
    if cond s then M.bind body (fun _ => while_loop cond body fuel) s else (Outcome.ok (), s)

/-- Run a member function of `*this` in a state with two containers. -/
def on_self {T α : Type} (m : M (State T) α) : M (State2 T) α := fun s =>
  match m { self := s.self, world := s.world } with
  | (r, s1) => (r, { self := s1.self, other := s.other, world := s1.world })

/-- No failure is scheduled. -/
def World.quiet {T : Type} (w : World T) : Prop := ∀ k, w.throws k = false

/-- A fallible call completes: the counter advances and the call is recorded. -/
def World.completed {T : Type} (w : World T) (ev : Event T) : World T :=
  { w with clock := w.clock + 1, trace := w.trace ++ [ev] }

/-- A fallible call throws: the counter advances. -/
def World.thrown {T : Type} (w : World T) : World T :=
  { w with clock := w.clock + 1 }

/-- A call that cannot throw is recorded. -/
def World.noted {T : Type} (w : World T) (ev : Event T) : World T :=
  { w with trace := w.trace ++ [ev] }

/-- A call that may throw `e`, recorded as `ev` when it completes. -/
def fallible {T : Type} (e : Failure) (ev : Event T) : M (State T) Unit := fun s =>
  if s.world.throws s.world.clock then (Outcome.fail e, { s with world := s.world.thrown })
  else (Outcome.ok (), { s with world := s.world.completed ev })

/-- The memory a pointer `buffer_` gives access to. -/
def slots {T : Type} (buffer : Option (List (Option T))) : List (Option T) :=
  buffer.getD []

/-- The expression `*src` for a pointer to elements to be read. -/
def deref {σ T : Type} (src : List (Option T)) : M σ T := fun s =>
  match src with
  | some x :: _ => (Outcome.ok x, s)
  | _ => (Outcome.fail Failure.undefined, s)

namespace fixed_capacity_vector

variable {T : Type}

/-- The member function `capacity()`. -/
def capacity (v : fixed_capacity_vector T) : Nat := v.capacity_

/-- The member function `size()`. -/
def size (v : fixed_capacity_vector T) : Nat := v.size_

/-- The member function `empty()`. -/
def empty (v : fixed_capacity_vector T) : Bool := v.size == 0

/-- The member function `begin()`, as an offset from `buffer_`. -/
def begin (_v : fixed_capacity_vector T) : Nat := 0

/-- The member function `end()`, as an offset from `buffer_`. -/
def end_ (v : fixed_capacity_vector T) : Nat := v.size

/-- The live range `[0, size)` of the buffer, slot by slot. -/
def elements (v : fixed_capacity_vector T) : List (Option T) :=
  (slots v.buffer_).take v.size_

/-- The class invariant: `size <= capacity`, the capacity is a `size_type`,
the buffer is null exactly when the capacity is zero and has `capacity` slots
otherwise, and every slot of the live range holds an element. -/
def wf (v : fixed_capacity_vector T) : Prop :=
  v.size_ ≤ v.capacity_ ∧ v.capacity_ < size_type_mod ∧
  (v.buffer_ = none ↔ v.capacity_ = 0) ∧
  (slots v.buffer_).length = v.capacity_ ∧
  ∀ x ∈ v.elements, x ≠ none

instance [DecidableEq T] (v : fixed_capacity_vector T) : Decidable v.wf := by
  unfold wf
  infer_instance

/-- The strategy call `allocator_traits::construct(allocator_, dst, value)`. -/
def construct (dst : Nat) (value : T) : M (State T) Unit := do
  fallible Failure.element_exception (Event.construct dst value)
  let s ← get_state
  match s.self.buffer_ with
  | some b =>
    if dst < b.length then
      fun s => (Outcome.ok (), { s with self := { s.self with buffer_ := some (b.set dst (some value)) } })
    else raise Failure.undefined
  | none => raise Failure.undefined

/-- The strategy call `allocator_traits::destroy(allocator_, dst)`. -/
def destroy (dst : Nat) : M (State T) Unit := fun s =>
  match s.self.buffer_ with
  | some b =>
    match b[dst]? with
    | some (some _) =>
      (Outcome.ok (), { self := { s.self with buffer_ := some (b.set dst none) },
                        world := s.world.noted (Event.destroy dst) })
    | _ => (Outcome.fail Failure.undefined, s)
  | none => (Outcome.fail Failure.undefined, s)

/-- The helper `_emplace(dst, args...)` (source lines 413-421). -/
def _emplace (cfg : Config) (dst : Nat) (value : T) : M (State T) Unit := do
  let s ← get_state
  cassert cfg s.self.buffer_.isSome
  cassert cfg (decide (dst < s.self.capacity_))
  construct dst value

/-- The helper `_destroy(dst)` (source lines 423-428). -/
def _destroy (cfg : Config) (dst : Nat) : M (State T) Unit := do
  let s ← get_state
  cassert cfg s.self.buffer_.isSome
  if cfg._req_destruction then destroy dst

/-- The statement `++size_`. -/
def incr_size : M (State T) Unit := fun s =>
  (Outcome.ok (), { s with self := { s.self with size_ := (s.self.size_ + 1) % size_type_mod } })

/-- The statement `--size_`; an unsigned zero wraps around to the largest value. -/
def decr_size : M (State T) Unit := fun s =>
  (Outcome.ok (), { s with self := { s.self with
    size_ := if s.self.size_ = 0 then size_type_mod - 1 else s.self.size_ - 1 } })

/-- The member function `push_back(const value_type&)` (source lines 247-255). -/
def push_back (cfg : Config) (value : T) : M (State T) Unit := do
  let s ← get_state
  if s.self.size_ = s.self.capacity_ then raise Failure.length_error
  _emplace cfg s.self.size_ value
  incr_size

/-- The member function `pop_back()` (source lines 267-277). -/
def pop_back (cfg : Config) : M (State T) Unit := do
  let s ← get_state
  cassert cfg (!s.self.empty)
  if !s.self.empty then
    decr_size
    let s ← get_state
    _destroy cfg s.self.size_

/-- The helper `_check_iterator(iter, include_end)` (source lines 437-441). -/
def _check_iterator (cfg : Config) (iter : Nat) (include_end : Bool) : M (State T) Unit := do
  let s ← get_state
  cassert cfg (decide (iter ≥ s.self.begin) &&
    (if include_end then decide (iter ≤ s.self.end_) else decide (iter < s.self.end_)))

/-- The member function `resize(_size, value)` (source lines 233-245). -/
def resize (cfg : Config) (_size : Nat) (value : T) : M (State T) Unit := do
  let s ← get_state
  if _size > s.self.capacity_ then raise Failure.length_error
  while_loop (fun s => decide (s.self.size > _size)) (pop_back cfg) s.self.size_
  let s ← get_state
  while_loop (fun s => decide (s.self.size_ < _size))
    (do
      let s ← get_state
      _emplace cfg s.self.size_ value
      incr_size)
    (_size - s.self.size_)

/-- The temporary `value_type()` made for the defaulted argument of `resize`. -/
def value_type_init [Inhabited T] : M (State T) T := do
  fallible Failure.element_exception Event.value_init
  pure default

/-- The call `resize(_size)`, whose second argument is the default `value_type()`. -/
def resize_default [Inhabited T] (cfg : Config) (_size : Nat) : M (State T) Unit := do
  let value ← value_type_init
  resize cfg _size value

/-- The member function `clear()` (source lines 316-320). -/
def clear (cfg : Config) : M (State T) Unit := do
  let s ← get_state
  while_loop (fun s => s.self.size != 0) (pop_back cfg) s.self.size_

end fixed_capacity_vector

/-- The order `std::rotate(first, middle, last)` gives to a range that held `l`,
where `k = middle - first`: the element at `middle` comes first. -/
def rotated {α : Type} (l : List α) (k : Nat) : List α := l.drop k ++ l.take k

/-- A `std::reverse_iterator` over element pointers; `current` is the offset of
the wrapped pointer, and the iterator designates the slot `current - 1`. -/
structure reverse_iterator where
  current : Int
  deriving DecidableEq, Repr

/-- The expression `it + n` for a reverse iterator. -/
def reverse_iterator.add (it : reverse_iterator) (n : Nat) : reverse_iterator :=
  { current := it.current - n }

namespace fixed_capacity_vector

variable {T : Type}

/-- The helper `_make_reverse_iter(i)` (source lines 443-447). -/
def _make_reverse_iter (i : Nat) : reverse_iterator := { current := i }

/-- The member function `rbegin()`. -/
def rbegin (v : fixed_capacity_vector T) : reverse_iterator := _make_reverse_iter v.end_

/-- The member function `rend()`. -/
def rend (v : fixed_capacity_vector T) : reverse_iterator := _make_reverse_iter v.begin

/-- The call `std::rotate(first, middle, last)` on pointers into the buffer.
The range must lie inside the buffer and hold elements only. The element moves
of the rotation do not consult the schedule `throws`: this is the rotation as
it is carried out when none of them throws. -/
def rotate (first middle last : Nat) : M (State T) Unit := fun s =>
  let b := slots s.self.buffer_
  if first ≤ middle ∧ middle ≤ last ∧ last ≤ b.length ∧
      ((b.drop first).take (last - first)).all Option.isSome then
    (Outcome.ok (), { s with self := { s.self with buffer_ := s.self.buffer_.map (fun b =>
      b.take first ++ rotated ((b.drop first).take (last - first)) (middle - first) ++ b.drop last) } })
  else (Outcome.fail Failure.undefined, s)

/-- The call `std::rotate(first, middle, last)` on reverse iterators: the range
is the slots `[last.current, first.current)` visited from the back. As for
`rotate`, this is the rotation as it is carried out when no element move
throws. -/
def rotate_reverse (first middle last : reverse_iterator) : M (State T) Unit := fun s =>
  let b := slots s.self.buffer_
  if 0 ≤ last.current ∧ last.current ≤ middle.current ∧ middle.current ≤ first.current ∧
      first.current ≤ b.length ∧
      ((b.drop last.current.toNat).take (first.current - last.current).toNat).all Option.isSome then
    (Outcome.ok (), { s with self := { s.self with buffer_ := s.self.buffer_.map (fun b =>
      b.take last.current.toNat ++
      (rotated ((b.drop last.current.toNat).take (first.current - last.current).toNat).reverse
        (first.current - middle.current).toNat).reverse ++
      b.drop first.current.toNat) } })
  else (Outcome.fail Failure.undefined, s)

/-- The member function `insert(pos, const value_type&)` (source lines 279-290). -/
def insert (cfg : Config) (pos : Nat) (value : T) : M (State T) Nat := do
  let s ← get_state
  if s.self.size = s.self.capacity then raise Failure.length_error
  _check_iterator cfg pos true
  push_back cfg value
  let p := pos
  let s ← get_state
  rotate_reverse s.self.rbegin (s.self.rbegin.add 1) (_make_reverse_iter p)
  pure p

/-- The member function `erase(pos)` (source lines 305-314). -/
def erase (cfg : Config) (pos : Nat) : M (State T) Nat := do
  _check_iterator cfg pos false
  let p := pos
  let s ← get_state
  rotate p (p + 1) s.self.end_
  pop_back cfg
  pure p

/-- The strategy call `allocator_traits::allocate(allocator_, n)`: raw storage for `n` elements. -/
def allocate (n : Nat) : M (State T) (Option (List (Option T))) := do
  let s ← get_state
  fallible Failure.bad_alloc (Event.allocate s.self.allocator_ n)
  pure (some (List.replicate n none))

/-- The strategy call `allocator_traits::deallocate(allocator_, buffer_, n)`. -/
def deallocate (n : Nat) : M (State T) Unit := fun s =>
  (Outcome.ok (), { s with world := s.world.noted (Event.deallocate s.self.allocator_ n) })

/-- The helper `_alloc(_capacity)` (source lines 381-386). -/
def _alloc (cfg : Config) (_capacity : Nat) : M (State T) Unit := do
  let s ← get_state
  cassert cfg s.self.buffer_.isNone
  let buffer ← (if _capacity ≠ 0 then allocate _capacity else pure none)
  fun s => (Outcome.ok (), { s with self := { s.self with buffer_ := buffer, capacity_ := _capacity } })

/-- The helper `_free()` (source lines 388-397). -/
def _free (cfg : Config) : M (State T) Unit := do
  let s ← get_state
  if s.self.capacity_ ≠ 0 then
    cassert cfg s.self.buffer_.isSome
    deallocate s.self.capacity_
    fun s => (Outcome.ok (), { s with self := { s.self with capacity_ := 0, buffer_ := none } })

/-- The statement `*dst = *src` on elements: copy assignment of the element type. -/
def assign_element (dst : Nat) (src : List (Option T)) : M (State T) Unit := do
  let value ← deref src
  fallible Failure.element_exception (Event.assign dst value)
  let s ← get_state
  match (slots s.self.buffer_)[dst]? with
  | some (some _) =>
    fun s => (Outcome.ok (), { s with self := { s.self with
      buffer_ := s.self.buffer_.map (fun b => b.set dst (some value)) } })
  | _ => raise Failure.undefined

/-- The helper `_copy_assign(n, dst, src)` (source lines 399-403). -/
def _copy_assign : Nat → Nat → List (Option T) → M (State T) Unit
  | 0, _, _ => pure ()
  | n + 1, dst, src => do
    assign_element dst src
    _copy_assign n (dst + 1) src.tail

/-- The loop of `_copy_construct`: `for(p = buffer_ + size(); n > 0; --n, ++size_) _emplace(p++, *src++)`. -/
def _copy_construct_loop (cfg : Config) : Nat → Nat → List (Option T) → M (State T) Unit
  | 0, _, _ => pure ()
  | n + 1, p, src => do
    let value ← deref src
    _emplace cfg p value
    incr_size
    _copy_construct_loop cfg n (p + 1) src.tail

/-- The helper `_copy_construct(n, src)` (source lines 405-411). -/
def _copy_construct (cfg : Config) (n : Nat) (src : List (Option T)) : M (State T) Unit := do
  let s ← get_state
  cassert cfg (s.self.buffer_.isNone == decide (n = 0))
  cassert cfg (decide ((s.self.size + n) % size_type_mod ≤ s.self.capacity))
  _copy_construct_loop cfg n s.self.size src

/-- The helper `_swap_state(lhs, rhs)` (source lines 430-435), called with `*this` and `other`. -/
def _swap_state : M (State2 T) Unit := fun s =>
  (Outcome.ok (),
   { s with
     self := { s.self with size_ := s.other.size_, capacity_ := s.other.capacity_, buffer_ := s.other.buffer_ },
     other := { s.other with size_ := s.self.size_, capacity_ := s.self.capacity_, buffer_ := s.self.buffer_ } })

/-- The constructor `fixed_capacity_vector(_capacity, allocator)` (source lines 31-35). -/
def ctor (cfg : Config) (_capacity : Nat) (allocator : Nat) (w : World T) : Outcome Unit × State T :=
  _alloc cfg _capacity
    { self := { capacity_ := 0, allocator_ := allocator, buffer_ := none, size_ := 0 }, world := w }

/-- The copy constructor (source lines 37-43). -/
def ctor_copy (cfg : Config) (other : fixed_capacity_vector T) (w : World T) :
    Outcome Unit × State2 T :=
  (do
    on_self (_alloc cfg other.capacity)
    on_self (_copy_construct cfg other.size (slots other.buffer_)) : M (State2 T) Unit)
    { self := { capacity_ := 0, buffer_ := none, size_ := 0,
                allocator_ := cfg.select_on_container_copy_construction other.allocator_ },
      other := other, world := w }

/-- The move constructor (source lines 45-50). -/
def ctor_move (other : fixed_capacity_vector T) (w : World T) : Outcome Unit × State2 T :=
  _swap_state
    { self := { capacity_ := 0, buffer_ := none, size_ := 0, allocator_ := other.allocator_ },
      other := other, world := w }

/-- The constructor from a capacity and an initializer list (source lines 52-62). -/
def ctor_il (cfg : Config) (capacity : Nat) (il : List T) (allocator : Nat) (w : World T) :
    Outcome Unit × State T :=
  (do
    if il.length > capacity then raise Failure.length_error
    _alloc cfg capacity
    _copy_construct cfg (il.length % size_type_mod) (il.map some) : M (State T) Unit)
    { self := { capacity_ := 0, allocator_ := allocator, buffer_ := none, size_ := 0 }, world := w }

/-- Copy assignment `*this = other` for `this != &other` (source lines 64-95). -/
def assign_copy [Inhabited T] (cfg : Config) : M (State2 T) Unit := do
  let s ← get_state
  if cfg.propagate_on_container_copy_assignment && s.self.allocator_ != s.other.allocator_ then
    on_self (clear cfg)
    on_self (_free cfg)
    (fun s => (Outcome.ok (), { s with self := { s.self with allocator_ := s.other.allocator_ } }) :
      M (State2 T) Unit)
    on_self (_alloc cfg s.other.capacity)
  else if s.self.capacity_ != s.other.capacity then
    on_self (clear cfg)
    on_self (_free cfg)
    on_self (_alloc cfg s.other.capacity)
  let s ← get_state
  if s.self.size ≥ s.other.size then
    on_self (resize_default cfg s.other.size)
    on_self (_copy_assign s.other.size 0 (slots s.other.buffer_))
  else
    on_self (_copy_assign s.self.size 0 (slots s.other.buffer_))
    let s ← get_state
    on_self (_copy_construct cfg (s.other.size - s.self.size) ((slots s.other.buffer_).drop s.self.size))

/-- Move assignment `*this = std::move(other)` for `this != &other` (source lines 97-114). -/
def assign_move (cfg : Config) : M (State2 T) Unit := do
  on_self (clear cfg)
  on_self (_free cfg)
  let s ← get_state
  if cfg.propagate_on_container_move_assignment && s.self.allocator_ != s.other.allocator_ then
    (fun s => (Outcome.ok (), { s with self := { s.self with allocator_ := s.other.allocator_ } }) :
      M (State2 T) Unit)
  let s ← get_state
  cassert cfg (s.self.size_ == 0 && s.self.capacity_ == 0 && s.self.buffer_.isNone)
  _swap_state

/-- Assignment from an initializer list (source lines 116-133). -/
def assign_il [Inhabited T] (cfg : Config) (il : List T) : M (State T) Unit := do
  let s ← get_state
  if s.self.capacity < il.length then raise Failure.length_error
  if il.length ≤ s.self.size then
    resize_default cfg (il.length % size_type_mod)
    _copy_assign (il.length % size_type_mod) 0 (il.map some)
  else
    _copy_assign s.self.size 0 (il.map some)
    let s ← get_state
    _copy_construct cfg ((il.length - s.self.size) % size_type_mod) ((il.map some).drop s.self.size)

/-- The member function `swap(other)` for `this != &other` (source lines 135-145). -/
def swap (cfg : Config) : M (State2 T) Unit := do
  if cfg.propagate_on_container_swap then
    (fun s => (Outcome.ok (), { s with self := { s.self with allocator_ := s.other.allocator_ },
                                       other := { s.other with allocator_ := s.self.allocator_ } }) :
      M (State2 T) Unit)
  _swap_state

/-- The destructor (source lines 147-151). -/
def dtor (cfg : Config) : M (State T) Unit := do
  clear cfg
  _free cfg

/-- The calls `push_back(v)` for the values `v` of a list, in order. -/
def push_each (cfg : Config) : List T → M (State T) Unit
  | [] => pure ()
  | v :: vs => do
    push_back cfg v
    push_each cfg vs

end fixed_capacity_vector

/-! ## Concrete builds and containers -/

/-- A build with `assert` active, an element type with a destructor, and the
propagation traits of `std::allocator`. -/
def debug_build : Config :=
  { ndebug := false, _req_destruction := true,
    propagate_on_container_copy_assignment := false,
    propagate_on_container_move_assignment := true,
    propagate_on_container_swap := false,
    select_on_container_copy_construction := fun a => a }

/-- A world in which nothing throws. -/
def calm_world : World Nat := { throws := fun _ => false, clock := 0, trace := [] }

/-- The container of capacity 5 holding 10, 20, 30. -/
def sample_vector : fixed_capacity_vector Nat :=
  { buffer_ := some [some 10, some 20, some 30, none, none], size_ := 3, capacity_ := 5,
    allocator_ := 0 }

/-- The container of capacity 3 holding nothing, as `fixed_capacity_vector<int> a(3)` builds it. -/
def empty_vector : fixed_capacity_vector Nat :=
  { buffer_ := some [none, none, none], size_ := 0, capacity_ := 3, allocator_ := 0 }

/-- The container of capacity 2 holding 1, 2. -/
def full_vector : fixed_capacity_vector Nat :=
  { buffer_ := some [some 1, some 2], size_ := 2, capacity_ := 2, allocator_ := 0 }

end fcv

namespace fcv

variable {T : Type}

/-! ## Traces -/

/-- The calls `destroy` that popping the elements at the offsets `hi - 1` down to `lo` makes. -/
def destroy_events : Nat → Nat → List (Event T)
  | 0, _ => []
  | hi + 1, lo => if lo ≤ hi then Event.destroy hi :: destroy_events hi lo else []

/-- The calls to element assignment that copying the elements of `src` to the offsets from
`dst` on makes, up to the first slot of `src` that holds no element. -/
def assign_events : Nat → List (Option T) → List (Event T)
  | dst, some x :: tl => Event.assign dst x :: assign_events (dst + 1) tl
  | _, _ => []

/-- The calls to `construct` that copying the elements of `src` to the offsets from `dst` on
makes, up to the first slot of `src` that holds no element. -/
def construct_events : Nat → List (Option T) → List (Event T)
  | dst, some x :: tl => Event.construct dst x :: construct_events (dst + 1) tl
  | _, _ => []

/-! ## Element access and traversal -/

namespace fixed_capacity_vector

/-- The member function `at(index)` (source lines 346-356): `*(buffer_ + index)`. -/
def at_ (cfg : Config) (index : Nat) : M (State T) T := do
  let s ← get_state
  cassert cfg (decide (index < s.self.size_))
  deref ((slots s.self.buffer_).drop index)

/-- The loop `for(it = first; it != last; ++it) visit(*it)` over element pointers, run for at
most `fuel` steps; it returns the offsets visited, each with the element read there. -/
def traverse : Nat → Nat → Nat → M (State T) (List (Nat × T))
  | 0, it, last => if it = last then pure [] else raise Failure.fuel
  | fuel + 1, it, last =>
    if it = last then pure [] else do
      let s ← get_state
      let x ← deref ((slots s.self.buffer_).drop it)
      let rest ← traverse fuel (it + 1) last
      pure ((it, x) :: rest)

end fixed_capacity_vector

/-- The expression `++it` for a reverse iterator: the wrapped pointer steps back. -/
def reverse_iterator.next (it : reverse_iterator) : reverse_iterator :=
  { current := it.current - 1 }

/-- The expression `*it` for a reverse iterator over the buffer `buffer`: the element before
the wrapped pointer, `*(current - 1)`. -/
def reverse_iterator.deref {σ T : Type} (it : reverse_iterator) (buffer : Option (List (Option T))) :
    M σ T :=
  if 1 ≤ it.current then fcv.deref ((slots buffer).drop (it.current - 1).toNat)
  else raise Failure.undefined

namespace fixed_capacity_vector

/-- The loop `for(it = first; it != last; ++it) visit(*it)` over reverse iterators, run for at
most `fuel` steps; it returns the offsets visited, each with the element read there. -/
def traverse_reverse : Nat → reverse_iterator → reverse_iterator → M (State T) (List (Nat × T))
  | 0, it, last => if it = last then pure [] else raise Failure.fuel
  | fuel + 1, it, last =>
    if it = last then pure [] else do
      let s ← get_state
      let x ← it.deref s.self.buffer_
      let rest ← traverse_reverse fuel it.next last
      pure (((it.current - 1).toNat, x) :: rest)

end fixed_capacity_vector

/-! ## Object lifetimes -/

namespace fixed_capacity_vector

/-- The two conditions `_copy_construct(n, src)` asserts (source lines 407-408), evaluated on
the container the helper is called on. -/
def _copy_construct_assertions (n : Nat) (v : fixed_capacity_vector T) : Bool :=
  (v.buffer_.isNone == decide (n = 0)) && decide ((v.size + n) % size_type_mod ≤ v.capacity)

/-- The life of an object initialised by the copy constructor. When the constructor returns,
the destructor runs at the end of the lifetime. When the constructor exits by an exception
the object never began to exist and its destructor is not run; its members, a raw pointer
and integers, release nothing. -/
def lifetime_ctor_copy (cfg : Config) (other : fixed_capacity_vector T) (w : World T) :
    Outcome Unit × State2 T :=
  match ctor_copy cfg other w with
  | (Outcome.ok _, s) => on_self (dtor cfg) s
  | (Outcome.fail e, s) => (Outcome.fail e, s)

/-- The life of an object initialised by the constructor from an initializer list, as for
`lifetime_ctor_copy`. -/
def lifetime_ctor_il (cfg : Config) (capacity : Nat) (il : List T) (allocator : Nat)
    (w : World T) : Outcome Unit × State T :=
  match ctor_il cfg capacity il allocator w with
  | (Outcome.ok _, s) => dtor cfg s
  | (Outcome.fail e, s) => (Outcome.fail e, s)

end fixed_capacity_vector

/-- The number of buffers obtained from `allocate` in a trace. -/
def allocations (events : List (Event T)) : Nat :=
  events.countP (fun e => match e with | Event.allocate _ _ => true | _ => false)

/-- The number of buffers passed to `deallocate` in a trace. -/
def deallocations (events : List (Event T)) : Nat :=
  events.countP (fun e => match e with | Event.deallocate _ _ => true | _ => false)

/-- The number of elements constructed in the buffer in a trace. -/
def constructions (events : List (Event T)) : Nat :=
  events.countP (fun e => match e with | Event.construct _ _ => true | _ => false)

/-- The number of elements destroyed in a trace. -/
def destructions (events : List (Event T)) : Nat :=
  events.countP (fun e => match e with | Event.destroy _ => true | _ => false)

/-- Every element assignment of the trace comes before every call of `destroy`. -/
def assignments_before_destructions (events : List (Event T)) : Prop :=
  ∀ (i j d k : Nat) (x : T), events[i]? = some (Event.destroy d) → events[j]? = some (Event.assign k x) → j < i

/-- The container of capacity 5 holding 1, 2. -/
def short_vector : fixed_capacity_vector Nat :=
  { buffer_ := some [some 1, some 2, none, none, none], size_ := 2, capacity_ := 5,
    allocator_ := 0 }

/-! ## Reachable container states -/

/-- The call returned, or ended with an exception the caller can catch; it did not end in a
failed assertion or in undefined behaviour. -/
def Outcome.caught {α : Type} : Outcome α → Prop
  | Outcome.ok _ => True
  | Outcome.fail Failure.length_error => True
  | Outcome.fail Failure.element_exception => True
  | Outcome.fail Failure.bad_alloc => True
  | Outcome.fail _ => False

/-- The public operations on one container. -/
inductive Call (T : Type) where
  | push_back (v : T)
  | pop_back
  | insert (pos : Nat) (v : T)
  | erase (pos : Nat)
  | resize (n : Nat) (v : T)
  | resize_default (n : Nat)
  | clear
  | assign_il (il : List T)

/-- The public operations on two distinct containers. -/
inductive Call2 where
  | assign_copy
  | assign_move
  | swap

namespace fixed_capacity_vector

/-- The part of the class invariant that concerns the sizes and the buffer pointer:
`size <= capacity`, the capacity is a `size_type`, the buffer is null exactly when the
capacity is zero, and it has `capacity` slots. -/
def inv (v : fixed_capacity_vector T) : Prop :=
  v.size_ ≤ v.capacity_ ∧ v.capacity_ < size_type_mod ∧
  (v.buffer_ = none ↔ v.capacity_ = 0) ∧
  (slots v.buffer_).length = v.capacity_

/-- The computation leaves a container that satisfies `inv`, however it ends, when it starts
from one. -/
def keeps_inv {α : Type} (m : M (State T) α) : Prop :=
  ∀ s : State T, s.self.inv → (m s).2.self.inv

end fixed_capacity_vector

/-- The documented precondition of a call. -/
def Call.pre : Call T → fixed_capacity_vector T → Prop
  | Call.pop_back, v => 0 < v.size_
  | Call.insert pos _, v => pos ≤ v.size_
  | Call.erase pos, v => pos < v.size_
  | _, _ => True

/-- The member function a call stands for. -/
def Call.run [Inhabited T] (cfg : Config) : Call T → M (State T) Unit
  | Call.push_back v => fixed_capacity_vector.push_back cfg v
  | Call.pop_back => fixed_capacity_vector.pop_back cfg
  | Call.insert pos v => do
    let _ ← fixed_capacity_vector.insert cfg pos v
    pure ()
  | Call.erase pos => do
    let _ ← fixed_capacity_vector.erase cfg pos
    pure ()
  | Call.resize n v => fixed_capacity_vector.resize cfg n v
  | Call.resize_default n => fixed_capacity_vector.resize_default cfg n
  | Call.clear => fixed_capacity_vector.clear cfg
  | Call.assign_il il => fixed_capacity_vector.assign_il cfg il

/-- The member function a call on two containers stands for. -/
def Call2.run [Inhabited T] (cfg : Config) : Call2 → M (State2 T) Unit
  | Call2.assign_copy => fixed_capacity_vector.assign_copy cfg
  | Call2.assign_move => fixed_capacity_vector.assign_move cfg
  | Call2.swap => fixed_capacity_vector.swap cfg

/-- The container states that a program can reach: those a constructor returns, and those
left, in any world, by a public operation called within its precondition on reachable
containers, whether the call returns or throws. -/
inductive Reachable [Inhabited T] (cfg : Config) : fixed_capacity_vector T → Prop
  | ctor (c a : Nat) (w : World T) (hc : c < size_type_mod)
      (h : (fixed_capacity_vector.ctor cfg c a w).1 = Outcome.ok ()) :
      Reachable cfg (fixed_capacity_vector.ctor cfg c a w).2.self
  | ctor_il (c : Nat) (il : List T) (a : Nat) (w : World T) (hc : c < size_type_mod)
      (h : (fixed_capacity_vector.ctor_il cfg c il a w).1 = Outcome.ok ()) :
      Reachable cfg (fixed_capacity_vector.ctor_il cfg c il a w).2.self
  | ctor_copy (other : fixed_capacity_vector T) (w : World T) (ho : Reachable cfg other)
      (h : (fixed_capacity_vector.ctor_copy cfg other w).1 = Outcome.ok ()) :
      Reachable cfg (fixed_capacity_vector.ctor_copy cfg other w).2.self
  | ctor_move_receiver (other : fixed_capacity_vector T) (w : World T) (ho : Reachable cfg other) :
      Reachable cfg (fixed_capacity_vector.ctor_move other w).2.self
  | ctor_move_donor (other : fixed_capacity_vector T) (w : World T) (ho : Reachable cfg other) :
      Reachable cfg (fixed_capacity_vector.ctor_move other w).2.other
  | call (v : fixed_capacity_vector T) (w : World T) (c : Call T) (hv : Reachable cfg v)
      (hpre : c.pre v) (h : (c.run cfg { self := v, world := w }).1.caught) :
      Reachable cfg (c.run cfg { self := v, world := w }).2.self
  | call2_self (a b : fixed_capacity_vector T) (w : World T) (c : Call2) (ha : Reachable cfg a)
      (hb : Reachable cfg b) (h : (c.run cfg { self := a, other := b, world := w }).1.caught) :
      Reachable cfg (c.run cfg { self := a, other := b, world := w }).2.self
  | call2_other (a b : fixed_capacity_vector T) (w : World T) (c : Call2) (ha : Reachable cfg a)
      (hb : Reachable cfg b) (h : (c.run cfg { self := a, other := b, world := w }).1.caught) :
      Reachable cfg (c.run cfg { self := a, other := b, world := w }).2.other

/-- A world whose call number `k` (counted from 0) throws and no other. -/
def world_throwing_at (k : Nat) : World Nat :=
  { throws := fun n => decide (n = k), clock := 0, trace := [] }

end fcv

namespace fcv

variable {T : Type}

/-! ## Sequencing -/

theorem M.bind_run {σ α β : Type} (m : M σ α) (f : α → M σ β) (s : σ) :
    (m >>= f) s = M.bind m f s := rfl

theorem M.pure_run {σ α : Type} (a : α) (s : σ) :
    (pure a : M σ α) s = (Outcome.ok a, s) := rfl

theorem M.bind_ok {σ α β : Type} {m : M σ α} {f : α → M σ β} {s s1 : σ} {a : α}
    (h : m s = (Outcome.ok a, s1)) : M.bind m f s = f a s1 := by
  simp [M.bind, h]

theorem M.bind_fail {σ α β : Type} {m : M σ α} {f : α → M σ β} {s s1 : σ} {e : Failure}
    (h : m s = (Outcome.fail e, s1)) : M.bind m f s = (Outcome.fail e, s1) := by
  simp [M.bind, h]

theorem cassert_ok {σ : Type} (cfg : Config) (c : Bool) (s : σ) (h : cfg.ndebug = true ∨ c = true) :
    cassert cfg c s = (Outcome.ok (), s) := by
  rcases h with h | h <;> simp [cassert, h]

theorem cassert_fail {σ : Type} (cfg : Config) (c : Bool) (s : σ) (hd : cfg.ndebug = false)
    (hc : c = false) : cassert cfg c s = (Outcome.fail Failure.assertion, s) := by
  simp [cassert, hd, hc]

theorem fallible_ok (e : Failure) (ev : Event T) (s : State T) (hq : s.world.quiet) :
    fallible e ev s = (Outcome.ok (), { s with world := s.world.completed ev }) := by
  simp [fallible, hq s.world.clock]

theorem quiet_completed {w : World T} (ev : Event T) (hq : w.quiet) : (w.completed ev).quiet :=
  fun k => hq k

theorem quiet_noted {w : World T} (ev : Event T) (hq : w.quiet) : (w.noted ev).quiet :=
  fun k => hq k

theorem quiet_of_throws_eq {w w1 : World T} (h : w1.throws = w.throws) (hq : w.quiet) : w1.quiet :=
  fun k => by rw [h]; exact hq k

namespace fixed_capacity_vector

/-! ## The class invariant -/

theorem wf_buffer {v : fixed_capacity_vector T} (h : v.wf) (hc : 0 < v.capacity_) :
    ∃ b, v.buffer_ = some b ∧ b.length = v.capacity_ := by
  obtain ⟨_, _, h3, h4, _⟩ := h
  cases hb : v.buffer_ with
  | none => exact absurd (h3.mp hb) (by omega)
  | some b => exact ⟨b, rfl, by simpa [slots, hb] using h4⟩

theorem wf_live {v : fixed_capacity_vector T} (h : v.wf) {i : Nat} (hi : i < v.size_) :
    ∃ x, (slots v.buffer_)[i]? = some (some x) := by
  obtain ⟨h1, _, _, h4, h5⟩ := h
  have hlen : i < (slots v.buffer_).length := by omega
  have hmem : (slots v.buffer_)[i] ∈ v.elements := by
    unfold elements
    rw [List.mem_take_iff_getElem]
    exact ⟨i, by simp; omega, rfl⟩
  have hne := h5 _ hmem
  cases hx : (slots v.buffer_)[i] with
  | none => exact absurd hx hne
  | some x => exact ⟨x, by rw [List.getElem?_eq_getElem hlen, hx]⟩

theorem elements_length {v : fixed_capacity_vector T} (h : v.wf) : v.elements.length = v.size_ := by
  obtain ⟨h1, _, _, h4, _⟩ := h
  simp [elements, h4, h1]

end fixed_capacity_vector
end fcv

namespace fcv
namespace fixed_capacity_vector
variable {T : Type}

/-! ## push_back and pop_back -/

theorem take_set_of_le {α : Type} (b : List α) (n m : Nat) (x : α) (h : m ≤ n) :
    (b.set n x).take m = b.take m := by
  apply List.ext_getElem?
  intro i
  rw [List.getElem?_take, List.getElem?_take]
  split
  · rw [List.getElem?_set_ne (by omega)]
  · rfl

theorem take_succ_set {α : Type} (b : List α) (n : Nat) (x : α) (h : n < b.length) :
    (b.set n x).take (n + 1) = b.take n ++ [x] := by
  rw [List.take_succ, take_set_of_le b n n x (le_refl n)]
  simp [h]

theorem size_type_mod_eq : size_type_mod = 4294967296 := rfl

theorem _emplace_ok (cfg : Config) (dst : Nat) (v : T) (s : State T) (b : List (Option T))
    (hb : s.self.buffer_ = some b) (hlen : b.length = s.self.capacity_)
    (hd : dst < s.self.capacity_) (hq : s.world.quiet) :
    _emplace cfg dst v s = (Outcome.ok (),
      { self := { s.self with buffer_ := some (b.set dst (some v)) },
        world := s.world.completed (Event.construct dst v) }) := by
  have hqq := hq s.world.clock
  simp [_emplace, M.bind_run, M.bind, get_state, cassert, construct, fallible, hb, hd, hqq, hlen,
    ite_apply]

theorem push_back_eq (cfg : Config) (v : T) (s : State T) (hwf : s.self.wf)
    (hlt : s.self.size_ < s.self.capacity_) (hq : s.world.quiet) :
    push_back cfg v s = (Outcome.ok (),
      { self := { s.self with buffer_ := some ((slots s.self.buffer_).set s.self.size_ (some v)),
                              size_ := s.self.size_ + 1 },
        world := s.world.completed (Event.construct s.self.size_ v) }) := by
  obtain ⟨b, hb, hlen⟩ := wf_buffer hwf (by omega)
  have hne : s.self.size_ ≠ s.self.capacity_ := by omega
  have h2 : s.self.capacity_ < size_type_mod := hwf.2.1
  have hmod : (s.self.size_ + 1) % size_type_mod = s.self.size_ + 1 :=
    Nat.mod_eq_of_lt (by simp only [size_type_mod] at *; omega)
  simp [push_back, M.bind_run, get_state, M.bind, ite_apply, hne, M.pure_run,
    _emplace_ok cfg s.self.size_ v s b hb hlen hlt hq, incr_size, hmod, slots, hb]

theorem push_back_full (cfg : Config) (v : T) (s : State T)
    (hfull : s.self.size_ = s.self.capacity_) :
    push_back cfg v s = (Outcome.fail Failure.length_error, s) := by
  simp [push_back, M.bind_run, get_state, M.bind, ite_apply, hfull, raise]

theorem push_back_spec (cfg : Config) (v : T) (s : State T) (hwf : s.self.wf)
    (hlt : s.self.size_ < s.self.capacity_) (hq : s.world.quiet) :
    ∃ s1, push_back cfg v s = (Outcome.ok (), s1) ∧ s1.self.wf ∧
      s1.self.size_ = s.self.size_ + 1 ∧ s1.self.capacity_ = s.self.capacity_ ∧
      s1.self.allocator_ = s.self.allocator_ ∧
      s1.self.elements = s.self.elements ++ [some v] ∧ s1.world.quiet := by
  obtain ⟨b, hb, hlen⟩ := wf_buffer hwf (by omega)
  refine ⟨_, push_back_eq cfg v s hwf hlt hq, ?_, rfl, rfl, rfl, ?_, quiet_completed _ hq⟩
  · obtain ⟨h1, h2, h3, h4, h5⟩ := hwf
    refine ⟨by simp; omega, h2, by simp; omega, by simpa [slots] using h4, ?_⟩
    intro x hx
    simp only [elements, slots, Option.getD_some, hb] at hx h5
    rw [take_succ_set _ _ _ (by omega)] at hx
    rcases List.mem_append.mp hx with hx | hx
    · exact h5 x hx
    · simp at hx; simp [hx]
  · simp only [elements, slots, Option.getD_some, hb]
    exact take_succ_set _ _ _ (by omega)

theorem pop_back_spec (cfg : Config) (s : State T) (hwf : s.self.wf) (hpos : 0 < s.self.size_) :
    ∃ s1, pop_back cfg s = (Outcome.ok (), s1) ∧ s1.self.wf ∧
      s1.self.size_ = s.self.size_ - 1 ∧ s1.self.capacity_ = s.self.capacity_ ∧
      s1.self.allocator_ = s.self.allocator_ ∧
      s1.self.elements = s.self.elements.take (s.self.size_ - 1) ∧
      s1.world.throws = s.world.throws ∧ s1.world.clock = s.world.clock := by
  obtain ⟨b, hb, hlen⟩ := wf_buffer hwf (by have := hwf.1; omega)
  obtain ⟨x, hx⟩ := wf_live hwf (show s.self.size_ - 1 < s.self.size_ by omega)
  obtain ⟨h1, h2, h3, h4, h5⟩ := hwf
  have h2l : s.self.capacity_ < 4294967296 := h2
  have hne : ¬ s.self.size_ = 0 := by omega
  simp only [slots, hb, Option.getD_some] at hx
  have hel : ∀ x ∈ List.take (s.self.size_ - 1) b, x ≠ none := by
    intro y hy
    apply h5 y
    simp only [elements, slots, hb, Option.getD_some]
    have : List.take (s.self.size_ - 1) b = List.take (s.self.size_ - 1) (List.take s.self.size_ b) := by
      rw [List.take_take, min_eq_left (by omega)]
    rw [this] at hy
    exact List.mem_of_mem_take hy
  cases hreq : cfg._req_destruction
  · refine ⟨{ s with self := { s.self with size_ := s.self.size_ - 1 } }, ?_, ?_, rfl, rfl, rfl, ?_, rfl, rfl⟩
    · simp [pop_back, M.bind_run, M.bind, get_state, cassert, empty, size, hne, ite_apply,
        decr_size, _destroy, hb, hreq, M.pure_run]
    · refine ⟨by simp; omega, h2, h3, h4, ?_⟩
      simpa [elements, slots, hb] using hel
    · simp [elements, List.take_take]
  · refine ⟨{ self := { s.self with size_ := s.self.size_ - 1,
                                    buffer_ := some (b.set (s.self.size_ - 1) none) },
              world := s.world.noted (Event.destroy (s.self.size_ - 1)) }, ?_, ?_, rfl, rfl, rfl, ?_, rfl, rfl⟩
    · simp [pop_back, M.bind_run, M.bind, get_state, cassert, empty, size, hne, ite_apply,
        decr_size, _destroy, hb, hreq, destroy, hx]
    · refine ⟨by simp; omega, h2, by simp; omega, by simpa [slots] using hlen, ?_⟩
      simpa [elements, slots, take_set_of_le] using hel
    · simp [elements, slots, hb, List.take_take, take_set_of_le]
end fixed_capacity_vector
end fcv

namespace fcv
namespace fixed_capacity_vector
variable {T : Type}

/-! ## Loops: resize and clear -/

theorem while_loop_done {σ : Type} (cond : σ → Bool) (body : M σ Unit) (fuel : Nat) (s : σ)
    (h : cond s = false) : while_loop cond body fuel s = (Outcome.ok (), s) := by
  cases fuel <;> simp [while_loop, h]

theorem while_loop_step {σ : Type} (cond : σ → Bool) (body : M σ Unit) (fuel : Nat) (s : σ)
    (h : cond s = true) :
    while_loop cond body (fuel + 1) s = M.bind body (fun _ => while_loop cond body fuel) s := by
  simp [while_loop, h]

theorem shrink_loop_spec (cfg : Config) (n : Nat) (fuel : Nat) (s : State T) (hwf : s.self.wf)
    (hfuel : s.self.size_ - n ≤ fuel) :
    ∃ s1, while_loop (fun s => decide (s.self.size > n)) (pop_back cfg) fuel s = (Outcome.ok (), s1) ∧
      s1.self.wf ∧ s1.self.size_ = min s.self.size_ n ∧ s1.self.capacity_ = s.self.capacity_ ∧
      s1.self.allocator_ = s.self.allocator_ ∧
      s1.self.elements = s.self.elements.take n ∧
      s1.world.throws = s.world.throws ∧ s1.world.clock = s.world.clock := by
  induction fuel generalizing s with
  | zero =>
    have hle : s.self.size_ ≤ n := by omega
    refine ⟨s, ?_, hwf, by omega, rfl, rfl, ?_, rfl, rfl⟩
    · simp [while_loop, size, hle]
    · rw [List.take_of_length_le]
      rw [elements_length hwf]; exact hle
  | succ fuel ih =>
    by_cases hgt : s.self.size_ > n
    · obtain ⟨s1, h1, hwf1, hs1, hc1, ha1, he1, ht1, hk1⟩ := pop_back_spec cfg s hwf (by omega)
      obtain ⟨s2, h2, hwf2, hs2, hc2, ha2, he2, ht2, hk2⟩ := ih s1 hwf1 (by omega)
      refine ⟨s2, ?_, hwf2, by omega, by omega, by rw [ha2, ha1], ?_, by rw [ht2, ht1], by omega⟩
      · rw [while_loop_step _ _ _ _ (by simp [size, hgt]), M.bind_ok h1, h2]
      · rw [he2, he1, List.take_take, min_eq_left (by omega)]
    · have hle : s.self.size_ ≤ n := by omega
      refine ⟨s, ?_, hwf, by omega, rfl, rfl, ?_, rfl, rfl⟩
      · simp [while_loop, size, hle]
      · rw [List.take_of_length_le]
        rw [elements_length hwf]; exact hle

theorem grow_loop_spec (cfg : Config) (n : Nat) (v : T) (fuel : Nat) (s : State T) (hwf : s.self.wf)
    (hn : n ≤ s.self.capacity_) (hq : s.world.quiet) (hfuel : n - s.self.size_ ≤ fuel) :
    ∃ s1, while_loop (fun s => decide (s.self.size_ < n))
        (do
          let s ← get_state
          _emplace cfg s.self.size_ v
          incr_size) fuel s = (Outcome.ok (), s1) ∧
      s1.self.wf ∧ s1.self.size_ = max s.self.size_ n ∧ s1.self.capacity_ = s.self.capacity_ ∧
      s1.self.allocator_ = s.self.allocator_ ∧
      s1.self.elements = s.self.elements ++ List.replicate (n - s.self.size_) (some v) ∧
      s1.world.quiet := by
  have hbody : ∀ s : State T, (do
          let s ← get_state
          _emplace cfg s.self.size_ v
          incr_size : M (State T) Unit) s = push_back cfg v s ∨ s.self.size_ = s.self.capacity_ := by
    intro s
    by_cases h : s.self.size_ = s.self.capacity_
    · exact Or.inr h
    · left
      simp [push_back, M.bind_run, M.bind, get_state, h, ite_apply, M.pure_run]
  induction fuel generalizing s with
  | zero =>
    have hle : ¬ s.self.size_ < n := by omega
    refine ⟨s, ?_, hwf, by omega, rfl, rfl, ?_, hq⟩
    · simp [while_loop, hle]
    · simp [show n - s.self.size_ = 0 by omega]
  | succ fuel ih =>
    by_cases hlt : s.self.size_ < n
    · obtain ⟨s1, h1, hwf1, hs1, hc1, ha1, he1, hq1⟩ := push_back_spec cfg v s hwf (by omega) hq
      obtain ⟨s2, h2, hwf2, hs2, hc2, ha2, he2, hq2⟩ := ih s1 hwf1 (by omega) hq1 (by omega)
      have hb := (hbody s).resolve_right (by omega)
      refine ⟨s2, ?_, hwf2, by omega, by omega, by rw [ha2, ha1], ?_, hq2⟩
      · simp only [while_loop, hlt, decide_True, if_true]
        rw [M.bind_ok (hb.trans h1), h2]
      · rw [he2, he1, hs1, List.append_assoc]
        congr 1
        rw [show n - s.self.size_ = (n - (s.self.size_ + 1)) + 1 by omega, List.replicate_succ]
        simp
    · refine ⟨s, ?_, hwf, by omega, rfl, rfl, ?_, hq⟩
      · simp [while_loop, hlt]
      · simp [show n - s.self.size_ = 0 by omega]

theorem resize_too_large (cfg : Config) (n : Nat) (v : T) (s : State T) (h : n > s.self.capacity_) :
    resize cfg n v s = (Outcome.fail Failure.length_error, s) := by
  simp [resize, M.bind_run, M.bind, get_state, h, ite_apply, raise]

theorem resize_spec (cfg : Config) (n : Nat) (v : T) (s : State T) (hwf : s.self.wf)
    (hn : n ≤ s.self.capacity_) (hq : s.world.quiet) :
    ∃ s1, resize cfg n v s = (Outcome.ok (), s1) ∧ s1.self.wf ∧ s1.self.size_ = n ∧
      s1.self.capacity_ = s.self.capacity_ ∧ s1.self.allocator_ = s.self.allocator_ ∧
      s1.self.elements = s.self.elements.take n ++ List.replicate (n - s.self.size_) (some v) ∧
      s1.world.quiet := by
  obtain ⟨s1, h1, hwf1, hs1, hc1, ha1, he1, ht1, _⟩ :=
    shrink_loop_spec cfg n s.self.size_ s hwf (by omega)
  obtain ⟨s2, h2, hwf2, hs2, hc2, ha2, he2, hq2⟩ :=
    grow_loop_spec cfg n v (n - s1.self.size_) s1 hwf1 (by omega) (quiet_of_throws_eq ht1 hq)
      (le_refl _)
  have hng : ¬ n > s.self.capacity_ := by omega
  refine ⟨s2, ?_, hwf2, by omega, by omega, by rw [ha2, ha1], ?_, hq2⟩
  · simp only [resize, M.bind_run, get_state, M.bind, hng, if_false, ite_apply, M.pure_run, h1]
    exact h2
  · rw [he2, he1, hs1]
    congr 2
    omega

theorem clear_spec (cfg : Config) (s : State T) (hwf : s.self.wf) :
    ∃ s1, clear cfg s = (Outcome.ok (), s1) ∧ s1.self.wf ∧ s1.self.size_ = 0 ∧
      s1.self.capacity_ = s.self.capacity_ ∧ s1.self.allocator_ = s.self.allocator_ ∧
      s1.world.throws = s.world.throws ∧ s1.world.clock = s.world.clock := by
  obtain ⟨s1, h1, hwf1, hs1, hc1, ha1, _, ht1, hk1⟩ :=
    shrink_loop_spec cfg 0 s.self.size_ s hwf (by omega)
  refine ⟨s1, ?_, hwf1, by omega, hc1, ha1, ht1, hk1⟩
  have hcond : (fun s : State T => s.self.size != 0) = (fun s => decide (s.self.size > 0)) := by
    funext t
    cases h : t.self.size <;> simp
  simp only [clear, M.bind_run, get_state, M.bind, hcond]
  exact h1

end fixed_capacity_vector
end fcv

namespace fcv
namespace fixed_capacity_vector
variable {T : Type}

/-! ## std::rotate, erase and insert -/

theorem rotated_length {α : Type} (l : List α) (k : Nat) : (rotated l k).length = l.length := by
  simp [rotated]
  omega

theorem mem_rotated {α : Type} {l : List α} {k : Nat} {x : α} (h : x ∈ rotated l k) : x ∈ l := by
  simp only [rotated, List.mem_append] at h
  rcases h with h | h
  · exact List.mem_of_mem_drop h
  · exact List.mem_of_mem_take h

theorem slots_split (v : fixed_capacity_vector T) :
    slots v.buffer_ = v.elements ++ (slots v.buffer_).drop v.size_ := by
  simp [elements]

theorem window_append {α : Type} (E R : List α) (f l : Nat) (h3 : l ≤ E.length) :
    ((E ++ R).drop f).take (l - f) = (E.drop f).take (l - f) := by
  by_cases hf : f ≤ E.length
  · rw [List.drop_append_of_le_length hf, List.take_append_of_le_length (by simp; omega)]
  · have : l - f = 0 := by omega
    simp [this]

theorem rotate_append {α : Type} (E R : List α) (g : List α → List α) (f l : Nat) (h1 : f ≤ l)
    (h3 : l ≤ E.length) :
    (E ++ R).take f ++ g (((E ++ R).drop f).take (l - f)) ++ (E ++ R).drop l =
      (E.take f ++ g ((E.drop f).take (l - f)) ++ E.drop l) ++ R := by
  rw [window_append E R f l h3, List.take_append_of_le_length (by omega),
    List.drop_append_of_le_length h3]
  simp [List.append_assoc]

/-- The state a rotation of the window `[f, l)` by the rearrangement `g` leaves behind. -/
theorem rearrange_wf {v : fixed_capacity_vector T} (hwf : v.wf) (g : List (Option T) → List (Option T))
    (hg : ∀ l, (g l).length = l.length) (hmem : ∀ l x, x ∈ g l → x ∈ l) (f l : Nat) (h1 : f ≤ l)
    (h3 : l ≤ v.size_) :
    let v1 : fixed_capacity_vector T := { v with buffer_ := v.buffer_.map (fun b =>
      b.take f ++ g ((b.drop f).take (l - f)) ++ b.drop l) }
    v1.wf ∧ v1.elements = v.elements.take f ++ g ((v.elements.drop f).take (l - f)) ++ v.elements.drop l := by
  intro v1
  have hlenE := elements_length hwf
  obtain ⟨hw1, hw2, hw3, hw4, hw5⟩ := hwf
  have hsl : slots v1.buffer_ =
      (v.elements.take f ++ g ((v.elements.drop f).take (l - f)) ++ v.elements.drop l) ++
        (slots v.buffer_).drop v.size_ := by
    cases hb : v.buffer_ with
    | none =>
      have hc : v.capacity_ = 0 := hw3.mp hb
      have hs : v.size_ = 0 := by omega
      have hl : l = 0 := by omega
      have hf : f = 0 := by omega
      have hg0 : g [] = [] := List.eq_nil_of_length_eq_zero (by rw [hg]; rfl)
      simp [v1, hb, slots, elements, hl, hf, hg0]
    | some b =>
      have hsplit : b = v.elements ++ b.drop v.size_ := by simp [elements, slots, hb]
      have : slots v1.buffer_ = b.take f ++ g ((b.drop f).take (l - f)) ++ b.drop l := by
        simp [v1, hb, slots]
      rw [this]
      conv_lhs => rw [hsplit]
      rw [rotate_append _ _ g f l h1 (by omega)]
      simp [slots]
  have hlen1 : (v.elements.take f ++ g ((v.elements.drop f).take (l - f)) ++ v.elements.drop l).length
      = v.size_ := by
    simp [hg, hlenE]
    omega
  have hel : v1.elements =
      v.elements.take f ++ g ((v.elements.drop f).take (l - f)) ++ v.elements.drop l := by
    show (slots v1.buffer_).take v.size_ = _
    rw [hsl, List.take_append_of_le_length (by omega), List.take_of_length_le (by omega)]
  refine ⟨⟨hw1, hw2, ?_, ?_, ?_⟩, hel⟩
  · show (v.buffer_.map _ = none ↔ _)
    simpa using hw3
  · show (slots v1.buffer_).length = v.capacity_
    rw [hsl, List.length_append, hlen1, List.length_drop, hw4]
    omega
  · intro x hx
    rw [hel] at hx
    apply hw5
    simp only [List.mem_append] at hx
    rcases hx with (hx | hx) | hx
    · exact List.mem_of_mem_take hx
    · exact List.mem_of_mem_drop (List.mem_of_mem_take (hmem _ _ hx))
    · exact List.mem_of_mem_drop hx

theorem window_all_some {v : fixed_capacity_vector T} (hwf : v.wf) (f l : Nat) (h3 : l ≤ v.size_) :
    (((slots v.buffer_).drop f).take (l - f)).all Option.isSome = true := by
  have hlenE := elements_length hwf
  rw [slots_split v, window_append _ _ f l (by omega)]
  rw [List.all_eq_true]
  intro x hx
  have := hwf.2.2.2.2 x (List.mem_of_mem_drop (List.mem_of_mem_take hx))
  cases x with
  | none => exact absurd rfl this
  | some y => rfl

theorem rotate_spec (first middle last : Nat) (s : State T) (hwf : s.self.wf)
    (h1 : first ≤ middle) (h2 : middle ≤ last) (h3 : last ≤ s.self.size_) :
    ∃ s1, rotate first middle last s = (Outcome.ok (), s1) ∧ s1.self.wf ∧
      s1.self.size_ = s.self.size_ ∧ s1.self.capacity_ = s.self.capacity_ ∧
      s1.self.allocator_ = s.self.allocator_ ∧
      s1.self.elements = s.self.elements.take first ++
        rotated ((s.self.elements.drop first).take (last - first)) (middle - first) ++
        s.self.elements.drop last ∧
      s1.world = s.world := by
  have hr := rearrange_wf hwf (fun l => rotated l (middle - first)) (fun l => rotated_length l _)
    (fun l x hx => mem_rotated hx) first last (by omega) h3
  have hall := window_all_some hwf first last h3
  have hlen : last ≤ (slots s.self.buffer_).length := by
    have := hwf.1; have := hwf.2.2.2.1; omega
  refine ⟨{ s with self := { s.self with buffer_ := s.self.buffer_.map (fun b =>
      b.take first ++ rotated ((b.drop first).take (last - first)) (middle - first) ++
        b.drop last) } }, ?_, hr.1, rfl, rfl, rfl, hr.2, rfl⟩
  simp only [rotate]
  rw [if_pos ⟨h1, h2, hlen, hall⟩]

theorem rotate_reverse_spec (first middle last : reverse_iterator) (fc mc lc : Nat) (s : State T)
    (hwf : s.self.wf) (hf : first.current = fc) (hm : middle.current = mc) (hl : last.current = lc)
    (h1 : lc ≤ mc) (h2 : mc ≤ fc) (h3 : fc ≤ s.self.size_) :
    ∃ s1, rotate_reverse first middle last s = (Outcome.ok (), s1) ∧ s1.self.wf ∧
      s1.self.size_ = s.self.size_ ∧ s1.self.capacity_ = s.self.capacity_ ∧
      s1.self.allocator_ = s.self.allocator_ ∧
      s1.self.elements = s.self.elements.take lc ++
        (rotated ((s.self.elements.drop lc).take (fc - lc)).reverse (fc - mc)).reverse ++
        s.self.elements.drop fc ∧
      s1.world = s.world := by
  have hr := rearrange_wf hwf (fun l => (rotated l.reverse (fc - mc)).reverse)
    (fun l => by simp [rotated_length])
    (fun l x hx => by simpa using mem_rotated (List.mem_reverse.mp hx)) lc fc (by omega) h3
  have hall := window_all_some hwf lc fc h3
  have hlen : fc ≤ (slots s.self.buffer_).length := by
    have := hwf.1; have := hwf.2.2.2.1; omega
  refine ⟨{ s with self := { s.self with buffer_ := s.self.buffer_.map (fun b =>
      b.take lc ++ (rotated ((b.drop lc).take (fc - lc)).reverse (fc - mc)).reverse ++
        b.drop fc) } }, ?_, hr.1, rfl, rfl, rfl, hr.2, rfl⟩
  simp only [rotate_reverse, hf, hm, hl, Int.toNat_ofNat, Int.toNat_sub]
  rw [if_pos ⟨by omega, by omega, by omega, by omega, hall⟩]

end fixed_capacity_vector
end fcv

namespace fcv
namespace fixed_capacity_vector
variable {T : Type}

theorem _check_iterator_ok (cfg : Config) (pos : Nat) (include_end : Bool) (s : State T)
    (h : if include_end = true then pos ≤ s.self.size_ else pos < s.self.size_) :
    _check_iterator cfg pos include_end s = (Outcome.ok (), s) := by
  simp only [_check_iterator, M.bind_run, get_state, M.bind]
  apply cassert_ok
  right
  cases include_end <;> simpa [begin, end_, size] using h

theorem erase_spec (cfg : Config) (i : Nat) (s : State T) (hwf : s.self.wf) (hi : i < s.self.size_)
    (_ : s.world.quiet) :
    ∃ s1, erase cfg i s = (Outcome.ok i, s1) ∧ s1.self.wf ∧
      s1.self.size_ = s.self.size_ - 1 ∧ s1.self.capacity_ = s.self.capacity_ ∧
      s1.self.allocator_ = s.self.allocator_ ∧
      s1.self.elements = s.self.elements.eraseIdx i ∧
      s1.world.throws = s.world.throws ∧ s1.world.clock = s.world.clock := by
  have hlenE := elements_length hwf
  obtain ⟨s1, h1, hwf1, hs1, hc1, ha1, he1, hw1⟩ :=
    rotate_spec i (i + 1) s.self.size_ s hwf (by omega) (by omega) (le_refl _)
  obtain ⟨s2, h2, hwf2, hs2, hc2, ha2, he2, ht2, hk2⟩ := pop_back_spec cfg s1 hwf1 (by omega)
  refine ⟨s2, ?_, hwf2, by omega, by omega, by rw [ha2, ha1], ?_, by rw [ht2, hw1], by rw [hk2, hw1]⟩
  · simp only [erase, M.bind_run, get_state, end_, size]
    rw [M.bind_ok (_check_iterator_ok cfg i false s (by simpa using hi))]
    simp only [M.bind_run, M.bind, get_state, h1, h2, M.pure_run]
  · rw [he2, he1, hs1, List.eraseIdx_eq_take_drop_succ]
    have hd : List.drop s.self.size_ s.self.elements = [] :=
      List.drop_eq_nil_of_le (by omega)
    have ht : List.take (s.self.size_ - i) (List.drop i s.self.elements) = List.drop i s.self.elements :=
      List.take_of_length_le (by simp; omega)
    rw [hd, ht, List.append_nil]
    simp only [rotated, Nat.add_sub_cancel_left, List.drop_drop]
    rw [← List.append_assoc, List.take_append_of_le_length (by simp; omega)]
    rw [List.take_of_length_le (by simp; omega)]

theorem insert_full (cfg : Config) (pos : Nat) (v : T) (s : State T)
    (hfull : s.self.size_ = s.self.capacity_) :
    insert cfg pos v s = (Outcome.fail Failure.length_error, s) := by
  simp [insert, M.bind_run, get_state, M.bind, ite_apply, size, capacity, hfull, raise]

theorem insert_spec (cfg : Config) (i : Nat) (v : T) (s : State T) (hwf : s.self.wf)
    (hlt : s.self.size_ < s.self.capacity_) (hi : i ≤ s.self.size_) (hq : s.world.quiet) :
    ∃ s1, insert cfg i v s = (Outcome.ok i, s1) ∧ s1.self.wf ∧
      s1.self.size_ = s.self.size_ + 1 ∧ s1.self.capacity_ = s.self.capacity_ ∧
      s1.self.allocator_ = s.self.allocator_ ∧
      s1.self.elements = s.self.elements.take i ++ [some v] ++ s.self.elements.drop i ∧
      s1.world.quiet := by
  have hlenE := elements_length hwf
  obtain ⟨s1, h1, hwf1, hs1, hc1, ha1, he1, hq1⟩ := push_back_spec cfg v s hwf hlt hq
  obtain ⟨s2, h2, hwf2, hs2, hc2, ha2, he2, hw2⟩ :=
    rotate_reverse_spec s1.self.rbegin (s1.self.rbegin.add 1) (_make_reverse_iter i)
      (s.self.size_ + 1) s.self.size_ i s1 hwf1
      (by simp [rbegin, _make_reverse_iter, end_, size, hs1])
      (by simp [rbegin, _make_reverse_iter, end_, size, hs1, reverse_iterator.add])
      rfl hi (by omega) (by omega)
  have hne : ¬ s.self.size_ = s.self.capacity_ := by omega
  refine ⟨s2, ?_, hwf2, by omega, by omega, by rw [ha2, ha1], ?_, by rw [hw2]; exact hq1⟩
  · simp only [insert, M.bind_run, get_state, size, capacity, M.bind, hne, if_false, ite_apply,
      M.pure_run]
    rw [_check_iterator_ok cfg i true s (by simpa using hi)]
    simp only [h1, h2]
  · rw [he2, he1]
    have hd : List.drop (s.self.size_ + 1) (s.self.elements ++ [some v]) = [] :=
      List.drop_eq_nil_of_le (by simp; omega)
    have ht : List.take (s.self.size_ + 1 - i) (List.drop i (s.self.elements ++ [some v])) =
        List.drop i s.self.elements ++ [some v] := by
      rw [List.drop_append_of_le_length (by omega)]
      exact List.take_of_length_le (by simp; omega)
    rw [hd, ht, List.append_nil, List.take_append_of_le_length (by omega)]
    simp [rotated]

end fixed_capacity_vector
end fcv

namespace fcv
namespace fixed_capacity_vector
variable {T : Type}

/-! ## Storage and copying helpers -/

theorem on_self_run {α : Type} (m : M (State T) α) (s : State2 T) (r : Outcome α) (s1 : State T)
    (h : m { self := s.self, world := s.world } = (r, s1)) :
    on_self m s = (r, { self := s1.self, other := s.other, world := s1.world }) := by
  simp [on_self, h]

theorem _alloc_spec (cfg : Config) (c : Nat) (s : State T) (hb : s.self.buffer_ = none)
    (hs : s.self.size_ = 0) (hc : c < size_type_mod) (hq : s.world.quiet) :
    ∃ s1, _alloc cfg c s = (Outcome.ok (), s1) ∧ s1.self.wf ∧ s1.self.size_ = 0 ∧
      s1.self.capacity_ = c ∧ s1.self.allocator_ = s.self.allocator_ ∧ s1.world.quiet := by
  have hqq := hq s.world.clock
  by_cases h0 : c = 0
  · refine ⟨{ s with self := { s.self with buffer_ := none, capacity_ := c } }, ?_, ?_, hs, rfl, rfl, hq⟩
    · simp [_alloc, M.bind_run, M.bind, get_state, cassert, hb, h0, M.pure_run]
    · refine ⟨by simp [hs], hc, by simp [h0], by simp [slots, h0], ?_⟩
      simp [elements, hs]
  · refine ⟨{ self := { s.self with buffer_ := some (List.replicate c none), capacity_ := c },
              world := s.world.completed (Event.allocate s.self.allocator_ c) }, ?_, ?_, hs, rfl, rfl,
            quiet_completed _ hq⟩
    · simp [_alloc, M.bind_run, M.bind, get_state, cassert, hb, h0, M.pure_run, allocate, fallible,
        hqq]
    · refine ⟨by simp [hs], hc, by simp [h0], by simp [slots], ?_⟩
      simp [elements, hs]

theorem _free_spec (cfg : Config) (s : State T) (hwf : s.self.wf) (hs : s.self.size_ = 0) :
    ∃ s1, _free cfg s = (Outcome.ok (), s1) ∧ s1.self.buffer_ = none ∧ s1.self.size_ = 0 ∧
      s1.self.capacity_ = 0 ∧ s1.self.allocator_ = s.self.allocator_ ∧
      s1.world.throws = s.world.throws ∧ s1.world.clock = s.world.clock := by
  by_cases h0 : s.self.capacity_ = 0
  · refine ⟨s, ?_, hwf.2.2.1.mpr h0, hs, h0, rfl, rfl, rfl⟩
    simp [_free, M.bind_run, M.bind, get_state, h0, M.pure_run]
  · obtain ⟨b, hb, _⟩ := wf_buffer hwf (by omega)
    refine ⟨{ self := { s.self with capacity_ := 0, buffer_ := none },
              world := s.world.noted (Event.deallocate s.self.allocator_ s.self.capacity_) },
            ?_, rfl, hs, rfl, rfl, rfl, rfl⟩
    simp [_free, M.bind_run, M.bind, get_state, h0, cassert, hb, deallocate]

theorem assign_element_spec (dst : Nat) (src : List (Option T)) (x : T) (tl : List (Option T))
    (s : State T) (hwf : s.self.wf) (hd : dst < s.self.size_) (hsrc : src = some x :: tl)
    (hq : s.world.quiet) :
    ∃ s1, assign_element dst src s = (Outcome.ok (), s1) ∧ s1.self.wf ∧
      s1.self.size_ = s.self.size_ ∧ s1.self.capacity_ = s.self.capacity_ ∧
      s1.self.allocator_ = s.self.allocator_ ∧
      s1.self.elements = s.self.elements.set dst (some x) ∧ s1.world.quiet := by
  have hqq := hq s.world.clock
  obtain ⟨y, hy⟩ := wf_live hwf hd
  obtain ⟨h1, h2, h3, h4, h5⟩ := hwf
  refine ⟨{ self := { s.self with buffer_ := s.self.buffer_.map (fun b => b.set dst (some x)) },
            world := s.world.completed (Event.assign dst x) }, ?_, ?_, rfl, rfl, rfl, ?_,
          quiet_completed _ hq⟩
  · simp [assign_element, M.bind_run, M.bind, deref, hsrc, fallible, hqq, get_state, hy]
  · have hsl : slots (s.self.buffer_.map (fun b => b.set dst (some x))) =
        (slots s.self.buffer_).set dst (some x) := by
      cases s.self.buffer_ <;> simp [slots]
    refine ⟨h1, h2, by simpa using h3, by simp only [hsl, List.length_set]; exact h4, ?_⟩
    intro z hz
    simp only [elements, hsl, List.set_take] at hz
    rcases List.mem_or_eq_of_mem_set hz with hz | hz
    · exact h5 z hz
    · simp [hz]
  · have hsl : slots (s.self.buffer_.map (fun b => b.set dst (some x))) =
        (slots s.self.buffer_).set dst (some x) := by
      cases s.self.buffer_ <;> simp [slots]
    simp only [elements, hsl, List.set_take]

theorem _copy_assign_spec (n : Nat) (dst : Nat) (src : List (Option T)) (s : State T)
    (hwf : s.self.wf) (hd : dst + n ≤ s.self.size_) (hlen : n ≤ src.length)
    (hsrc : ∀ x ∈ src.take n, x ≠ none) (hq : s.world.quiet) :
    ∃ s1, _copy_assign n dst src s = (Outcome.ok (), s1) ∧ s1.self.wf ∧
      s1.self.size_ = s.self.size_ ∧ s1.self.capacity_ = s.self.capacity_ ∧
      s1.self.allocator_ = s.self.allocator_ ∧
      s1.self.elements = s.self.elements.take dst ++ src.take n ++ s.self.elements.drop (dst + n) ∧
      s1.world.quiet := by
  induction n generalizing dst src s with
  | zero =>
    exact ⟨s, rfl, hwf, rfl, rfl, rfl, by simp, hq⟩
  | succ n ih =>
    cases src with
    | nil => simp at hlen
    | cons hd1 tl =>
      cases hd1 with
      | none => exact absurd rfl (hsrc none (by simp))
      | some x =>
        have hlenE := elements_length hwf
        obtain ⟨s1, h1, hwf1, hs1, hc1, ha1, he1, hq1⟩ :=
          assign_element_spec dst (some x :: tl) x tl s hwf (by omega) rfl hq
        obtain ⟨s2, h2, hwf2, hs2, hc2, ha2, he2, hq2⟩ :=
          ih (dst + 1) tl s1 hwf1 (by omega) (by simpa using hlen)
            (fun z hz => hsrc z (by simp [hz])) hq1
        refine ⟨s2, ?_, hwf2, by omega, by omega, by rw [ha2, ha1], ?_, hq2⟩
        · simp only [_copy_assign, M.bind_run, M.bind, h1, List.tail_cons, h2]
        · rw [he2, he1, take_succ_set _ _ _ (by omega)]
          rw [List.drop_set, if_pos (by omega)]
          simp [Nat.add_assoc, Nat.add_comm 1 n]

theorem _copy_construct_loop_spec (cfg : Config) (n : Nat) (src : List (Option T)) (s : State T)
    (hwf : s.self.wf) (hcap : s.self.size_ + n ≤ s.self.capacity_) (hlen : n ≤ src.length)
    (hsrc : ∀ x ∈ src.take n, x ≠ none) (hq : s.world.quiet) :
    ∃ s1, _copy_construct_loop cfg n s.self.size_ src s = (Outcome.ok (), s1) ∧ s1.self.wf ∧
      s1.self.size_ = s.self.size_ + n ∧ s1.self.capacity_ = s.self.capacity_ ∧
      s1.self.allocator_ = s.self.allocator_ ∧
      s1.self.elements = s.self.elements ++ src.take n ∧ s1.world.quiet := by
  induction n generalizing src s with
  | zero =>
    exact ⟨s, rfl, hwf, rfl, rfl, rfl, by simp, hq⟩
  | succ n ih =>
    cases src with
    | nil => simp at hlen
    | cons hd1 tl =>
      cases hd1 with
      | none => exact absurd rfl (hsrc none (by simp))
      | some x =>
        obtain ⟨s1, h1, hwf1, hs1, hc1, ha1, he1, hq1⟩ :=
          push_back_spec cfg x s hwf (by omega) hq
        obtain ⟨s2, h2, hwf2, hs2, hc2, ha2, he2, hq2⟩ :=
          ih tl s1 hwf1 (by omega) (by simpa using hlen) (fun z hz => hsrc z (by simp [hz])) hq1
        have hne : ¬ s.self.size_ = s.self.capacity_ := by omega
        have hpb : (do _emplace cfg s.self.size_ x; incr_size : M (State T) Unit) s =
            (Outcome.ok (), s1) := by
          rw [← h1]
          simp [push_back, M.bind_run, M.bind, get_state, hne, ite_apply, M.pure_run]
        refine ⟨s2, ?_, hwf2, by omega, by omega, by rw [ha2, ha1], ?_, hq2⟩
        · rw [hs1] at h2
          simp only [M.bind_run] at hpb
          simp only [_copy_construct_loop, M.bind_run, M.bind, deref, List.tail_cons]
          simp only [M.bind] at hpb
          revert hpb
          cases hE : _emplace cfg s.self.size_ x s with
          | mk r t =>
            cases r with
            | ok u =>
              simp only
              intro hpb
              cases hI : incr_size t with
              | mk r2 t2 =>
                rw [hI] at hpb
                cases r2 with
                | ok u2 =>
                  simp only at hpb ⊢
                  have : t2 = s1 := by injection hpb with _ h
                  rw [this]; exact h2
                | fail e => simp at hpb
            | fail e => simp
        · rw [he2, he1]
          simp

theorem _copy_construct_spec (cfg : Config) (n : Nat) (src : List (Option T)) (s : State T)
    (hwf : s.self.wf) (hcap : s.self.size_ + n ≤ s.self.capacity_) (hlen : n ≤ src.length)
    (hsrc : ∀ x ∈ src.take n, x ≠ none) (hq : s.world.quiet)
    (hassert : cfg.ndebug = true ∨ (s.self.capacity_ = 0 ↔ n = 0)) :
    ∃ s1, _copy_construct cfg n src s = (Outcome.ok (), s1) ∧ s1.self.wf ∧
      s1.self.size_ = s.self.size_ + n ∧ s1.self.capacity_ = s.self.capacity_ ∧
      s1.self.allocator_ = s.self.allocator_ ∧
      s1.self.elements = s.self.elements ++ src.take n ∧ s1.world.quiet := by
  obtain ⟨s1, h1, hrest⟩ := _copy_construct_loop_spec cfg n src s hwf hcap hlen hsrc hq
  refine ⟨s1, ?_, hrest⟩
  have h2l : s.self.capacity_ < 4294967296 := hwf.2.1
  have hmod : (s.self.size_ + n) % size_type_mod = s.self.size_ + n :=
    Nat.mod_eq_of_lt (by simp only [size_type_mod]; omega)
  have ha1 : cassert cfg (s.self.buffer_.isNone == decide (n = 0)) s = (Outcome.ok (), s) := by
    apply cassert_ok
    rcases hassert with h | h
    · exact Or.inl h
    · right
      have h3 := hwf.2.2.1
      by_cases hn : n = 0
      · have : s.self.buffer_ = none := h3.mpr (h.mpr hn)
        simp [this, hn]
      · have : s.self.buffer_ ≠ none := fun hb => hn (h.mp (h3.mp hb))
        cases hb : s.self.buffer_ with
        | none => exact absurd hb this
        | some b => simp [hn]
  have ha2 : cassert cfg (decide ((s.self.size_ + n) % size_type_mod ≤ s.self.capacity_)) s =
      (Outcome.ok (), s) := by
    apply cassert_ok
    right
    simp only [hmod, decide_eq_true_eq]
    exact hcap
  simp only [_copy_construct, M.bind_run, M.bind, get_state, ha1, size, capacity, ha2]
  exact h1

end fixed_capacity_vector
end fcv

namespace fcv
namespace fixed_capacity_vector
variable {T : Type}

/-! ## Constructors and assignment -/

theorem ctor_spec (cfg : Config) (c : Nat) (a : Nat) (w : World T) (hc : c < size_type_mod)
    (hq : w.quiet) :
    ∃ s1, ctor cfg c a w = (Outcome.ok (), s1) ∧ s1.self.wf ∧ s1.self.size_ = 0 ∧
      s1.self.capacity_ = c ∧ s1.self.allocator_ = a ∧ s1.self.elements = [] ∧ s1.world.quiet := by
  obtain ⟨s1, h1, hwf1, hs1, hc1, ha1, hq1⟩ := _alloc_spec cfg c
    ({ self := { capacity_ := 0, allocator_ := a, buffer_ := none, size_ := 0 }, world := w } : State T)
    rfl rfl hc hq
  exact ⟨s1, h1, hwf1, hs1, hc1, ha1, by simp [elements, hs1], hq1⟩

theorem resize_default_spec [Inhabited T] (cfg : Config) (n : Nat) (s : State T) (hwf : s.self.wf)
    (hn : n ≤ s.self.capacity_) (hq : s.world.quiet) :
    ∃ s1, resize_default cfg n s = (Outcome.ok (), s1) ∧ s1.self.wf ∧ s1.self.size_ = n ∧
      s1.self.capacity_ = s.self.capacity_ ∧ s1.self.allocator_ = s.self.allocator_ ∧
      s1.self.elements = s.self.elements.take n ++ List.replicate (n - s.self.size_) (some default) ∧
      s1.world.quiet := by
  have hqq := hq s.world.clock
  obtain ⟨s1, h1, hrest⟩ := resize_spec cfg n (default : T)
    { s with world := s.world.completed Event.value_init } hwf hn (quiet_completed _ hq)
  refine ⟨s1, ?_, hrest⟩
  simp only [resize_default, value_type_init, M.bind_run, M.bind, fallible, hqq, M.pure_run]
  exact h1

theorem clear_free_spec (cfg : Config) (s : State T) (hwf : s.self.wf) :
    ∃ s1, clear cfg s = (Outcome.ok (), s1) ∧ ∃ s2, _free cfg s1 = (Outcome.ok (), s2) ∧
      s2.self.buffer_ = none ∧ s2.self.size_ = 0 ∧ s2.self.capacity_ = 0 ∧
      s2.self.allocator_ = s.self.allocator_ ∧ s2.world.throws = s.world.throws := by
  obtain ⟨s1, h1, hwf1, hs1, hc1, ha1, ht1, _⟩ := clear_spec cfg s hwf
  obtain ⟨s2, h2, hb2, hs2, hc2, ha2, ht2, _⟩ := _free_spec cfg s1 hwf1 hs1
  exact ⟨s1, h1, s2, h2, hb2, hs2, hc2, by rw [ha2, ha1], by rw [ht2, ht1]⟩

theorem elements_wf_take {v : fixed_capacity_vector T} (hwf : v.wf) :
    v.size_ ≤ (slots v.buffer_).length ∧ ∀ x ∈ (slots v.buffer_).take v.size_, x ≠ none := by
  obtain ⟨h1, _, _, h4, h5⟩ := hwf
  exact ⟨by omega, h5⟩

/-- What copying the elements of `src` into a reconciled target does (source lines 83-92
and 122-131): the live range becomes the first `n` elements of `src`. -/
theorem copy_elements_shrink [Inhabited T] (cfg : Config) (n : Nat) (src : List (Option T))
    (s : State T) (hwf : s.self.wf) (hn : n ≤ s.self.size_) (hlen : n ≤ src.length)
    (hsrc : ∀ x ∈ src.take n, x ≠ none) (hq : s.world.quiet) :
    ∃ s1, resize_default cfg n s = (Outcome.ok (), s1) ∧
      ∃ s2, _copy_assign n 0 src s1 = (Outcome.ok (), s2) ∧ s2.self.wf ∧ s2.self.size_ = n ∧
        s2.self.capacity_ = s.self.capacity_ ∧ s2.self.allocator_ = s.self.allocator_ ∧
        s2.self.elements = src.take n ∧ s2.world.quiet := by
  obtain ⟨s1, h1, hwf1, hs1, hc1, ha1, he1, hq1⟩ :=
    resize_default_spec cfg n s hwf (by have := hwf.1; omega) hq
  obtain ⟨s2, h2, hwf2, hs2, hc2, ha2, he2, hq2⟩ :=
    _copy_assign_spec n 0 src s1 hwf1 (by omega) hlen hsrc hq1
  refine ⟨s1, h1, s2, h2, hwf2, by omega, by omega, by rw [ha2, ha1], ?_, hq2⟩
  have hlenE := elements_length hwf1
  rw [he2, List.drop_eq_nil_of_le (by omega)]
  simp

theorem copy_elements_grow (cfg : Config) (n : Nat) (src : List (Option T))
    (s : State T) (hwf : s.self.wf) (hn : s.self.size_ < n) (hcap : n ≤ s.self.capacity_)
    (hlen : n ≤ src.length) (hsrc : ∀ x ∈ src.take n, x ≠ none) (hq : s.world.quiet) :
    ∃ s1, _copy_assign s.self.size_ 0 src s = (Outcome.ok (), s1) ∧ s1.self.size_ = s.self.size_ ∧
      ∃ s2, _copy_construct cfg (n - s.self.size_) (src.drop s.self.size_) s1 = (Outcome.ok (), s2) ∧
        s2.self.wf ∧ s2.self.size_ = n ∧
        s2.self.capacity_ = s.self.capacity_ ∧ s2.self.allocator_ = s.self.allocator_ ∧
        s2.self.elements = src.take n ∧ s2.world.quiet := by
  have hsub : ∀ k, k ≤ n → ∀ x ∈ src.take k, x ≠ none := by
    intro k hk x hx
    apply hsrc
    have : List.take k src = List.take k (List.take n src) := by
      rw [List.take_take, min_eq_left hk]
    rw [this] at hx
    exact List.mem_of_mem_take hx
  obtain ⟨s1, h1, hwf1, hs1, hc1, ha1, he1, hq1⟩ :=
    _copy_assign_spec s.self.size_ 0 src s hwf (by omega) (by omega) (hsub _ (by omega)) hq
  obtain ⟨s2, h2, hwf2, hs2, hc2, ha2, he2, hq2⟩ :=
    _copy_construct_spec cfg (n - s.self.size_) (src.drop s.self.size_) s1 hwf1 (by omega)
      (by simp; omega)
      (by
        intro x hx
        apply hsrc
        rw [← List.take_append_drop s.self.size_ (List.take n src)]
        apply List.mem_append_right
        rw [List.drop_take]
        exact hx)
      hq1 (Or.inr (by constructor <;> intro h <;> omega))
  refine ⟨s1, h1, hs1, s2, ?_, hwf2, by omega, by omega, by rw [ha2, ha1], ?_, hq2⟩
  · rw [← hs1]; rw [← hs1] at h2; exact h2
  · have hlenE := elements_length hwf
    rw [he2, he1, List.drop_eq_nil_of_le (by omega)]
    simp only [List.take_zero, List.nil_append, List.append_nil, zero_add]
    conv_rhs => rw [show n = s.self.size_ + (n - s.self.size_) by omega, List.take_add]

theorem assign_il_too_long [Inhabited T] (cfg : Config) (il : List T) (s : State T)
    (h : s.self.capacity_ < il.length) :
    assign_il cfg il s = (Outcome.fail Failure.length_error, s) := by
  simp [assign_il, M.bind_run, M.bind, get_state, capacity, h, ite_apply, raise]

theorem assign_il_spec [Inhabited T] (cfg : Config) (il : List T) (s : State T) (hwf : s.self.wf)
    (hlen : il.length ≤ s.self.capacity_) (hq : s.world.quiet) :
    ∃ s1, assign_il cfg il s = (Outcome.ok (), s1) ∧ s1.self.wf ∧ s1.self.size_ = il.length ∧
      s1.self.capacity_ = s.self.capacity_ ∧ s1.self.allocator_ = s.self.allocator_ ∧
      s1.self.elements = il.map some ∧ s1.world.quiet := by
  have h2l : s.self.capacity_ < 4294967296 := hwf.2.1
  have hmod : il.length % size_type_mod = il.length :=
    Nat.mod_eq_of_lt (by simp only [size_type_mod]; omega)
  have hng : ¬ s.self.capacity_ < il.length := by omega
  have hsrc : ∀ x ∈ (il.map some).take il.length, x ≠ none := by
    intro x hx
    have := List.mem_of_mem_take hx
    simp only [List.mem_map] at this
    obtain ⟨y, _, rfl⟩ := this
    simp
  have htake : (il.map some).take il.length = il.map some :=
    List.take_of_length_le (by simp)
  by_cases hle : il.length ≤ s.self.size_
  · obtain ⟨s1, h1, s2, h2, hwf2, hs2, hc2, ha2, he2, hq2⟩ :=
      copy_elements_shrink cfg il.length (il.map some) s hwf hle (by simp) hsrc hq
    refine ⟨s2, ?_, hwf2, hs2, hc2, ha2, by rw [he2, htake], hq2⟩
    simp only [assign_il, M.bind_run, M.bind, get_state, capacity, hng, if_false, ite_apply,
      M.pure_run, size, hle, if_true, hmod, h1, h2]
  · obtain ⟨s1, h1, hs1, s2, h2, hwf2, hs2, hc2, ha2, he2, hq2⟩ :=
      copy_elements_grow cfg il.length (il.map some) s hwf (by omega) hlen (by simp) hsrc hq
    have hmod2 : (il.length - s.self.size_) % size_type_mod = il.length - s.self.size_ :=
      Nat.mod_eq_of_lt (by simp only [size_type_mod]; omega)
    refine ⟨s2, ?_, hwf2, hs2, hc2, ha2, by rw [he2, htake], hq2⟩
    simp only [assign_il, M.bind_run, M.bind, get_state, capacity, hng, if_false, ite_apply,
      M.pure_run, size, hle, h1, hs1, hmod2, h2]

end fixed_capacity_vector
end fcv

namespace fcv
namespace fixed_capacity_vector
variable {T : Type}

/-! ## Copy and move -/

theorem ctor_copy_spec (cfg : Config) (other : fixed_capacity_vector T) (w : World T)
    (hwf : other.wf) (hq : w.quiet)
    (hassert : cfg.ndebug = true ∨ (other.capacity_ = 0 ↔ other.size_ = 0)) :
    ∃ s1, ctor_copy cfg other w = (Outcome.ok (), s1) ∧ s1.self.wf ∧
      s1.self.capacity_ = other.capacity_ ∧ s1.self.size_ = other.size_ ∧
      s1.self.elements = other.elements ∧ s1.other = other ∧
      s1.self.allocator_ = cfg.select_on_container_copy_construction other.allocator_ ∧
      s1.world.quiet := by
  obtain ⟨s1, h1, hwf1, hs1, hc1, ha1, hq1⟩ := _alloc_spec cfg other.capacity_
    ({ self := { capacity_ := 0, buffer_ := none, size_ := 0,
                 allocator_ := cfg.select_on_container_copy_construction other.allocator_ },
       world := w } : State T) rfl rfl hwf.2.1 hq
  obtain ⟨hlen, hsrc⟩ := elements_wf_take hwf
  obtain ⟨s2, h2, hwf2, hs2, hc2, ha2, he2, hq2⟩ :=
    _copy_construct_spec cfg other.size_ (slots other.buffer_) s1 hwf1
      (by have := hwf.1; omega) hlen hsrc hq1 (by rw [hc1]; exact hassert)
  refine ⟨{ self := s2.self, other := other, world := s2.world }, ?_, hwf2,
    (by show s2.self.capacity_ = _; omega), (by show s2.self.size_ = _; omega), ?_,
    rfl, (by show s2.self.allocator_ = _; rw [ha2, ha1]), hq2⟩
  · simp only [ctor_copy, M.bind_run, M.bind, capacity, size]
    rw [on_self_run _ _ _ _ h1]
    simp only
    rw [on_self_run _ _ _ _ h2]
  · rw [he2]
    simp [elements, hs1]

theorem _swap_state_run (s : State2 T) :
    _swap_state s = (Outcome.ok (),
      { self := { s.self with size_ := s.other.size_, capacity_ := s.other.capacity_,
                              buffer_ := s.other.buffer_ },
        other := { s.other with size_ := s.self.size_, capacity_ := s.self.capacity_,
                                buffer_ := s.self.buffer_ },
        world := s.world }) := rfl

theorem assign_move_spec (cfg : Config) (s : State2 T) (hwf : s.self.wf) :
    ∃ s1, assign_move cfg s = (Outcome.ok (), s1) ∧
      s1.self.capacity_ = s.other.capacity_ ∧ s1.self.size_ = s.other.size_ ∧
      s1.self.buffer_ = s.other.buffer_ ∧
      s1.other.size_ = 0 ∧ s1.other.capacity_ = 0 ∧ s1.other.buffer_ = none ∧
      s1.other.allocator_ = s.other.allocator_ ∧
      s1.self.allocator_ = (if cfg.propagate_on_container_move_assignment = true
        then s.other.allocator_ else s.self.allocator_) ∧
      s1.world.throws = s.world.throws := by
  obtain ⟨s1, h1, s2, h2, hb2, hs2, hc2, ha2, ht2⟩ :=
    clear_free_spec cfg { self := s.self, world := s.world } hwf
  by_cases hp : cfg.propagate_on_container_move_assignment = true ∧
      s.self.allocator_ ≠ s.other.allocator_
  · refine ⟨{ self := { s.other with allocator_ := s.other.allocator_ },
              other := { s.other with size_ := 0, capacity_ := 0, buffer_ := none },
              world := s2.world }, ?_, rfl, rfl, rfl, rfl, rfl, rfl, rfl, by simp [hp.1], ht2⟩
    simp only [assign_move, M.bind_run, M.bind]
    rw [on_self_run _ _ _ _ h1]
    simp only
    rw [on_self_run _ _ _ _ h2]
    simp [M.bind_run, M.bind, get_state, cassert, hs2, hc2, hb2, ha2, hp.1, hp.2, _swap_state,
      M.pure_run, ite_apply]
  · refine ⟨{ self := { s.other with allocator_ := s.self.allocator_ },
              other := { s.other with size_ := 0, capacity_ := 0, buffer_ := none },
              world := s2.world }, ?_, rfl, rfl, rfl, rfl, rfl, rfl, rfl, ?_, ht2⟩
    · simp only [assign_move, M.bind_run, M.bind]
      rw [on_self_run _ _ _ _ h1]
      simp only
      rw [on_self_run _ _ _ _ h2]
      have hcond : (cfg.propagate_on_container_move_assignment &&
          s.self.allocator_ != s.other.allocator_) = false := by
        rw [Bool.and_eq_false_iff]
        by_cases h : cfg.propagate_on_container_move_assignment = true
        · right
          have : s.self.allocator_ = s.other.allocator_ := by
            by_contra hne
            exact hp ⟨h, hne⟩
          simp [this]
        · left
          simpa using h
      simp only [M.bind_run, M.bind, get_state, ha2, hcond, ite_apply, M.pure_run,
        Bool.false_eq_true, if_false]
      simp [cassert, hs2, hc2, hb2, ha2, _swap_state]
    · by_cases h : cfg.propagate_on_container_move_assignment = true
      · have : s.self.allocator_ = s.other.allocator_ := by
          by_contra hne
          exact hp ⟨h, hne⟩
        simp [h, this]
      · simp [h]

end fixed_capacity_vector
end fcv

namespace fcv
namespace fixed_capacity_vector
variable {T : Type}

/-- The element phase of copy assignment (source lines 83-92), run on a target whose
capacity already equals that of the source. -/
theorem assign_copy_elements [Inhabited T] (cfg : Config) (t : State2 T) (hwf : t.self.wf)
    (hwfo : t.other.wf) (hcap : t.self.capacity_ = t.other.capacity_) (hq : t.world.quiet) :
    ∃ s1, (do
        let s ← get_state
        if s.self.size ≥ s.other.size then
          on_self (resize_default cfg s.other.size)
          on_self (_copy_assign s.other.size 0 (slots s.other.buffer_))
        else
          on_self (_copy_assign s.self.size 0 (slots s.other.buffer_))
          let s ← get_state
          on_self (_copy_construct cfg (s.other.size - s.self.size)
            ((slots s.other.buffer_).drop s.self.size)) : M (State2 T) Unit) t =
        (Outcome.ok (), s1) ∧ s1.self.wf ∧
      s1.self.capacity_ = t.other.capacity_ ∧ s1.self.size_ = t.other.size_ ∧
      s1.self.elements = t.other.elements ∧ s1.other = t.other ∧ s1.world.quiet := by
  obtain ⟨hlen, hsrc⟩ := elements_wf_take hwfo
  by_cases hge : t.self.size_ ≥ t.other.size_
  · obtain ⟨s1, h1, s2, h2, hwf2, hs2, hc2, ha2, he2, hq2⟩ :=
      copy_elements_shrink cfg t.other.size_ (slots t.other.buffer_)
        { self := t.self, world := t.world } hwf hge hlen hsrc hq
    refine ⟨{ self := s2.self, other := t.other, world := s2.world }, ?_, hwf2,
      (by show s2.self.capacity_ = _; rw [hc2]; exact hcap), hs2, he2, rfl, hq2⟩
    simp only [M.bind_run, M.bind, get_state, size, hge, if_true, ge_iff_le]
    rw [on_self_run _ _ _ _ h1]
    simp only
    rw [on_self_run _ _ _ _ h2]
  · obtain ⟨s1, h1, hs1, s2, h2, hwf2, hs2, hc2, ha2, he2, hq2⟩ :=
      copy_elements_grow cfg t.other.size_ (slots t.other.buffer_)
        { self := t.self, world := t.world } hwf (by show t.self.size_ < _; omega)
        (by show _ ≤ t.self.capacity_; have := hwfo.1; omega) hlen hsrc hq
    refine ⟨{ self := s2.self, other := t.other, world := s2.world }, ?_, hwf2,
      (by show s2.self.capacity_ = _; rw [hc2]; exact hcap), hs2, he2, rfl, hq2⟩
    have hge2 : ¬ t.other.size_ ≤ t.self.size_ := by omega
    simp only [M.bind_run, M.bind, get_state, size, hge2, if_false, ge_iff_le]
    rw [on_self_run _ _ _ _ h1]
    simp only [hs1]
    rw [on_self_run _ _ _ _ h2]

theorem assign_copy_spec [Inhabited T] (cfg : Config) (s : State2 T) (hwf : s.self.wf)
    (hwfo : s.other.wf) (hq : s.world.quiet) :
    ∃ s1, assign_copy cfg s = (Outcome.ok (), s1) ∧ s1.self.wf ∧
      s1.self.capacity_ = s.other.capacity_ ∧ s1.self.size_ = s.other.size_ ∧
      s1.self.elements = s.other.elements ∧ s1.other = s.other ∧ s1.world.quiet := by
  obtain ⟨c1, hc1, c2, hc2, hb2, hs2, hcap2, ha2, ht2⟩ :=
    clear_free_spec cfg { self := s.self, world := s.world } hwf
  by_cases hA : (cfg.propagate_on_container_copy_assignment &&
      s.self.allocator_ != s.other.allocator_) = true
  · obtain ⟨s3, h3, hwf3, hs3, hcap3, ha3, hq3⟩ := _alloc_spec cfg s.other.capacity_
      { self := { c2.self with allocator_ := s.other.allocator_ }, world := c2.world }
      hb2 hs2 hwfo.2.1 (quiet_of_throws_eq ht2 hq)
    obtain ⟨s4, h4, hrest⟩ := assign_copy_elements cfg
      { self := s3.self, other := s.other, world := s3.world } hwf3 hwfo hcap3 hq3
    refine ⟨s4, ?_, hrest⟩
    simp only [M.bind_run, M.bind, get_state] at h4
    simp only [assign_copy, M.bind_run, M.bind, get_state, hA, if_true, capacity]
    rw [on_self_run _ _ _ _ hc1]
    simp only
    rw [on_self_run _ _ _ _ hc2]
    simp only
    rw [on_self_run _ _ _ _ h3]
    exact h4
  · by_cases hB : (s.self.capacity_ != s.other.capacity_) = true
    · obtain ⟨s3, h3, hwf3, hs3, hcap3, ha3, hq3⟩ := _alloc_spec cfg s.other.capacity_
        c2 hb2 hs2 hwfo.2.1 (quiet_of_throws_eq ht2 hq)
      obtain ⟨s4, h4, hrest⟩ := assign_copy_elements cfg
        { self := s3.self, other := s.other, world := s3.world } hwf3 hwfo hcap3 hq3
      refine ⟨s4, ?_, hrest⟩
      simp only [M.bind_run, M.bind, get_state] at h4
      simp only [assign_copy, M.bind_run, M.bind, get_state, hA, capacity, hB, Bool.false_eq_true,
        ↓reduceIte, ite_apply]
      rw [on_self_run _ _ _ _ hc1]
      simp only
      rw [on_self_run _ _ _ _ hc2]
      simp only
      rw [on_self_run _ _ _ _ h3]
      exact h4
    · have hcap : s.self.capacity_ = s.other.capacity_ := by simpa using hB
      obtain ⟨s4, h4, hrest⟩ := assign_copy_elements cfg s hwf hwfo hcap hq
      refine ⟨s4, ?_, hrest⟩
      simp only [M.bind_run, M.bind, get_state] at h4
      simp only [assign_copy, M.bind_run, M.bind, get_state, hA, capacity, hB, Bool.false_eq_true,
        ↓reduceIte, ite_apply, M.pure_run]
      exact h4

end fixed_capacity_vector
end fcv

namespace fcv
namespace fixed_capacity_vector
variable {T : Type}

/-! ## Properties of the specification -/

theorem push_each_spec (cfg : Config) (vs : List T) (s : State T) (hwf : s.self.wf)
    (hcap : s.self.size_ + vs.length ≤ s.self.capacity_) (hq : s.world.quiet) :
    ∃ s1, push_each cfg vs s = (Outcome.ok (), s1) ∧ s1.self.wf ∧
      s1.self.size_ = s.self.size_ + vs.length ∧ s1.self.capacity_ = s.self.capacity_ ∧
      s1.self.allocator_ = s.self.allocator_ ∧
      s1.self.elements = s.self.elements ++ vs.map some ∧ s1.world.quiet := by
  induction vs generalizing s with
  | nil => exact ⟨s, rfl, hwf, rfl, rfl, rfl, by simp, hq⟩
  | cons v vs ih =>
    simp only [List.length_cons] at hcap
    obtain ⟨s1, h1, hwf1, hs1, hc1, ha1, he1, hq1⟩ := push_back_spec cfg v s hwf (by omega) hq
    obtain ⟨s2, h2, hwf2, hs2, hc2, ha2, he2, hq2⟩ := ih s1 hwf1 (by omega) hq1
    refine ⟨s2, ?_, hwf2, by simp only [List.length_cons]; omega, by omega, by rw [ha2, ha1], ?_,
      hq2⟩
    · simp only [push_each, M.bind_run, M.bind, h1, h2]
    · rw [he2, he1]
      simp

/-- C1: when no element operation throws and the insert position is valid, `push_back(v)`
and `insert(pos, v)` end with `std::length_error` exactly when `size == capacity`,
`resize(n, v)` exactly when `n > capacity`, and assignment from an initializer list exactly
when its length exceeds the capacity; a call that ends with `std::length_error` leaves the
container (size, capacity, buffer) and the world as they were. -/
theorem length_error_exactly_when_capacity_exceeded [Inhabited T] (cfg : Config) (s : State T)
    (v : T) (pos n : Nat) (il : List T) (hwf : s.self.wf) (hq : s.world.quiet)
    (hpos : pos ≤ s.self.size_) :
    ((push_back cfg v s).1 = Outcome.fail Failure.length_error ↔
        s.self.size_ = s.self.capacity_) ∧
    ((insert cfg pos v s).1 = Outcome.fail Failure.length_error ↔
        s.self.size_ = s.self.capacity_) ∧
    ((resize cfg n v s).1 = Outcome.fail Failure.length_error ↔ n > s.self.capacity_) ∧
    ((assign_il cfg il s).1 = Outcome.fail Failure.length_error ↔
        il.length > s.self.capacity_) ∧
    ((push_back cfg v s).1 = Outcome.fail Failure.length_error → (push_back cfg v s).2 = s) ∧
    ((insert cfg pos v s).1 = Outcome.fail Failure.length_error → (insert cfg pos v s).2 = s) ∧
    ((resize cfg n v s).1 = Outcome.fail Failure.length_error → (resize cfg n v s).2 = s) ∧
    ((assign_il cfg il s).1 = Outcome.fail Failure.length_error → (assign_il cfg il s).2 = s) := by
  have hle := hwf.1
  have hpush : (push_back cfg v s).1 = Outcome.fail Failure.length_error ↔
      s.self.size_ = s.self.capacity_ := by
    constructor
    · intro h
      by_contra hne
      obtain ⟨s1, h1, _⟩ := push_back_spec cfg v s hwf (by omega) hq
      rw [h1] at h
      exact absurd h (by simp)
    · intro h
      rw [push_back_full cfg v s h]
  have hins : (insert cfg pos v s).1 = Outcome.fail Failure.length_error ↔
      s.self.size_ = s.self.capacity_ := by
    constructor
    · intro h
      by_contra hne
      obtain ⟨s1, h1, _⟩ := insert_spec cfg pos v s hwf (by omega) hpos hq
      rw [h1] at h
      exact absurd h (by simp)
    · intro h
      rw [insert_full cfg pos v s h]
  have hres : (resize cfg n v s).1 = Outcome.fail Failure.length_error ↔ n > s.self.capacity_ := by
    constructor
    · intro h
      by_contra hne
      obtain ⟨s1, h1, _⟩ := resize_spec cfg n v s hwf (by omega) hq
      rw [h1] at h
      exact absurd h (by simp)
    · intro h
      rw [resize_too_large cfg n v s h]
  have hil : (assign_il cfg il s).1 = Outcome.fail Failure.length_error ↔
      il.length > s.self.capacity_ := by
    constructor
    · intro h
      by_contra hne
      obtain ⟨s1, h1, _⟩ := assign_il_spec cfg il s hwf (by omega) hq
      rw [h1] at h
      exact absurd h (by simp)
    · intro h
      rw [assign_il_too_long cfg il s h]
  refine ⟨hpush, hins, hres, hil, ?_, ?_, ?_, ?_⟩
  · intro h
    rw [push_back_full cfg v s (hpush.mp h)]
  · intro h
    rw [insert_full cfg pos v s (hins.mp h)]
  · intro h
    rw [resize_too_large cfg n v s (hres.mp h)]
  · intro h
    rw [assign_il_too_long cfg il s (hil.mp h)]

/-- Witness for C1 on the container of capacity 5 holding 10, 20, 30. -/
theorem length_error_exactly_when_capacity_exceeded_witness :
    sample_vector.wf ∧ calm_world.quiet ∧ 1 ≤ sample_vector.size_ ∧
    ((resize debug_build 6 7 { self := sample_vector, world := calm_world }).1 =
        Outcome.fail Failure.length_error ↔ 6 > sample_vector.capacity_) ∧
    ((assign_il debug_build [1, 2, 3, 4, 5, 6] { self := sample_vector, world := calm_world }).1 =
        Outcome.fail Failure.length_error ↔ [1, 2, 3, 4, 5, 6].length > sample_vector.capacity_) :=
  have h := length_error_exactly_when_capacity_exceeded debug_build
    { self := sample_vector, world := calm_world } 7 1 6 [1, 2, 3, 4, 5, 6]
    (by decide) (fun _ => rfl) (by decide)
  ⟨by decide, fun _ => rfl, by decide, h.2.2.1, h.2.2.2.1⟩

/-- C2: for every capacity `C` (a `size_type`) and every list of `C` values, starting from
the freshly constructed container of capacity `C` and size 0, when nothing throws: for every
`i <= C` the first `i` calls of `push_back` succeed and leave size `i` and the first `i`
values as contents; after all `C` calls the contents are the whole list in order, and one
more `push_back` ends with `std::length_error` and leaves the state, size `C` included,
as it was. -/
theorem push_back_fills_to_capacity (cfg : Config) (C a : Nat) (w : World T) (vs : List T)
    (hC : C < size_type_mod) (hq : w.quiet) (hlen : vs.length = C) :
    ∃ s0, ctor cfg C a w = (Outcome.ok (), s0) ∧ s0.self.size_ = 0 ∧ s0.self.capacity_ = C ∧
      (∀ i, i ≤ C → ∃ si, push_each cfg (vs.take i) s0 = (Outcome.ok (), si) ∧
        si.self.size_ = i ∧ si.self.capacity_ = C ∧ si.self.elements = (vs.take i).map some) ∧
      ∃ sC, push_each cfg vs s0 = (Outcome.ok (), sC) ∧ sC.self.size_ = C ∧
        sC.self.elements = vs.map some ∧
        ∀ v, push_back cfg v sC = (Outcome.fail Failure.length_error, sC) := by
  obtain ⟨s0, h0, hwf0, hs0, hc0, ha0, he0, hq0⟩ := ctor_spec cfg C a w hC hq
  refine ⟨s0, h0, hs0, hc0, ?_, ?_⟩
  · intro i hi
    obtain ⟨si, h1, hwf1, hs1, hc1, ha1, he1, hq1⟩ :=
      push_each_spec cfg (vs.take i) s0 hwf0 (by simp; omega) hq0
    refine ⟨si, h1, ?_, by omega, ?_⟩
    · rw [hs1, hs0, List.length_take]; omega
    · rw [he1, he0]; simp
  · obtain ⟨sC, h1, hwf1, hs1, hc1, ha1, he1, hq1⟩ :=
      push_each_spec cfg vs s0 hwf0 (by omega) hq0
    refine ⟨sC, h1, by omega, by rw [he1, he0]; simp, ?_⟩
    intro v
    exact push_back_full cfg v sC (by omega)

/-- Witness for C2: capacity 3 and the values 1, 2, 3. -/
theorem push_back_fills_to_capacity_witness :
    3 < size_type_mod ∧ calm_world.quiet ∧ [1, 2, 3].length = 3 ∧
    ∃ s0, ctor debug_build 3 0 calm_world = (Outcome.ok (), s0) ∧ s0.self.size_ = 0 ∧
      s0.self.capacity_ = 3 ∧
      (∀ i, i ≤ 3 → ∃ si, push_each debug_build ([1, 2, 3].take i) s0 = (Outcome.ok (), si) ∧
        si.self.size_ = i ∧ si.self.capacity_ = 3 ∧
        si.self.elements = ([1, 2, 3].take i).map some) ∧
      ∃ sC, push_each debug_build [1, 2, 3] s0 = (Outcome.ok (), sC) ∧ sC.self.size_ = 3 ∧
        sC.self.elements = [1, 2, 3].map some ∧
        ∀ v, push_back debug_build v sC = (Outcome.fail Failure.length_error, sC) :=
  ⟨by decide, fun _ => rfl, rfl,
    push_back_fills_to_capacity debug_build 3 0 calm_world [1, 2, 3] (by decide) (fun _ => rfl) rfl⟩

/-- C3: for a container with `size < capacity`, an index `i <= size` and a value `v`, when
nothing throws, `insert(begin() + i, v)` returns the position `i` and leaves the first `i`
old elements, then `v`, then the remaining old elements in their order; the size has grown
by one, the capacity is unchanged, and the element at the returned position is `v`. -/
theorem insert_places_value_at_position (cfg : Config) (s : State T) (i : Nat) (v : T)
    (hwf : s.self.wf) (hlt : s.self.size_ < s.self.capacity_) (hi : i ≤ s.self.size_)
    (hq : s.world.quiet) :
    ∃ s1, insert cfg i v s = (Outcome.ok i, s1) ∧
      s1.self.elements = s.self.elements.take i ++ [some v] ++ s.self.elements.drop i ∧
      s1.self.size_ = s.self.size_ + 1 ∧ s1.self.capacity_ = s.self.capacity_ ∧
      s1.self.elements[i]? = some (some v) := by
  obtain ⟨s1, h1, hwf1, hs1, hc1, ha1, he1, hq1⟩ := insert_spec cfg i v s hwf hlt hi hq
  refine ⟨s1, h1, he1, hs1, hc1, ?_⟩
  have hlenE := elements_length hwf
  rw [he1, List.append_assoc, List.getElem?_append_right (by simp [hlenE, hi])]
  simp [hlenE, hi]

/-- Witness for C3: inserting 7 at index 1 of the container holding 10, 20, 30. -/
theorem insert_places_value_at_position_witness :
    sample_vector.wf ∧ sample_vector.size_ < sample_vector.capacity_ ∧ 1 ≤ sample_vector.size_ ∧
    calm_world.quiet ∧
    ∃ s1, insert debug_build 1 7 { self := sample_vector, world := calm_world } = (Outcome.ok 1, s1) ∧
      s1.self.elements = sample_vector.elements.take 1 ++ [some 7] ++ sample_vector.elements.drop 1 ∧
      s1.self.size_ = sample_vector.size_ + 1 ∧ s1.self.capacity_ = sample_vector.capacity_ ∧
      s1.self.elements[1]? = some (some 7) :=
  ⟨by decide, by decide, by decide, fun _ => rfl,
    insert_places_value_at_position debug_build { self := sample_vector, world := calm_world } 1 7
      (by decide) (by decide) (by decide) (fun _ => rfl)⟩

/-- C4: for a non-empty container and an index `i < size`, when nothing throws,
`erase(begin() + i)` returns the position `i` and leaves the old sequence without its `i`-th
element, the others in their order; the size has shrunk by one and the capacity is
unchanged; the returned position holds the element that followed the erased one, and is
`end()` when the erased element was the last. The world in which nothing throws is the
one in which the element moves of `std::rotate` cannot throw either. -/
theorem erase_removes_element_at_position (cfg : Config) (s : State T) (i : Nat)
    (hwf : s.self.wf) (hi : i < s.self.size_) (hq : s.world.quiet) :
    ∃ s1, erase cfg i s = (Outcome.ok i, s1) ∧
      s1.self.elements = s.self.elements.eraseIdx i ∧
      s1.self.size_ = s.self.size_ - 1 ∧ s1.self.capacity_ = s.self.capacity_ ∧
      s1.self.elements[i]? = s.self.elements[i + 1]? ∧
      (i + 1 = s.self.size_ → i = s1.self.end_) := by
  obtain ⟨s1, h1, hwf1, hs1, hc1, ha1, he1, _⟩ := erase_spec cfg i s hwf hi hq
  refine ⟨s1, h1, he1, hs1, hc1, ?_, ?_⟩
  · rw [he1, List.getElem?_eraseIdx]
    simp
  · intro h
    simp only [end_, size, hs1]
    omega

/-- Witness for C4: erasing index 1 of the container holding 10, 20, 30. -/
theorem erase_removes_element_at_position_witness :
    sample_vector.wf ∧ 1 < sample_vector.size_ ∧ calm_world.quiet ∧
    ∃ s1, erase debug_build 1 { self := sample_vector, world := calm_world } = (Outcome.ok 1, s1) ∧
      s1.self.elements = sample_vector.elements.eraseIdx 1 ∧
      s1.self.size_ = sample_vector.size_ - 1 ∧ s1.self.capacity_ = sample_vector.capacity_ ∧
      s1.self.elements[1]? = sample_vector.elements[1 + 1]? ∧
      (1 + 1 = sample_vector.size_ → 1 = s1.self.end_) :=
  ⟨by decide, by decide, fun _ => rfl,
    erase_removes_element_at_position debug_build { self := sample_vector, world := calm_world } 1
      (by decide) (by decide) (fun _ => rfl)⟩

/-- C5: for a container with `size < capacity`, an index `i <= size` and a value `v`, when
nothing throws, `insert(begin() + i, v)` followed by `erase(begin() + i)` both succeed and
leave the sequence, the size and the capacity as they were before the insert. -/
theorem insert_then_erase_restores (cfg : Config) (s : State T) (i : Nat) (v : T)
    (hwf : s.self.wf) (hlt : s.self.size_ < s.self.capacity_) (hi : i ≤ s.self.size_)
    (hq : s.world.quiet) :
    ∃ s1 s2, insert cfg i v s = (Outcome.ok i, s1) ∧ erase cfg i s1 = (Outcome.ok i, s2) ∧
      s2.self.elements = s.self.elements ∧ s2.self.size_ = s.self.size_ ∧
      s2.self.capacity_ = s.self.capacity_ := by
  obtain ⟨s1, h1, hwf1, hs1, hc1, ha1, he1, hq1⟩ := insert_spec cfg i v s hwf hlt hi hq
  obtain ⟨s2, h2, hwf2, hs2, hc2, ha2, he2, _⟩ := erase_spec cfg i s1 hwf1 (by omega) hq1
  refine ⟨s1, s2, h1, h2, ?_, by omega, by omega⟩
  have hlenE := elements_length hwf
  rw [he2, he1, List.append_assoc, List.eraseIdx_append_of_length_le (by simp [hlenE, hi])]
  simp [hlenE, hi]

/-- Witness for C5: inserting 7 at index 1 of the container holding 10, 20, 30 and erasing it. -/
theorem insert_then_erase_restores_witness :
    sample_vector.wf ∧ sample_vector.size_ < sample_vector.capacity_ ∧ 1 ≤ sample_vector.size_ ∧
    calm_world.quiet ∧
    ∃ s1 s2, insert debug_build 1 7 { self := sample_vector, world := calm_world } =
        (Outcome.ok 1, s1) ∧
      erase debug_build 1 s1 = (Outcome.ok 1, s2) ∧
      s2.self.elements = sample_vector.elements ∧ s2.self.size_ = sample_vector.size_ ∧
      s2.self.capacity_ = sample_vector.capacity_ :=
  ⟨by decide, by decide, by decide, fun _ => rfl,
    insert_then_erase_restores debug_build { self := sample_vector, world := calm_world } 1 7
      (by decide) (by decide) (by decide) (fun _ => rfl)⟩

/-- C6: for a container with `size < capacity` and a value `v`, when nothing throws,
`push_back(v)` followed by `pop_back()` both succeed and leave the same size, the same
capacity and the same elements in the same order as before the push. -/
theorem push_back_then_pop_back_restores (cfg : Config) (s : State T) (v : T)
    (hwf : s.self.wf) (hlt : s.self.size_ < s.self.capacity_) (hq : s.world.quiet) :
    ∃ s1 s2, push_back cfg v s = (Outcome.ok (), s1) ∧ pop_back cfg s1 = (Outcome.ok (), s2) ∧
      s2.self.size_ = s.self.size_ ∧ s2.self.capacity_ = s.self.capacity_ ∧
      s2.self.elements = s.self.elements := by
  obtain ⟨s1, h1, hwf1, hs1, hc1, ha1, he1, hq1⟩ := push_back_spec cfg v s hwf hlt hq
  obtain ⟨s2, h2, hwf2, hs2, hc2, ha2, he2, _⟩ := pop_back_spec cfg s1 hwf1 (by omega)
  refine ⟨s1, s2, h1, h2, by omega, by omega, ?_⟩
  have hlenE := elements_length hwf
  rw [he2, he1, hs1, Nat.add_sub_cancel, List.take_append_of_le_length (by omega),
    List.take_of_length_le (by omega)]

/-- Witness for C6: pushing 7 onto the container holding 10, 20, 30 and popping it. -/
theorem push_back_then_pop_back_restores_witness :
    sample_vector.wf ∧ sample_vector.size_ < sample_vector.capacity_ ∧ calm_world.quiet ∧
    ∃ s1 s2, push_back debug_build 7 { self := sample_vector, world := calm_world } =
        (Outcome.ok (), s1) ∧
      pop_back debug_build s1 = (Outcome.ok (), s2) ∧
      s2.self.size_ = sample_vector.size_ ∧ s2.self.capacity_ = sample_vector.capacity_ ∧
      s2.self.elements = sample_vector.elements :=
  ⟨by decide, by decide, fun _ => rfl,
    push_back_then_pop_back_restores debug_build { self := sample_vector, world := calm_world } 7
      (by decide) (by decide) (fun _ => rfl)⟩

end fixed_capacity_vector
end fcv

namespace fcv
namespace fixed_capacity_vector
variable {T : Type}

/-- C7: for a container, a size `n <= capacity` and a fill value `v`, when nothing throws,
`resize(n, v)` succeeds and leaves `size == n` and the capacity unchanged; the first
`min(oldSize, n)` elements are unchanged and every index in `[oldSize, n)` holds `v`. -/
theorem resize_within_capacity (cfg : Config) (s : State T) (n : Nat) (v : T)
    (hwf : s.self.wf) (hn : n ≤ s.self.capacity_) (hq : s.world.quiet) :
    ∃ s1, resize cfg n v s = (Outcome.ok (), s1) ∧ s1.self.size_ = n ∧
      s1.self.capacity_ = s.self.capacity_ ∧
      (∀ i, i < min s.self.size_ n → s1.self.elements[i]? = s.self.elements[i]?) ∧
      (∀ i, s.self.size_ ≤ i → i < n → s1.self.elements[i]? = some (some v)) ∧
      s1.self.elements = s.self.elements.take n ++ List.replicate (n - s.self.size_) (some v) := by
  obtain ⟨s1, h1, hwf1, hs1, hc1, ha1, he1, hq1⟩ := resize_spec cfg n v s hwf hn hq
  have hlenE := elements_length hwf
  refine ⟨s1, h1, hs1, hc1, ?_, ?_, he1⟩
  · intro i hi
    rw [he1, List.getElem?_append_left (by simp [hlenE]; omega), List.getElem?_take_of_lt (by omega)]
  · intro i hlo hhi
    rw [he1, List.getElem?_append_right (by simp [hlenE]; omega)]
    rw [List.getElem?_replicate]
    simp only [List.length_take, hlenE]
    rw [if_pos (by omega)]

/-- Witness for C7: growing the container holding 10, 20, 30 to size 5 with the value 9. -/
theorem resize_within_capacity_witness :
    sample_vector.wf ∧ 5 ≤ sample_vector.capacity_ ∧ calm_world.quiet ∧
    ∃ s1, resize debug_build 5 9 { self := sample_vector, world := calm_world } =
        (Outcome.ok (), s1) ∧ s1.self.size_ = 5 ∧
      s1.self.capacity_ = sample_vector.capacity_ ∧
      (∀ i, i < min sample_vector.size_ 5 → s1.self.elements[i]? = sample_vector.elements[i]?) ∧
      (∀ i, sample_vector.size_ ≤ i → i < 5 → s1.self.elements[i]? = some (some 9)) ∧
      s1.self.elements =
        sample_vector.elements.take 5 ++ List.replicate (5 - sample_vector.size_) (some 9) :=
  ⟨by decide, by decide, fun _ => rfl,
    resize_within_capacity debug_build { self := sample_vector, world := calm_world } 5 9
      (by decide) (by decide) (fun _ => rfl)⟩

/-- With `assert` active, copy construction from any empty source of non-zero capacity ends
in the failed assertion `assert(!buffer_ == !n)` of `_copy_construct`. -/
theorem ctor_copy_asserts_on_empty_source (cfg : Config) (other : fixed_capacity_vector T)
    (w : World T) (hd : cfg.ndebug = false) (hwf : other.wf) (hs : other.size_ = 0)
    (hc : 0 < other.capacity_) (hq : w.quiet) :
    (ctor_copy cfg other w).1 = Outcome.fail Failure.assertion := by
  obtain ⟨s1, h1, hwf1, hs1, hc1, ha1, hq1⟩ := _alloc_spec cfg other.capacity_
    ({ self := { capacity_ := 0, buffer_ := none, size_ := 0,
                 allocator_ := cfg.select_on_container_copy_construction other.allocator_ },
       world := w } : State T) rfl rfl hwf.2.1 hq
  obtain ⟨b, hb, _⟩ := wf_buffer hwf1 (by omega)
  simp only [ctor_copy, M.bind_run, M.bind, capacity, size]
  rw [on_self_run _ _ _ _ h1]
  simp only [on_self, _copy_construct, M.bind_run, M.bind, get_state, hb, hs]
  rw [cassert_fail cfg _ _ hd (by simp)]

/-- C8: in a build with `assert` active, copy construction from the empty container of
capacity 3 (the state `fixed_capacity_vector<int> a(3)` is in) does not produce a copy: the
call ends in the failed assertion `assert(!buffer_ == !n)` of `_copy_construct`, because the
new buffer is not null while `n = other.size()` is zero. The same call in a build with
`NDEBUG` returns normally. -/
theorem ctor_copy_of_empty_source_fails_assertion :
    (ctor debug_build 3 0 calm_world).2.self = empty_vector ∧
    empty_vector.wf ∧
    (ctor_copy debug_build empty_vector calm_world).1 = Outcome.fail Failure.assertion ∧
    (ctor_copy { debug_build with ndebug := true } empty_vector calm_world).1 = Outcome.ok () := by
  decide

/-- C9: for a target and a distinct source, whatever their capacities and sizes, when nothing
throws, copy assignment succeeds and leaves the target with the capacity, the size and the
elements of the source, and the source as it was. -/
theorem copy_assignment_yields_source [Inhabited T] (cfg : Config) (s : State2 T)
    (hwf : s.self.wf) (hwfo : s.other.wf) (hq : s.world.quiet) :
    ∃ s1, assign_copy cfg s = (Outcome.ok (), s1) ∧
      s1.self.capacity_ = s.other.capacity_ ∧ s1.self.size_ = s.other.size_ ∧
      s1.self.elements = s.other.elements ∧ s1.other = s.other := by
  obtain ⟨s1, h1, _, hc1, hs1, he1, ho1, _⟩ := assign_copy_spec cfg s hwf hwfo hq
  exact ⟨s1, h1, hc1, hs1, he1, ho1⟩

/-- Witness for C9: assigning the container of capacity 2 holding 1, 2 to the container of
capacity 5 holding 10, 20, 30. -/
theorem copy_assignment_yields_source_witness :
    sample_vector.wf ∧ full_vector.wf ∧ calm_world.quiet ∧
    ∃ s1, assign_copy debug_build
        { self := sample_vector, other := full_vector, world := calm_world } =
        (Outcome.ok (), s1) ∧
      s1.self.capacity_ = full_vector.capacity_ ∧ s1.self.size_ = full_vector.size_ ∧
      s1.self.elements = full_vector.elements ∧ s1.other = full_vector :=
  ⟨by decide, by decide, fun _ => rfl,
    copy_assignment_yields_source debug_build
      { self := sample_vector, other := full_vector, world := calm_world }
      (by decide) (by decide) (fun _ => rfl)⟩

/-- C10: move construction from a container, and move assignment from it into a distinct
target, succeed and leave the donor with size 0, capacity 0 and no buffer, while the receiver
has the donor's former capacity, size and buffer, hence its elements in order. -/
theorem move_empties_donor (cfg : Config) (s : State2 T) (w : World T) (hwf : s.self.wf) :
    (∃ s1, ctor_move s.other w = (Outcome.ok (), s1) ∧
      s1.other.size_ = 0 ∧ s1.other.capacity_ = 0 ∧ s1.other.buffer_ = none ∧
      s1.self.capacity_ = s.other.capacity_ ∧ s1.self.size_ = s.other.size_ ∧
      s1.self.buffer_ = s.other.buffer_ ∧ s1.self.elements = s.other.elements) ∧
    (∃ s1, assign_move cfg s = (Outcome.ok (), s1) ∧
      s1.other.size_ = 0 ∧ s1.other.capacity_ = 0 ∧ s1.other.buffer_ = none ∧
      s1.self.capacity_ = s.other.capacity_ ∧ s1.self.size_ = s.other.size_ ∧
      s1.self.buffer_ = s.other.buffer_ ∧ s1.self.elements = s.other.elements) := by
  constructor
  · exact ⟨_, rfl, rfl, rfl, rfl, rfl, rfl, rfl, rfl⟩
  · obtain ⟨s1, h1, hc1, hs1, hb1, hos, hoc, hob, _, _, _⟩ := assign_move_spec cfg s hwf
    exact ⟨s1, h1, hos, hoc, hob, hc1, hs1, hb1, by simp [elements, hs1, hb1]⟩

/-- Witness for C10: moving the container of capacity 2 holding 1, 2 into a new container and
into the container of capacity 5 holding 10, 20, 30. -/
theorem move_empties_donor_witness :
    sample_vector.wf ∧
    (∃ s1, ctor_move full_vector calm_world = (Outcome.ok (), s1) ∧
      s1.other.size_ = 0 ∧ s1.other.capacity_ = 0 ∧ s1.other.buffer_ = none ∧
      s1.self.capacity_ = full_vector.capacity_ ∧ s1.self.size_ = full_vector.size_ ∧
      s1.self.buffer_ = full_vector.buffer_ ∧ s1.self.elements = full_vector.elements) ∧
    (∃ s1, assign_move debug_build
        { self := sample_vector, other := full_vector, world := calm_world } =
        (Outcome.ok (), s1) ∧
      s1.other.size_ = 0 ∧ s1.other.capacity_ = 0 ∧ s1.other.buffer_ = none ∧
      s1.self.capacity_ = full_vector.capacity_ ∧ s1.self.size_ = full_vector.size_ ∧
      s1.self.buffer_ = full_vector.buffer_ ∧ s1.self.elements = full_vector.elements) :=
  ⟨by decide,
    move_empties_donor debug_build
      { self := sample_vector, other := full_vector, world := calm_world } calm_world (by decide)⟩

end fixed_capacity_vector
end fcv

namespace fcv
namespace fixed_capacity_vector
variable {T : Type}

/-! ## Traces of the removing operations -/

theorem pop_back_trace (cfg : Config) (s : State T) (hwf : s.self.wf) (hpos : 0 < s.self.size_) :
    (pop_back cfg s).2.world.trace = s.world.trace ++
      (if cfg._req_destruction = true then [Event.destroy (s.self.size_ - 1)] else []) := by
  obtain ⟨b, hb, hlen⟩ := wf_buffer hwf (by have := hwf.1; omega)
  obtain ⟨x, hx⟩ := wf_live hwf (show s.self.size_ - 1 < s.self.size_ by omega)
  have hne : ¬ s.self.size_ = 0 := by omega
  simp only [slots, hb, Option.getD_some] at hx
  cases hreq : cfg._req_destruction
  · simp [pop_back, M.bind_run, M.bind, get_state, cassert, empty, size, hne, ite_apply,
      decr_size, _destroy, hb, hreq, M.pure_run]
  · simp [pop_back, M.bind_run, M.bind, get_state, cassert, empty, size, hne, ite_apply,
      decr_size, _destroy, hb, hreq, destroy, hx, World.noted]

theorem destroy_events_of_le (hi lo : Nat) (h : hi ≤ lo) : (destroy_events hi lo : List (Event T)) = [] := by
  cases hi with
  | zero => rfl
  | succ k => simp [destroy_events]; omega

theorem destroy_events_succ (hi lo : Nat) (h : lo ≤ hi) :
    (destroy_events (hi + 1) lo : List (Event T)) = Event.destroy hi :: destroy_events hi lo := by
  simp [destroy_events, h]

theorem shrink_loop_trace (cfg : Config) (n : Nat) (fuel : Nat) (s : State T) (hwf : s.self.wf)
    (hfuel : s.self.size_ - n ≤ fuel) :
    (while_loop (fun s => decide (s.self.size > n)) (pop_back cfg) fuel s).2.world.trace =
      s.world.trace ++
        (if cfg._req_destruction = true then destroy_events s.self.size_ n else []) := by
  induction fuel generalizing s with
  | zero =>
    have hle : s.self.size_ ≤ n := by omega
    rw [while_loop_done _ _ _ _ (by simp [size, hle]), destroy_events_of_le _ _ hle]
    simp
  | succ fuel ih =>
    by_cases hgt : s.self.size_ > n
    · obtain ⟨s1, h1, hwf1, hs1, _⟩ := pop_back_spec cfg s hwf (by omega)
      have ht := pop_back_trace cfg s hwf (by omega)
      rw [h1] at ht
      rw [while_loop_step _ _ _ _ (by simp [size, hgt]), M.bind_ok h1, ih s1 hwf1 (by omega), ht,
        hs1]
      obtain ⟨k, hk⟩ : ∃ k, s.self.size_ = k + 1 := ⟨s.self.size_ - 1, by omega⟩
      rw [hk, destroy_events_succ _ _ (by omega)]
      cases cfg._req_destruction <;> simp
    · have hle : s.self.size_ ≤ n := by omega
      rw [while_loop_done _ _ _ _ (by simp [size, hle]), destroy_events_of_le _ _ hle]
      simp

theorem clear_trace (cfg : Config) (s : State T) (hwf : s.self.wf) :
    (clear cfg s).2.world.trace = s.world.trace ++
      (if cfg._req_destruction = true then destroy_events s.self.size_ 0 else []) := by
  have hcond : (fun s : State T => s.self.size != 0) = (fun s => decide (s.self.size > 0)) := by
    funext t
    cases h : t.self.size <;> simp
  simp only [clear, M.bind_run, get_state, M.bind, hcond]
  exact shrink_loop_trace cfg 0 s.self.size_ s hwf (by omega)

/-- C11: for a container and an initializer list no longer than the capacity, whether the
list is shorter than, as long as or longer than the current size, when nothing throws,
assignment from the list succeeds, leaves the capacity unchanged and makes the sequence
exactly the list: the size is its length and the elements are equal index by index. -/
theorem list_assignment_yields_list [Inhabited T] (cfg : Config) (s : State T) (il : List T)
    (hwf : s.self.wf) (hlen : il.length ≤ s.self.capacity_) (hq : s.world.quiet) :
    ∃ s1, assign_il cfg il s = (Outcome.ok (), s1) ∧
      s1.self.capacity_ = s.self.capacity_ ∧ s1.self.size_ = il.length ∧
      s1.self.elements = il.map some ∧
      ∀ i, i < il.length → s1.self.elements[i]? = some il[i]? := by
  obtain ⟨s1, h1, _, hs1, hc1, _, he1, _⟩ := assign_il_spec cfg il s hwf hlen hq
  refine ⟨s1, h1, hc1, hs1, he1, ?_⟩
  intro i hi
  rw [he1]
  simp [hi]

/-- Witness for C11: the list 3, 4, 5, 6 assigned to the container of capacity 5 holding
10, 20, 30. -/
theorem list_assignment_yields_list_witness :
    sample_vector.wf ∧ [3, 4, 5, 6].length ≤ sample_vector.capacity_ ∧ calm_world.quiet ∧
    ∃ s1, assign_il debug_build [3, 4, 5, 6] { self := sample_vector, world := calm_world } =
        (Outcome.ok (), s1) ∧
      s1.self.capacity_ = sample_vector.capacity_ ∧ s1.self.size_ = [3, 4, 5, 6].length ∧
      s1.self.elements = [3, 4, 5, 6].map some ∧
      ∀ i, i < [3, 4, 5, 6].length → s1.self.elements[i]? = some [3, 4, 5, 6][i]? :=
  ⟨by decide, by decide, fun _ => rfl,
    list_assignment_yields_list debug_build { self := sample_vector, world := calm_world }
      [3, 4, 5, 6] (by decide) (by decide) (fun _ => rfl)⟩

/-- C12: for two distinct containers, in every world, `a.swap(b)` returns normally and leaves
`a` with the former capacity, size and buffer (hence elements) of `b`, and `b` with those of
`a`; the world is untouched, and a second swap restores the state before the first. -/
theorem swap_exchanges_and_is_involutive (cfg : Config) (s : State2 T) :
    ∃ s1, swap cfg s = (Outcome.ok (), s1) ∧
      s1.self.capacity_ = s.other.capacity_ ∧ s1.self.size_ = s.other.size_ ∧
      s1.self.buffer_ = s.other.buffer_ ∧ s1.self.elements = s.other.elements ∧
      s1.other.capacity_ = s.self.capacity_ ∧ s1.other.size_ = s.self.size_ ∧
      s1.other.buffer_ = s.self.buffer_ ∧ s1.other.elements = s.self.elements ∧
      s1.world = s.world ∧ swap cfg s1 = (Outcome.ok (), s) := by
  cases hp : cfg.propagate_on_container_swap
  · refine ⟨{ self := { s.self with size_ := s.other.size_, capacity_ := s.other.capacity_,
                                    buffer_ := s.other.buffer_ },
              other := { s.other with size_ := s.self.size_, capacity_ := s.self.capacity_,
                                      buffer_ := s.self.buffer_ },
              world := s.world }, ?_, rfl, rfl, rfl, rfl, rfl, rfl, rfl, rfl, rfl, ?_⟩
    · simp [swap, M.bind_run, M.bind, hp, M.pure_run, _swap_state]
    · simp [swap, M.bind_run, M.bind, hp, M.pure_run, _swap_state]
  · refine ⟨{ self := { s.other with allocator_ := s.other.allocator_ },
              other := { s.self with allocator_ := s.self.allocator_ },
              world := s.world }, ?_, rfl, rfl, rfl, rfl, rfl, rfl, rfl, rfl, rfl, ?_⟩
    · simp [swap, M.bind_run, M.bind, hp, _swap_state]
    · simp [swap, M.bind_run, M.bind, hp, _swap_state]

/-- C13: for every container, `clear()` terminates and returns normally with size 0; the
capacity and the allocator are unchanged, the buffer is the same allocation (null as before
or of the same length, and the only calls made are the `destroy` calls for the former
elements, none to `allocate` or `deallocate`); afterwards, when nothing throws,
`capacity` calls of `push_back` succeed and leave the pushed values as contents. -/
theorem clear_keeps_capacity (cfg : Config) (s : State T) (hwf : s.self.wf) :
    ∃ s1, clear cfg s = (Outcome.ok (), s1) ∧ s1.self.size_ = 0 ∧
      s1.self.capacity_ = s.self.capacity_ ∧ s1.self.allocator_ = s.self.allocator_ ∧
      (s1.self.buffer_ = none ↔ s.self.buffer_ = none) ∧
      (slots s1.self.buffer_).length = (slots s.self.buffer_).length ∧
      s1.world.trace = s.world.trace ++
        (if cfg._req_destruction = true then destroy_events s.self.size_ 0 else []) ∧
      ∀ vs : List T, vs.length = s.self.capacity_ → s1.world.quiet →
        ∃ s2, push_each cfg vs s1 = (Outcome.ok (), s2) ∧ s2.self.size_ = s.self.capacity_ ∧
          s2.self.capacity_ = s.self.capacity_ ∧ s2.self.elements = vs.map some := by
  obtain ⟨s1, h1, hwf1, hs1, hc1, ha1, _, _⟩ := clear_spec cfg s hwf
  have ht := clear_trace cfg s hwf
  rw [h1] at ht
  refine ⟨s1, h1, hs1, hc1, ha1, ?_, ?_, ht, ?_⟩
  · rw [hwf1.2.2.1, hwf.2.2.1, hc1]
  · rw [hwf1.2.2.2.1, hwf.2.2.2.1, hc1]
  · intro vs hlen hq
    obtain ⟨s2, h2, _, hs2, hc2, _, he2, _⟩ := push_each_spec cfg vs s1 hwf1 (by omega) hq
    refine ⟨s2, h2, by omega, by omega, ?_⟩
    rw [he2]
    simp [elements, hs1]

/-- Witness for C13: clearing the container of capacity 5 holding 10, 20, 30. -/
theorem clear_keeps_capacity_witness :
    sample_vector.wf ∧
    ∃ s1, clear debug_build { self := sample_vector, world := calm_world } = (Outcome.ok (), s1) ∧
      s1.self.size_ = 0 ∧
      s1.self.capacity_ = sample_vector.capacity_ ∧ s1.self.allocator_ = sample_vector.allocator_ ∧
      (s1.self.buffer_ = none ↔ sample_vector.buffer_ = none) ∧
      (slots s1.self.buffer_).length = (slots sample_vector.buffer_).length ∧
      s1.world.trace = calm_world.trace ++
        (if debug_build._req_destruction = true then destroy_events sample_vector.size_ 0 else []) ∧
      ∀ vs : List Nat, vs.length = sample_vector.capacity_ → s1.world.quiet →
        ∃ s2, push_each debug_build vs s1 = (Outcome.ok (), s2) ∧
          s2.self.size_ = sample_vector.capacity_ ∧
          s2.self.capacity_ = sample_vector.capacity_ ∧ s2.self.elements = vs.map some :=
  ⟨by decide,
    clear_keeps_capacity debug_build { self := sample_vector, world := calm_world } (by decide)⟩

end fixed_capacity_vector
end fcv

namespace fcv
namespace fixed_capacity_vector
variable {T : Type}

/-! ## Calls in which an element constructor throws -/

theorem push_back_step (cfg : Config) (v : T) (s : State T) (hwf : s.self.wf)
    (hlt : s.self.size_ < s.self.capacity_) (hno : s.world.throws s.world.clock = false) :
    ∃ s1, push_back cfg v s = (Outcome.ok (), s1) ∧ s1.self.wf ∧
      s1.self.size_ = s.self.size_ + 1 ∧ s1.self.capacity_ = s.self.capacity_ ∧
      s1.self.allocator_ = s.self.allocator_ ∧
      s1.self.elements = s.self.elements ++ [some v] ∧
      s1.world = s.world.completed (Event.construct s.self.size_ v) := by
  let s0 : State T := { s with world := { s.world with throws := fun _ => false } }
  have hq0 : s0.world.quiet := fun _ => rfl
  obtain ⟨b, hb, hlen⟩ := wf_buffer hwf (by omega)
  obtain ⟨t, ht, hwf1, hs1, hc1, ha1, he1, _⟩ := push_back_spec cfg v s0 hwf hlt hq0
  have heq0 := push_back_eq cfg v s0 hwf hlt hq0
  have hne : s.self.size_ ≠ s.self.capacity_ := by omega
  have h2l : s.self.capacity_ < 4294967296 := hwf.2.1
  have hmod : (s.self.size_ + 1) % size_type_mod = s.self.size_ + 1 :=
    Nat.mod_eq_of_lt (by simp only [size_type_mod]; omega)
  have heq : push_back cfg v s = (Outcome.ok (),
      { self := { s.self with buffer_ := some ((slots s.self.buffer_).set s.self.size_ (some v)),
                              size_ := s.self.size_ + 1 },
        world := s.world.completed (Event.construct s.self.size_ v) }) := by
    simp [push_back, M.bind_run, get_state, M.bind, ite_apply, hne, M.pure_run, _emplace, cassert,
      construct, fallible, hno, hb, hlen, hlt, incr_size, hmod, slots]
  rw [heq0] at ht
  have hself : t.self = { s.self with
      buffer_ := some ((slots s.self.buffer_).set s.self.size_ (some v)),
      size_ := s.self.size_ + 1 } := by
    have := congrArg (fun p => p.2.self) ht
    exact this.symm
  refine ⟨_, heq, ?_, rfl, rfl, rfl, ?_, rfl⟩
  · show ({ s.self with buffer_ := some ((slots s.self.buffer_).set s.self.size_ (some v)),
                        size_ := s.self.size_ + 1 } : fixed_capacity_vector T).wf
    rw [← hself]; exact hwf1
  · show ({ s.self with buffer_ := some ((slots s.self.buffer_).set s.self.size_ (some v)),
                        size_ := s.self.size_ + 1 } : fixed_capacity_vector T).elements = _
    rw [← hself]; exact he1

theorem push_back_throw (cfg : Config) (v : T) (s : State T) (hwf : s.self.wf)
    (hlt : s.self.size_ < s.self.capacity_) (hthrow : s.world.throws s.world.clock = true) :
    push_back cfg v s =
      (Outcome.fail Failure.element_exception, { s with world := s.world.thrown }) := by
  obtain ⟨b, hb, hlen⟩ := wf_buffer hwf (by omega)
  have hne : s.self.size_ ≠ s.self.capacity_ := by omega
  simp [push_back, M.bind_run, get_state, M.bind, ite_apply, hne, M.pure_run, _emplace, cassert,
    construct, fallible, hthrow, hb, hlt]

theorem grow_body_eq (cfg : Config) (v : T) (s : State T)
    (hne : s.self.size_ ≠ s.self.capacity_) :
    (do
      let s ← get_state
      _emplace cfg s.self.size_ v
      incr_size : M (State T) Unit) s = push_back cfg v s := by
  simp [push_back, M.bind_run, M.bind, get_state, hne, ite_apply, M.pure_run]

theorem grow_loop_throw (cfg : Config) (n : Nat) (v : T) (k : Nat) (fuel : Nat) (s : State T)
    (hwf : s.self.wf) (hk : s.self.size_ + k < n) (hn : n ≤ s.self.capacity_)
    (hfuel : n - s.self.size_ ≤ fuel)
    (hok : ∀ j, j < k → s.world.throws (s.world.clock + j) = false)
    (hthrow : s.world.throws (s.world.clock + k) = true) :
    ∃ s1, while_loop (fun s => decide (s.self.size_ < n))
        (do
          let s ← get_state
          _emplace cfg s.self.size_ v
          incr_size) fuel s = (Outcome.fail Failure.element_exception, s1) ∧
      s1.self.wf ∧ s1.self.size_ = s.self.size_ + k ∧ s1.self.capacity_ = s.self.capacity_ ∧
      s1.self.elements = s.self.elements ++ List.replicate k (some v) ∧
      s1.world.clock = s.world.clock + k + 1 := by
  induction k generalizing fuel s with
  | zero =>
    obtain ⟨f, rfl⟩ : ∃ f, fuel = f + 1 := ⟨fuel - 1, by omega⟩
    have hb := grow_body_eq cfg v s (by omega)
    have ht := push_back_throw cfg v s hwf (by omega) (by simpa using hthrow)
    refine ⟨{ s with world := s.world.thrown }, ?_, hwf, rfl, rfl, by simp, rfl⟩
    rw [while_loop_step _ _ _ _ (by simp; omega), M.bind_fail (hb.trans ht)]
  | succ k ih =>
    obtain ⟨f, rfl⟩ : ∃ f, fuel = f + 1 := ⟨fuel - 1, by omega⟩
    have hb := grow_body_eq cfg v s (by omega)
    obtain ⟨s1, h1, hwf1, hs1, hc1, _, he1, hw1⟩ :=
      push_back_step cfg v s hwf (by omega) (by simpa using hok 0 (by omega))
    have hclock : s1.world.clock = s.world.clock + 1 := by rw [hw1]; rfl
    have hthr : s1.world.throws = s.world.throws := by rw [hw1]; rfl
    obtain ⟨s2, h2, hwf2, hs2, hc2, he2, hk2⟩ := ih f s1 hwf1 (by omega) (by omega) (by omega)
      (by
        intro j hj
        rw [hthr, hclock, Nat.add_assoc, Nat.add_comm 1 j]
        exact hok (j + 1) (by omega))
      (by
        rw [hthr, hclock, Nat.add_assoc, Nat.add_comm 1 k]
        exact hthrow)
    refine ⟨s2, ?_, hwf2, by omega, by omega, ?_, by omega⟩
    · rw [while_loop_step _ _ _ _ (by simp; omega), M.bind_ok (hb.trans h1), h2]
    · rw [he2, he1, List.append_assoc]
      congr 1

/-- C16: for a container with `size < capacity` and a value `v`, if the element constructor
called by `push_back(v)` throws, the call ends with that exception and the container (size,
capacity, buffer, hence elements) is exactly what it was before the call. -/
theorem push_back_strong_exception_safety (cfg : Config) (s : State T) (v : T) (hwf : s.self.wf)
    (hlt : s.self.size_ < s.self.capacity_) (hthrow : s.world.throws s.world.clock = true) :
    (push_back cfg v s).1 = Outcome.fail Failure.element_exception ∧
    (push_back cfg v s).2.self = s.self ∧
    (push_back cfg v s).2.self.size_ = s.self.size_ ∧
    (push_back cfg v s).2.self.capacity_ = s.self.capacity_ ∧
    (push_back cfg v s).2.self.elements = s.self.elements ∧
    (push_back cfg v s).2.world.trace = s.world.trace := by
  rw [push_back_throw cfg v s hwf hlt hthrow]
  exact ⟨rfl, rfl, rfl, rfl, rfl, rfl⟩

/-- Witness for C16: pushing onto the container holding 10, 20, 30 when the first call throws. -/
theorem push_back_strong_exception_safety_witness :
    sample_vector.wf ∧ sample_vector.size_ < sample_vector.capacity_ ∧
    (world_throwing_at 0).throws (world_throwing_at 0).clock = true ∧
    (push_back debug_build 7 { self := sample_vector, world := world_throwing_at 0 }).1 =
      Outcome.fail Failure.element_exception ∧
    (push_back debug_build 7 { self := sample_vector, world := world_throwing_at 0 }).2.self =
      sample_vector :=
  have h := push_back_strong_exception_safety debug_build
    { self := sample_vector, world := world_throwing_at 0 } 7 (by decide) (by decide) (by decide)
  ⟨by decide, by decide, by decide, h.1, h.2.1⟩

/-- C17: for a growing `resize(n, v)` with `oldSize < n <= capacity` in which the first `k`
fill constructions succeed and the next one throws (`k < n - oldSize`), the call ends with
that exception and leaves, without rollback, size `oldSize + k`, the capacity unchanged, and
the original elements followed by `k` copies of `v`. -/
theorem resize_growth_stops_at_throw (cfg : Config) (s : State T) (n k : Nat) (v : T)
    (hwf : s.self.wf) (hgrow : s.self.size_ < n) (hn : n ≤ s.self.capacity_)
    (hk : k < n - s.self.size_)
    (hok : ∀ j, j < k → s.world.throws (s.world.clock + j) = false)
    (hthrow : s.world.throws (s.world.clock + k) = true) :
    (resize cfg n v s).1 = Outcome.fail Failure.element_exception ∧
    (resize cfg n v s).2.self.size_ = s.self.size_ + k ∧
    (resize cfg n v s).2.self.capacity_ = s.self.capacity_ ∧
    (resize cfg n v s).2.self.elements = s.self.elements ++ List.replicate k (some v) := by
  obtain ⟨s1, h1, _, hs1, hc1, he1, _⟩ :=
    grow_loop_throw cfg n v k (n - s.self.size_) s hwf (by omega) hn (le_refl _) hok hthrow
  have hng : ¬ n > s.self.capacity_ := by omega
  have hsh : while_loop (fun s => decide (s.self.size > n)) (pop_back cfg) s.self.size_ s =
      (Outcome.ok (), s) := while_loop_done _ _ _ _ (by simp [size]; omega)
  have hres : resize cfg n v s = (Outcome.fail Failure.element_exception, s1) := by
    simp only [resize, M.bind_run, get_state, M.bind, hng, if_false, ite_apply, M.pure_run, hsh]
    exact h1
  rw [hres]
  exact ⟨rfl, hs1, hc1, he1⟩

/-- Witness for C17: growing the container holding 10, 20, 30 to size 5 when the second
construction throws. -/
theorem resize_growth_stops_at_throw_witness :
    sample_vector.wf ∧ sample_vector.size_ < 5 ∧ 5 ≤ sample_vector.capacity_ ∧
    1 < 5 - sample_vector.size_ ∧
    (∀ j, j < 1 → (world_throwing_at 1).throws ((world_throwing_at 1).clock + j) = false) ∧
    (world_throwing_at 1).throws ((world_throwing_at 1).clock + 1) = true ∧
    (resize debug_build 5 9 { self := sample_vector, world := world_throwing_at 1 }).1 =
      Outcome.fail Failure.element_exception ∧
    (resize debug_build 5 9 { self := sample_vector, world := world_throwing_at 1 }).2.self.size_ =
      sample_vector.size_ + 1 :=
  have h := resize_growth_stops_at_throw debug_build
    { self := sample_vector, world := world_throwing_at 1 } 5 1 9 (by decide) (by decide)
    (by decide) (by decide) (by decide) (by decide)
  ⟨by decide, by decide, by decide, by decide, by decide, by decide, h.1, h.2.1⟩

end fixed_capacity_vector
end fcv

namespace fcv
namespace fixed_capacity_vector
variable {T : Type}

/-! ## Element access and traversal -/

theorem all_some_eq_map {α : Type} (l : List (Option α)) (h : ∀ x ∈ l, x ≠ none) :
    ∃ xs : List α, l = xs.map some := by
  induction l with
  | nil => exact ⟨[], rfl⟩
  | cons a l ih =>
    obtain ⟨xs, hxs⟩ := ih (fun x hx => h x (List.mem_cons_of_mem _ hx))
    cases a with
    | none => exact absurd rfl (h none (List.mem_cons_self _ _))
    | some y => exact ⟨y :: xs, by simp [hxs]⟩

theorem elements_values {v : fixed_capacity_vector T} (hwf : v.wf) :
    ∃ xs : List T, v.elements = xs.map some ∧ xs.length = v.size_ := by
  obtain ⟨xs, hxs⟩ := all_some_eq_map v.elements hwf.2.2.2.2
  refine ⟨xs, hxs, ?_⟩
  have := elements_length hwf
  rw [hxs] at this
  simpa using this

theorem deref_live {σ : Type} {v : fixed_capacity_vector T} (hwf : v.wf) (xs : List T)
    (hxs : v.elements = xs.map some) (i : Nat) (x : T) (hx : xs[i]? = some x) (s : σ) :
    deref ((slots v.buffer_).drop i) s = (Outcome.ok x, s) := by
  have hlen := elements_length hwf
  have hi : i < xs.length := by
    by_contra h
    rw [List.getElem?_eq_none (by omega)] at hx
    exact absurd hx (by simp)
  have hxl : xs.length = v.size_ := by rw [hxs] at hlen; simpa using hlen
  have hsl : (slots v.buffer_)[i]? = some (some x) := by
    have h1 : v.elements[i]? = some (some x) := by rw [hxs]; simp [hx]
    rw [elements, List.getElem?_take_of_lt (by omega)] at h1
    exact h1
  have hil : i < (slots v.buffer_).length := by
    by_contra h
    rw [List.getElem?_eq_none (by omega)] at hsl
    exact absurd hsl (by simp)
  rw [List.drop_eq_getElem_cons hil]
  rw [List.getElem?_eq_getElem hil] at hsl
  injection hsl with hsl
  rw [hsl]
  rfl

theorem at_spec (cfg : Config) {v : fixed_capacity_vector T} (hwf : v.wf) (xs : List T)
    (hxs : v.elements = xs.map some) (i : Nat) (x : T) (hx : xs[i]? = some x) (w : World T) :
    at_ cfg i { self := v, world := w } = (Outcome.ok x, { self := v, world := w }) := by
  have hlen := elements_length hwf
  have hi : i < xs.length := by
    by_contra h
    rw [List.getElem?_eq_none (by omega)] at hx
    exact absurd hx (by simp)
  have hxl : xs.length = v.size_ := by rw [hxs] at hlen; simpa using hlen
  simp only [at_, M.bind_run, M.bind, get_state]
  rw [cassert_ok cfg _ _ (Or.inr (by simp; omega))]
  exact deref_live hwf xs hxs i x hx _

theorem traverse_spec {v : fixed_capacity_vector T} (hwf : v.wf) (xs : List T)
    (hxs : v.elements = xs.map some) (w : World T) (fuel it : Nat) (hit : it ≤ v.size_)
    (hfuel : v.size_ - it ≤ fuel) :
    traverse fuel it v.size_ { self := v, world := w } =
      (Outcome.ok (List.enumFrom it (xs.drop it)), { self := v, world := w }) := by
  have hlen := elements_length hwf
  have hxl : xs.length = v.size_ := by rw [hxs] at hlen; simpa using hlen
  induction fuel generalizing it with
  | zero =>
    have : it = v.size_ := by omega
    simp [traverse, this, M.pure_run, List.drop_eq_nil_of_le (le_of_eq hxl)]
  | succ fuel ih =>
    by_cases h : it = v.size_
    · simp [traverse, h, M.pure_run, List.drop_eq_nil_of_le (le_of_eq hxl)]
    · have hi : it < xs.length := by omega
      have hd := deref_live hwf xs hxs it xs[it] (List.getElem?_eq_getElem hi)
        ({ self := v, world := w } : State T)
      simp only [traverse, h, if_false, M.bind_run, M.bind, get_state, hd,
        ih (it + 1) (by omega) (by omega), M.pure_run]
      rw [List.drop_eq_getElem_cons hi, List.enumFrom_cons]

theorem traverse_reverse_spec {v : fixed_capacity_vector T} (hwf : v.wf) (xs : List T)
    (hxs : v.elements = xs.map some) (w : World T) (c fuel : Nat) (hc : c ≤ v.size_)
    (hfuel : c ≤ fuel) :
    traverse_reverse fuel { current := c } { current := 0 } { self := v, world := w } =
      (Outcome.ok (List.enumFrom 0 (xs.take c)).reverse, { self := v, world := w }) := by
  have hlen := elements_length hwf
  have hxl : xs.length = v.size_ := by rw [hxs] at hlen; simpa using hlen
  induction c generalizing fuel with
  | zero =>
    cases fuel <;> simp [traverse_reverse, M.pure_run]
  | succ c ih =>
    obtain ⟨f, rfl⟩ : ∃ f, fuel = f + 1 := ⟨fuel - 1, by omega⟩
    have hi : c < xs.length := by omega
    have hd := deref_live hwf xs hxs c xs[c] (List.getElem?_eq_getElem hi)
      ({ self := v, world := w } : State T)
    have hne : ¬ (({ current := ((c + 1 : Nat) : Int) } : reverse_iterator) = { current := 0 }) := by
      intro h
      injection h with h
      omega
    have hnext : (({ current := ((c + 1 : Nat) : Int) } : reverse_iterator).next) =
        { current := (c : Int) } := by
      simp [reverse_iterator.next]
    have hderef : ({ current := ((c + 1 : Nat) : Int) } : reverse_iterator).deref v.buffer_
        ({ self := v, world := w } : State T) = (Outcome.ok xs[c], { self := v, world := w }) := by
      simp only [reverse_iterator.deref]
      rw [if_pos (by omega)]
      have : (((c + 1 : Nat) : Int) - 1).toNat = c := by omega
      rw [this]
      exact hd
    have hslot : (((c + 1 : Nat) : Int) - 1).toNat = c := by omega
    simp only [traverse_reverse, hne, if_false, M.bind_run, M.bind, get_state, hderef, hnext,
      ih f (by omega) (by omega), M.pure_run, hslot]
    rw [List.take_succ, List.getElem?_eq_getElem hi, List.enumFrom_append]
    simp [List.length_take, Nat.min_eq_left (le_of_lt hi)]

/-- C15: for every container, the traversal from `begin()` to `end()` ends after `size()`
steps and its `i`-th step visits offset `i` and reads the element `at(i)`; the traversal from
`rbegin()` to `rend()` ends after `size()` steps and its `i`-th step visits offset
`size - 1 - i` and reads the element `at(size - 1 - i)`, so it is the forward traversal in
reverse order; every offset either traversal visits is below `size`, and the container and
the world are left as they were. -/
theorem traversals_visit_live_range (cfg : Config) (v : fixed_capacity_vector T) (w : World T)
    (hwf : v.wf) :
    ∃ fwd rev,
      traverse v.size_ v.begin v.end_ { self := v, world := w } =
        (Outcome.ok fwd, { self := v, world := w }) ∧
      traverse_reverse v.size_ v.rbegin v.rend { self := v, world := w } =
        (Outcome.ok rev, { self := v, world := w }) ∧
      fwd.length = v.size_ ∧ rev.length = v.size_ ∧ rev = fwd.reverse ∧
      (∀ i, i < v.size_ → ∃ x, at_ cfg i { self := v, world := w } =
          (Outcome.ok x, { self := v, world := w }) ∧ fwd[i]? = some (i, x)) ∧
      (∀ i, i < v.size_ → ∃ x, at_ cfg (v.size_ - 1 - i) { self := v, world := w } =
          (Outcome.ok x, { self := v, world := w }) ∧ rev[i]? = some (v.size_ - 1 - i, x)) ∧
      (∀ p ∈ fwd, p.1 < v.size_) ∧ (∀ p ∈ rev, p.1 < v.size_) := by
  obtain ⟨xs, hxs, hxl⟩ := elements_values hwf
  have hf := traverse_spec hwf xs hxs w v.size_ 0 (by omega) (by omega)
  have hr := traverse_reverse_spec hwf xs hxs w v.size_ v.size_ (le_refl _) (le_refl _)
  rw [List.take_of_length_le (le_of_eq hxl)] at hr
  rw [List.drop_zero] at hf
  have hfwd : ∀ i, i < v.size_ → ∃ x, at_ cfg i { self := v, world := w } =
      (Outcome.ok x, { self := v, world := w }) ∧ (List.enumFrom 0 xs)[i]? = some (i, x) := by
    intro i hi
    have hix : i < xs.length := by omega
    refine ⟨xs[i], at_spec cfg hwf xs hxs i xs[i] (List.getElem?_eq_getElem hix) w, ?_⟩
    rw [List.getElem?_enumFrom, List.getElem?_eq_getElem hix]
    simp
  have hmem : ∀ p ∈ List.enumFrom 0 xs, p.1 < v.size_ := by
    intro p hp
    have := List.fst_lt_add_of_mem_enumFrom hp
    omega
  refine ⟨List.enumFrom 0 xs, (List.enumFrom 0 xs).reverse, hf, hr, by simp [hxl], by simp [hxl],
    rfl, hfwd, ?_, hmem, ?_⟩
  · intro i hi
    obtain ⟨x, hx1, hx2⟩ := hfwd (v.size_ - 1 - i) (by omega)
    refine ⟨x, hx1, ?_⟩
    rw [List.getElem?_reverse (by simp [hxl]; omega)]
    simp only [List.enumFrom_length, hxl]
    exact hx2
  · intro p hp
    exact hmem p (List.mem_reverse.mp hp)

/-- Witness for C15: the traversals of the container of capacity 5 holding 10, 20, 30. -/
theorem traversals_visit_live_range_witness :
    sample_vector.wf ∧
    ∃ fwd rev,
      traverse sample_vector.size_ sample_vector.begin sample_vector.end_
          { self := sample_vector, world := calm_world } =
        (Outcome.ok fwd, { self := sample_vector, world := calm_world }) ∧
      traverse_reverse sample_vector.size_ sample_vector.rbegin sample_vector.rend
          { self := sample_vector, world := calm_world } =
        (Outcome.ok rev, { self := sample_vector, world := calm_world }) ∧
      fwd.length = sample_vector.size_ ∧ rev.length = sample_vector.size_ ∧ rev = fwd.reverse ∧
      (∀ i, i < sample_vector.size_ → ∃ x, at_ debug_build i
          { self := sample_vector, world := calm_world } =
          (Outcome.ok x, { self := sample_vector, world := calm_world }) ∧ fwd[i]? = some (i, x)) ∧
      (∀ i, i < sample_vector.size_ → ∃ x, at_ debug_build (sample_vector.size_ - 1 - i)
          { self := sample_vector, world := calm_world } =
          (Outcome.ok x, { self := sample_vector, world := calm_world }) ∧
          rev[i]? = some (sample_vector.size_ - 1 - i, x)) ∧
      (∀ p ∈ fwd, p.1 < sample_vector.size_) ∧ (∀ p ∈ rev, p.1 < sample_vector.size_) :=
  ⟨by decide, traversals_visit_live_range debug_build sample_vector calm_world (by decide)⟩

end fixed_capacity_vector
end fcv

namespace fcv
namespace fixed_capacity_vector
variable {T : Type}

/-! ## The order of the calls in copy assignment -/

theorem assign_element_world (dst : Nat) (x : T) (tl : List (Option T)) (s : State T)
    (hwf : s.self.wf) (hd : dst < s.self.size_) (hq : s.world.quiet) :
    (assign_element dst (some x :: tl) s).2.world = s.world.completed (Event.assign dst x) := by
  have hqq := hq s.world.clock
  obtain ⟨y, hy⟩ := wf_live hwf hd
  simp [assign_element, M.bind_run, M.bind, deref, fallible, hqq, get_state, hy]

theorem _copy_assign_trace (n : Nat) (dst : Nat) (src : List (Option T)) (s : State T)
    (hwf : s.self.wf) (hd : dst + n ≤ s.self.size_) (hlen : n ≤ src.length)
    (hsrc : ∀ x ∈ src.take n, x ≠ none) (hq : s.world.quiet) :
    (_copy_assign n dst src s).2.world.trace = s.world.trace ++ assign_events dst (src.take n) := by
  induction n generalizing dst src s with
  | zero => simp [_copy_assign, M.pure_run, assign_events]
  | succ n ih =>
    cases src with
    | nil => simp at hlen
    | cons hd1 tl =>
      cases hd1 with
      | none => exact absurd rfl (hsrc none (by simp))
      | some x =>
        obtain ⟨s1, h1, hwf1, hs1, _, _, _, hq1⟩ :=
          assign_element_spec dst (some x :: tl) x tl s hwf (by omega) rfl hq
        have hw := assign_element_world dst x tl s hwf (by omega) hq
        rw [h1] at hw
        have h2 := ih (dst + 1) tl s1 hwf1 (by omega) (by simpa using hlen)
          (fun z hz => hsrc z (by simp [hz])) hq1
        simp only [_copy_assign, M.bind_run, M.bind, h1, List.tail_cons]
        rw [h2]
        simp only at hw
        rw [hw]
        simp [World.completed, assign_events]

theorem resize_shrink_eq (cfg : Config) (n : Nat) (v : T) (s : State T) (hwf : s.self.wf)
    (hn : n ≤ s.self.size_) :
    resize cfg n v s =
      while_loop (fun s => decide (s.self.size > n)) (pop_back cfg) s.self.size_ s := by
  obtain ⟨s1, h1, hwf1, hs1, _⟩ := shrink_loop_spec cfg n s.self.size_ s hwf (by omega)
  have hng : ¬ n > s.self.capacity_ := by have := hwf.1; omega
  simp only [resize, M.bind_run, get_state, M.bind, hng, if_false, ite_apply, M.pure_run, h1]
  exact while_loop_done _ _ _ _ (by simp; omega)

theorem resize_default_shrink_trace [Inhabited T] (cfg : Config) (n : Nat) (s : State T)
    (hwf : s.self.wf) (hn : n ≤ s.self.size_) (hq : s.world.quiet) :
    (resize_default cfg n s).2.world.trace = s.world.trace ++ [Event.value_init] ++
      (if cfg._req_destruction = true then destroy_events s.self.size_ n else []) := by
  have hqq := hq s.world.clock
  simp only [resize_default, value_type_init, M.bind_run, M.bind, fallible, hqq, M.pure_run]
  have hsh := resize_shrink_eq cfg n (default : T)
    { s with world := s.world.completed Event.value_init } hwf hn
  simp only [Bool.false_eq_true, if_false] 
  rw [hsh]
  exact shrink_loop_trace cfg n s.self.size_
    { s with world := s.world.completed Event.value_init } hwf (by simp)

/-- Copy assignment to a longer target of the same capacity: the calls made, in order. -/
theorem assign_copy_shrink_trace [Inhabited T] (cfg : Config) (s : State2 T) (hwf : s.self.wf)
    (hwfo : s.other.wf) (hq : s.world.quiet)
    (hprop : (cfg.propagate_on_container_copy_assignment &&
      s.self.allocator_ != s.other.allocator_) = false)
    (hcap : s.self.capacity_ = s.other.capacity_) (hlonger : s.other.size_ < s.self.size_) :
    (assign_copy cfg s).1 = Outcome.ok () ∧
    (assign_copy cfg s).2.world.trace = s.world.trace ++ [Event.value_init] ++
      (if cfg._req_destruction = true then destroy_events s.self.size_ s.other.size_ else []) ++
      assign_events 0 s.other.elements := by
  obtain ⟨hlen, hsrc⟩ := elements_wf_take hwfo
  obtain ⟨s1, h1, s2, h2, hwf2, hs2, hc2, ha2, he2, hq2⟩ :=
    copy_elements_shrink cfg s.other.size_ (slots s.other.buffer_)
      { self := s.self, world := s.world } hwf (le_of_lt hlonger) hlen hsrc hq
  have ht1 := resize_default_shrink_trace cfg s.other.size_
    { self := s.self, world := s.world } hwf (le_of_lt hlonger) hq
  rw [h1] at ht1
  obtain ⟨r1, hr1, hwfr, hsr, _, _, _, hqr⟩ := resize_default_spec cfg s.other.size_
    { self := s.self, world := s.world } hwf (by show s.other.size_ ≤ s.self.capacity_; have := hwfo.1; have := hwf.1; omega) hq
  rw [h1] at hr1
  have hs1r : s1 = r1 := by injection hr1 with _ h
  have ht2 := _copy_assign_trace s.other.size_ 0 (slots s.other.buffer_) s1
    (by rw [hs1r]; exact hwfr) (by rw [hs1r, hsr]; omega) hlen hsrc (by rw [hs1r]; exact hqr)
  rw [h2] at ht2
  have hB : (s.self.capacity_ != s.other.capacity_) = false := by simp [hcap]
  have hge : s.other.size_ ≤ s.self.size_ := le_of_lt hlonger
  have hrun : assign_copy cfg s =
      (Outcome.ok (), { self := s2.self, other := s.other, world := s2.world }) := by
    simp only [assign_copy, M.bind_run, M.bind, get_state, hprop, capacity, hB, Bool.false_eq_true,
      if_false, ite_apply, M.pure_run, size, ge_iff_le, hge, if_true]
    rw [on_self_run _ _ _ _ h1]
    simp only
    rw [on_self_run _ _ _ _ h2]
  rw [hrun]
  refine ⟨rfl, ?_⟩
  simp only at ht1 ht2 ⊢
  rw [ht2, ht1]
  rfl

/-- C19, the claim as stated fails: when the container holding 1, 2 is assigned to the
container of the same capacity holding 10, 20, 30, the excess element at offset 2 is
destroyed before any element is assigned. -/
theorem copy_assignment_destroys_before_assigning :
    (assign_copy debug_build
        { self := sample_vector, other := short_vector, world := calm_world }).2.world.trace =
      [Event.value_init, Event.destroy 2, Event.assign 0 1, Event.assign 1 2] ∧
    ¬ assignments_before_destructions (assign_copy debug_build
        { self := sample_vector, other := short_vector, world := calm_world }).2.world.trace := by
  have ht : (assign_copy debug_build
        { self := sample_vector, other := short_vector, world := calm_world }).2.world.trace =
      [Event.value_init, Event.destroy 2, Event.assign 0 1, Event.assign 1 2] := by decide
  refine ⟨ht, ?_⟩
  intro h
  rw [ht] at h
  have := h 1 2 2 0 1 rfl rfl
  omega

/-- C19, amended: in copy assignment where the storage needs no reconciliation and the target
is longer than the source, when nothing throws, the call returns normally and the calls are
issued in this order: first the temporary `value_type()` for the defaulted argument of
`resize` is made, then the `oldSize - newSize` excess trailing elements are destroyed from
the back (for an element type that requires destruction), and only then the `newSize`
elements of the overlapping range are assigned, from the front. -/
theorem copy_assignment_destroys_excess_then_assigns [Inhabited T] (cfg : Config) (s : State2 T)
    (hwf : s.self.wf) (hwfo : s.other.wf) (hq : s.world.quiet)
    (hprop : (cfg.propagate_on_container_copy_assignment &&
      s.self.allocator_ != s.other.allocator_) = false)
    (hcap : s.self.capacity_ = s.other.capacity_) (hlonger : s.other.size_ < s.self.size_) :
    (assign_copy cfg s).1 = Outcome.ok () ∧
    (assign_copy cfg s).2.world.trace = s.world.trace ++ [Event.value_init] ++
      (if cfg._req_destruction = true then destroy_events s.self.size_ s.other.size_ else []) ++
      assign_events 0 s.other.elements :=
  assign_copy_shrink_trace cfg s hwf hwfo hq hprop hcap hlonger

/-- Witness for the amended C19: the container holding 1, 2 assigned to the container of the
same capacity holding 10, 20, 30. -/
theorem copy_assignment_destroys_excess_then_assigns_witness :
    sample_vector.wf ∧ short_vector.wf ∧ calm_world.quiet ∧
    (debug_build.propagate_on_container_copy_assignment &&
      sample_vector.allocator_ != short_vector.allocator_) = false ∧
    sample_vector.capacity_ = short_vector.capacity_ ∧ short_vector.size_ < sample_vector.size_ ∧
    (assign_copy debug_build
        { self := sample_vector, other := short_vector, world := calm_world }).1 = Outcome.ok () ∧
    (assign_copy debug_build
        { self := sample_vector, other := short_vector, world := calm_world }).2.world.trace =
      calm_world.trace ++ [Event.value_init] ++
      (if debug_build._req_destruction = true
        then destroy_events sample_vector.size_ short_vector.size_ else []) ++
      assign_events 0 short_vector.elements :=
  ⟨by decide, by decide, fun _ => rfl, by decide, by decide, by decide,
    copy_assignment_destroys_excess_then_assigns debug_build
      { self := sample_vector, other := short_vector, world := calm_world }
      (by decide) (by decide) (fun _ => rfl) (by decide) (by decide) (by decide)⟩

end fixed_capacity_vector
end fcv

namespace fcv
namespace fixed_capacity_vector
variable {T : Type}

/-! ## Constructors that exit by an exception or by a failed assertion -/

theorem _alloc_eq (cfg : Config) (c : Nat) (s : State T) (hb : s.self.buffer_ = none)
    (hc : c ≠ 0) (hok : s.world.throws s.world.clock = false) :
    _alloc cfg c s = (Outcome.ok (),
      { self := { s.self with buffer_ := some (List.replicate c none), capacity_ := c },
        world := s.world.completed (Event.allocate s.self.allocator_ c) }) := by
  simp [_alloc, M.bind_run, M.bind, get_state, cassert, hb, hc, M.pure_run, allocate, fallible, hok]

theorem _copy_construct_first_throw (cfg : Config) (n : Nat) (src : List (Option T)) (x : T)
    (tl : List (Option T)) (s : State T) (b : List (Option T)) (hb : s.self.buffer_ = some b)
    (hn : n ≠ 0) (hcap : (s.self.size_ + n) % size_type_mod ≤ s.self.capacity_)
    (hlt : s.self.size_ < s.self.capacity_)
    (hsrc : src = some x :: tl) (hthrow : s.world.throws s.world.clock = true) :
    _copy_construct cfg n src s =
      (Outcome.fail Failure.element_exception, { s with world := s.world.thrown }) := by
  obtain ⟨m, rfl⟩ : ∃ m, n = m + 1 := ⟨n - 1, by omega⟩
  have ha1 : cassert cfg (s.self.buffer_.isNone == decide (m + 1 = 0)) s = (Outcome.ok (), s) :=
    cassert_ok cfg _ _ (Or.inr (by simp [hb]))
  have ha2 : cassert cfg (decide ((s.self.size_ + (m + 1)) % size_type_mod ≤ s.self.capacity_)) s =
      (Outcome.ok (), s) := cassert_ok cfg _ _ (Or.inr (by simpa using hcap))
  have ha3 : cassert cfg s.self.buffer_.isSome s = (Outcome.ok (), s) :=
    cassert_ok cfg _ _ (Or.inr (by simp [hb]))
  have ha4 : cassert cfg (decide (s.self.size_ < s.self.capacity_)) s = (Outcome.ok (), s) :=
    cassert_ok cfg _ _ (Or.inr (by simpa using hlt))
  have hf : fallible Failure.element_exception (Event.construct s.self.size_ x) s =
      (Outcome.fail Failure.element_exception, { s with world := s.world.thrown }) := by
    simp [fallible, hthrow]
  simp only [_copy_construct, M.bind_run, M.bind, get_state, ha1, size, capacity, ha2,
    _copy_construct_loop, hsrc, deref, _emplace, ha3, ha4, construct, hf]

/-- When the strategy's `allocate` succeeds and the first element copy throws, the copy
constructor exits by the exception after one call of `allocate` and no call of `deallocate`;
the destructor is not run for the object. -/
theorem ctor_copy_throw_keeps_buffer (cfg : Config) (other : fixed_capacity_vector T) (w : World T)
    (hwf : other.wf) (hs : 0 < other.size_) (hok : w.throws w.clock = false)
    (hthrow : w.throws (w.clock + 1) = true) :
    (lifetime_ctor_copy cfg other w).1 = Outcome.fail Failure.element_exception ∧
    (lifetime_ctor_copy cfg other w).2.world.trace =
      w.trace ++ [Event.allocate (cfg.select_on_container_copy_construction other.allocator_)
        other.capacity_] := by
  obtain ⟨x, hx⟩ := wf_live hwf hs
  have hle := hwf.1
  have hc : other.capacity_ ≠ 0 := by omega
  obtain ⟨tl, htl⟩ : ∃ tl, slots other.buffer_ = some x :: tl := by
    cases hl : slots other.buffer_ with
    | nil => rw [hl] at hx; simp at hx
    | cons a tl =>
      rw [hl] at hx
      simp at hx
      exact ⟨tl, by rw [hx]⟩
  have h1 := _alloc_eq cfg other.capacity_
    ({ self := { capacity_ := 0, buffer_ := none, size_ := 0,
                 allocator_ := cfg.select_on_container_copy_construction other.allocator_ },
       world := w } : State T) rfl hc hok
  have h2 := _copy_construct_first_throw cfg other.size_ (slots other.buffer_) x tl
    ({ self := { capacity_ := other.capacity_, buffer_ := some (List.replicate other.capacity_ none),
                 size_ := 0,
                 allocator_ := cfg.select_on_container_copy_construction other.allocator_ },
       world := w.completed (Event.allocate
         (cfg.select_on_container_copy_construction other.allocator_) other.capacity_) } : State T)
    _ rfl (by omega)
    (by show (0 + other.size_) % size_type_mod ≤ other.capacity_
        rw [Nat.zero_add]; exact le_trans (Nat.mod_le _ _) hle)
    (by show 0 < other.capacity_; omega) htl (by simpa [World.completed] using hthrow)
  have hrun : ctor_copy cfg other w = (Outcome.fail Failure.element_exception,
      { self := { capacity_ := other.capacity_,
                  buffer_ := some (List.replicate other.capacity_ none), size_ := 0,
                  allocator_ := cfg.select_on_container_copy_construction other.allocator_ },
        other := other,
        world := (w.completed (Event.allocate
          (cfg.select_on_container_copy_construction other.allocator_) other.capacity_)).thrown }) := by
    simp only [ctor_copy, M.bind_run, M.bind, capacity, size]
    rw [on_self_run _ _ _ _ h1]
    simp only
    rw [on_self_run _ _ _ _ h2]
  have hlife : lifetime_ctor_copy cfg other w = ctor_copy cfg other w := by
    simp only [lifetime_ctor_copy, hrun]
  rw [hlife, hrun]
  exact ⟨rfl, rfl⟩

/-- C18: when the second element copy throws while the container holding 1, 2 is copy
constructed, or while a container is constructed from the list 1, 2, the constructor exits by
the exception and no destructor runs: the buffer obtained from `allocate` is never passed to
`deallocate` and the element already constructed is never destroyed. The same lifetimes
without a throw release everything once. -/
theorem constructors_leak_when_element_copy_throws :
    full_vector.wf ∧
    (lifetime_ctor_copy debug_build full_vector (world_throwing_at 2)).1 =
      Outcome.fail Failure.element_exception ∧
    (lifetime_ctor_copy debug_build full_vector (world_throwing_at 2)).2.world.trace =
      [Event.allocate 0 2, Event.construct 0 1] ∧
    allocations (lifetime_ctor_copy debug_build full_vector (world_throwing_at 2)).2.world.trace = 1 ∧
    deallocations (lifetime_ctor_copy debug_build full_vector (world_throwing_at 2)).2.world.trace = 0 ∧
    constructions (lifetime_ctor_copy debug_build full_vector (world_throwing_at 2)).2.world.trace = 1 ∧
    destructions (lifetime_ctor_copy debug_build full_vector (world_throwing_at 2)).2.world.trace = 0 ∧
    (lifetime_ctor_il debug_build 2 [1, 2] 0 (world_throwing_at 2)).1 =
      Outcome.fail Failure.element_exception ∧
    (lifetime_ctor_il debug_build 2 [1, 2] 0 (world_throwing_at 2)).2.world.trace =
      [Event.allocate 0 2, Event.construct 0 1] ∧
    (lifetime_ctor_copy debug_build full_vector calm_world).2.world.trace =
      [Event.allocate 0 2, Event.construct 0 1, Event.construct 1 2, Event.destroy 1,
        Event.destroy 0, Event.deallocate 0 2] := by
  have h1 : lifetime_ctor_copy debug_build full_vector (world_throwing_at 2) =
      (Outcome.fail Failure.element_exception,
       { self := { buffer_ := some [some 1, none], size_ := 1, capacity_ := 2, allocator_ := 0 },
         other := full_vector,
         world := { throws := (world_throwing_at 2).throws, clock := 3,
                    trace := [Event.allocate 0 2, Event.construct 0 1] } }) := rfl
  have h2 : lifetime_ctor_il debug_build 2 [1, 2] 0 (world_throwing_at 2) =
      (Outcome.fail Failure.element_exception,
       { self := { buffer_ := some [some 1, none], size_ := 1, capacity_ := 2, allocator_ := 0 },
         world := { throws := (world_throwing_at 2).throws, clock := 3,
                    trace := [Event.allocate 0 2, Event.construct 0 1] } }) := rfl
  have h3 : ctor_copy debug_build full_vector calm_world =
      (Outcome.ok (),
       { self := { buffer_ := some [some 1, some 2], size_ := 2, capacity_ := 2, allocator_ := 0 },
         other := full_vector,
         world := { throws := calm_world.throws, clock := 3,
                    trace := [Event.allocate 0 2, Event.construct 0 1, Event.construct 1 2] } }) :=
    rfl
  have h4 : lifetime_ctor_copy debug_build full_vector calm_world =
      on_self (dtor debug_build)
        { self := { buffer_ := some [some 1, some 2], size_ := 2, capacity_ := 2, allocator_ := 0 },
          other := full_vector,
          world := { throws := calm_world.throws, clock := 3,
                     trace := [Event.allocate 0 2, Event.construct 0 1, Event.construct 1 2] } } := by
    simp only [lifetime_ctor_copy, h3]
  rw [h1, h2, h4]
  exact ⟨by decide, rfl, rfl, by decide, by decide, by decide, by decide, rfl, rfl, by decide⟩

/-- C20: in the constructor from an initializer list called with capacity 3 and the empty
list, and in the copy constructor called with the empty container of capacity 3, the helper
`_copy_construct(0, src)` is called on the container `_alloc(3)` has just given a buffer, so
the asserted condition `!buffer_ == !n` is false there; with `assert` active both
constructors end in that failed assertion. -/
theorem copy_construct_assertion_fails_in_constructors :
    ctor_il debug_build 3 [] 0 calm_world =
      _copy_construct debug_build 0 [] (ctor debug_build 3 0 calm_world).2 ∧
    _copy_construct_assertions 0 (ctor debug_build 3 0 calm_world).2.self = false ∧
    (ctor_il debug_build 3 [] 0 calm_world).1 = Outcome.fail Failure.assertion ∧
    empty_vector.wf ∧
    (ctor_copy debug_build empty_vector calm_world).1 = Outcome.fail Failure.assertion :=
  ⟨rfl, by decide, by decide, by decide, by decide⟩

end fixed_capacity_vector
end fcv

namespace fcv
namespace fixed_capacity_vector
variable {T : Type}

/-! ## The invariant of the sizes and the buffer pointer -/

theorem inv_of_shape {a b : fixed_capacity_vector T} (h : a.inv) (hs : b.size_ = a.size_)
    (hc : b.capacity_ = a.capacity_) (hb : b.buffer_ = none ↔ a.buffer_ = none)
    (hl : (slots b.buffer_).length = (slots a.buffer_).length) : b.inv := by
  obtain ⟨h1, h2, h3, h4⟩ := h
  exact ⟨by omega, by omega, by rw [hb, hc]; exact h3, by omega⟩

theorem keeps_inv_bind {α β : Type} {m : M (State T) α} {f : α → M (State T) β}
    (hm : keeps_inv m) (hf : ∀ a, keeps_inv (f a)) : keeps_inv (m >>= f) := by
  intro s hs
  have h1 := hm s hs
  show (M.bind m f s).2.self.inv
  unfold M.bind
  rcases hr : m s with ⟨r, s1⟩
  rw [hr] at h1
  cases r with
  | ok a => exact hf a s1 h1
  | fail e => exact h1

theorem keeps_inv_pure {α : Type} (a : α) : keeps_inv (pure a : M (State T) α) :=
  fun _ hs => hs

theorem keeps_inv_raise {α : Type} (e : Failure) : keeps_inv (raise e : M (State T) α) :=
  fun _ hs => hs

theorem keeps_inv_get_state : keeps_inv (get_state : M (State T) (State T)) :=
  fun _ hs => hs

theorem keeps_inv_cassert (cfg : Config) (c : Bool) : keeps_inv (cassert cfg c : M (State T) Unit) := by
  intro s hs
  unfold cassert
  split <;> exact hs

theorem keeps_inv_fallible (e : Failure) (ev : Event T) : keeps_inv (fallible e ev) := by
  intro s hs
  unfold fallible
  split <;> exact hs

theorem keeps_inv_deref (src : List (Option T)) : keeps_inv (deref src : M (State T) T) := by
  intro s hs
  unfold deref
  split <;> exact hs

theorem keeps_inv_ite {α : Type} {c : Prop} [Decidable c] {m1 m2 : M (State T) α}
    (h1 : keeps_inv m1) (h2 : keeps_inv m2) : keeps_inv (if c then m1 else m2) := by
  split
  · exact h1
  · exact h2

theorem keeps_inv_while (cond : State T → Bool) {body : M (State T) Unit} (hb : keeps_inv body)
    (fuel : Nat) : keeps_inv (while_loop cond body fuel) := by
  induction fuel with
  | zero =>
    intro s hs
    unfold while_loop
    split <;> exact hs
  | succ fuel ih =>
    intro s hs
    unfold while_loop
    split
    · exact keeps_inv_bind hb (fun _ => ih) s hs
    · exact hs

theorem keeps_inv_set_slot (f : State T → Option (List (Option T)))
    (hf : ∀ s, (f s = none ↔ s.self.buffer_ = none) ∧
      (slots (f s)).length = (slots s.self.buffer_).length) :
    keeps_inv (fun s => (Outcome.ok (), { s with self := { s.self with buffer_ := f s } }) :
      M (State T) Unit) := by
  intro s hs
  exact inv_of_shape hs rfl rfl (hf s).1 (hf s).2

theorem inv_bind {α β : Type} {m : M (State T) α} {f : α → M (State T) β} (s : State T)
    (h1 : (m s).2.self.inv)
    (h2 : ∀ a s1, m s = (Outcome.ok a, s1) → s1.self.inv → (f a s1).2.self.inv) :
    ((m >>= f) s).2.self.inv := by
  show (M.bind m f s).2.self.inv
  unfold M.bind
  rcases hr : m s with ⟨r, s1⟩
  rw [hr] at h1
  cases r with
  | ok a => exact h2 a s1 hr h1
  | fail e => exact h1

theorem get_state_bind {σ β : Type} (f : σ → M σ β) (s : σ) : (get_state >>= f) s = f s s := rfl

theorem inv_buffer {v : fixed_capacity_vector T} (h : v.inv) (b : List (Option T))
    (hb : v.buffer_ = some b) : b.length = v.capacity_ ∧ v.capacity_ ≠ 0 := by
  obtain ⟨_, _, h3, h4⟩ := h
  refine ⟨by simpa [slots, hb] using h4, ?_⟩
  intro hc
  have := h3.mpr hc
  rw [hb] at this
  exact absurd this (by simp)

theorem inv_set {v : fixed_capacity_vector T} (h : v.inv) (b : List (Option T))
    (hb : v.buffer_ = some b) (dst : Nat) (x : Option T) :
    ({ v with buffer_ := some (b.set dst x) } : fixed_capacity_vector T).inv := by
  refine inv_of_shape h ?_ ?_ ?_ ?_
  · rfl
  · rfl
  · simp [hb]
  · simp [slots, hb]

theorem keeps_inv_construct (dst : Nat) (v : T) : keeps_inv (construct dst v) := by
  intro s hs
  unfold construct
  refine inv_bind s (keeps_inv_fallible _ _ s hs) (fun _ s1 _ hs1 => ?_)
  rw [get_state_bind]
  cases hb : s1.self.buffer_ with
  | none => exact hs1
  | some b =>
    simp only
    split
    · exact inv_set hs1 b hb dst _
    · exact hs1

theorem keeps_inv_destroy (dst : Nat) : keeps_inv (destroy dst : M (State T) Unit) := by
  intro s hs
  unfold destroy
  cases hb : s.self.buffer_ with
  | none => exact hs
  | some b =>
    simp only
    split
    · exact inv_set hs b hb dst _
    · exact hs

theorem keeps_inv__emplace (cfg : Config) (dst : Nat) (v : T) : keeps_inv (_emplace cfg dst v) := by
  unfold _emplace
  exact keeps_inv_bind keeps_inv_get_state (fun _ =>
    keeps_inv_bind (keeps_inv_cassert _ _) (fun _ =>
      keeps_inv_bind (keeps_inv_cassert _ _) (fun _ => keeps_inv_construct _ _)))

theorem keeps_inv__destroy (cfg : Config) (dst : Nat) :
    keeps_inv (_destroy cfg dst : M (State T) Unit) := by
  unfold _destroy
  refine keeps_inv_bind keeps_inv_get_state (fun _ =>
    keeps_inv_bind (keeps_inv_cassert _ _) (fun _ => ?_))
  split
  · exact keeps_inv_destroy _
  · exact keeps_inv_pure _

theorem keeps_inv__check_iterator (cfg : Config) (pos : Nat) (e : Bool) :
    keeps_inv (_check_iterator cfg pos e : M (State T) Unit) := by
  unfold _check_iterator
  exact keeps_inv_bind keeps_inv_get_state (fun _ => keeps_inv_cassert _ _)

theorem keeps_inv_assign_element (dst : Nat) (src : List (Option T)) :
    keeps_inv (assign_element dst src) := by
  intro s hs
  unfold assign_element
  refine inv_bind s (keeps_inv_deref _ s hs) (fun x s1 _ hs1 => ?_)
  refine inv_bind s1 (keeps_inv_fallible _ _ s1 hs1) (fun _ s2 _ hs2 => ?_)
  rw [get_state_bind]
  have hset : ({ s2.self with buffer_ := s2.self.buffer_.map (fun b => b.set dst (some x)) } :
      fixed_capacity_vector T).inv := by
    cases hb : s2.self.buffer_ with
    | none =>
      refine inv_of_shape hs2 ?_ ?_ ?_ ?_
      · rfl
      · rfl
      · simp [hb]
      · simp [hb, slots]
    | some b => simpa [hb] using inv_set hs2 b hb dst (some x)
  cases hm : (slots s2.self.buffer_)[dst]? with
  | none => exact hs2
  | some o =>
    cases o with
    | none => exact hs2
    | some y => exact hset

theorem keeps_inv_rotate (first middle last : Nat) :
    keeps_inv (rotate first middle last : M (State T) Unit) := by
  intro s hs
  unfold rotate
  simp only
  split
  · rename_i h
    refine inv_of_shape hs ?_ ?_ ?_ ?_
    · rfl
    · rfl
    · simp
    · cases hb : s.self.buffer_ with
      | none => simp [slots]
      | some b =>
        have hl : last ≤ b.length := by simpa [slots, hb] using h.2.2.1
        simp [slots, rotated_length]
        omega
  · exact hs

theorem keeps_inv_rotate_reverse (first middle last : reverse_iterator) :
    keeps_inv (rotate_reverse first middle last : M (State T) Unit) := by
  intro s hs
  unfold rotate_reverse
  simp only
  split
  · rename_i h
    refine inv_of_shape hs ?_ ?_ ?_ ?_
    · rfl
    · rfl
    · simp
    · cases hb : s.self.buffer_ with
      | none => simp [slots]
      | some b =>
        have hl : first.current ≤ b.length := by simpa [slots, hb] using h.2.2.2.1
        simp [slots, rotated_length]
        omega
  · exact hs

theorem cassert_state {σ : Type} (cfg : Config) (c : Bool) (s : σ) : (cassert cfg c s).2 = s := by
  unfold cassert
  split <;> rfl

theorem deref_state {σ : Type} (src : List (Option T)) (s : σ) : (deref src s : Outcome T × σ).2 = s := by
  unfold deref
  split <;> rfl

theorem snd_of_eq {α σ : Type} {p : Outcome α × σ} {r : Outcome α} {s1 : σ} (h : p = (r, s1)) :
    s1 = p.2 := by
  rw [h]

theorem bind_ok_inv {σ α β : Type} {m : M σ α} {f : α → M σ β} {s s2 : σ} {b : β}
    (h : (m >>= f) s = (Outcome.ok b, s2)) :
    ∃ a s1, m s = (Outcome.ok a, s1) ∧ f a s1 = (Outcome.ok b, s2) := by
  change M.bind m f s = _ at h
  unfold M.bind at h
  rcases hr : m s with ⟨r, s1⟩
  rw [hr] at h
  cases r with
  | ok a => exact ⟨a, s1, rfl, h⟩
  | fail e => simp at h

theorem fallible_ok_self (e : Failure) (ev : Event T) (s s1 : State T) (a : Unit)
    (h : fallible e ev s = (Outcome.ok a, s1)) : s1.self = s.self := by
  unfold fallible at h
  split at h
  · simp at h
  · injection h with _ h
    rw [← h]

theorem construct_ok_inv (dst : Nat) (v : T) (s s1 : State T) (a : Unit)
    (h : construct dst v s = (Outcome.ok a, s1)) :
    s1.self.size_ = s.self.size_ ∧ s1.self.capacity_ = s.self.capacity_ ∧
      dst < (slots s.self.buffer_).length := by
  unfold construct at h
  obtain ⟨_, t, ht, h⟩ := bind_ok_inv h
  have hself := fallible_ok_self _ _ _ _ _ ht
  rw [get_state_bind] at h
  cases hb : t.self.buffer_ with
  | none =>
    rw [hb] at h
    simp [raise] at h
  | some b =>
    rw [hb] at h
    simp only at h
    split at h
    · rename_i hlt
      injection h with _ h
      rw [← h, ← hself]
      exact ⟨rfl, rfl, by simpa [slots, hb] using hlt⟩
    · simp [raise] at h

theorem _emplace_ok_inv (cfg : Config) (dst : Nat) (v : T) (s s1 : State T) (a : Unit)
    (h : _emplace cfg dst v s = (Outcome.ok a, s1)) :
    s1.self.size_ = s.self.size_ ∧ s1.self.capacity_ = s.self.capacity_ ∧
      dst < (slots s.self.buffer_).length := by
  unfold _emplace at h
  rw [get_state_bind] at h
  obtain ⟨_, t1, ht1, h⟩ := bind_ok_inv h
  obtain ⟨_, t2, ht2, h⟩ := bind_ok_inv h
  have e1 : t1 = s := by rw [snd_of_eq ht1, cassert_state]
  have e2 : t2 = t1 := by rw [snd_of_eq ht2, cassert_state]
  rw [e2, e1] at h
  exact construct_ok_inv dst v s s1 a h

theorem incr_size_after_emplace (cfg : Config) (v : T) (s s1 : State T) (a : Unit)
    (hs : s.self.inv) (h : _emplace cfg s.self.size_ v s = (Outcome.ok a, s1)) :
    (incr_size s1).2.self.inv ∧ (incr_size s1).2.self.size_ = s.self.size_ + 1 := by
  have h1 := keeps_inv__emplace cfg s.self.size_ v s hs
  rw [h] at h1
  obtain ⟨e1, e2, e3⟩ := _emplace_ok_inv cfg _ v s s1 a h
  obtain ⟨i1, i2, i3, i4⟩ := hs
  obtain ⟨j1, j2, j3, j4⟩ := h1
  have h2l : s.self.capacity_ < 4294967296 := i2
  have hmod : (s1.self.size_ + 1) % size_type_mod = s.self.size_ + 1 := by
    rw [e1]
    exact Nat.mod_eq_of_lt (by simp only [size_type_mod]; omega)
  constructor
  · exact ⟨by show (s1.self.size_ + 1) % size_type_mod ≤ s1.self.capacity_; rw [hmod]; omega,
      j2, j3, j4⟩
  · show (s1.self.size_ + 1) % size_type_mod = _
    exact hmod

theorem keeps_inv_emplace_incr (cfg : Config) (v : T) (s : State T) (hs : s.self.inv) :
    ((_emplace cfg s.self.size_ v >>= fun _ => incr_size) s).2.self.inv :=
  inv_bind s (keeps_inv__emplace cfg _ v s hs)
    (fun a s1 h _ => (incr_size_after_emplace cfg v s s1 a hs h).1)

theorem keeps_inv_push_back (cfg : Config) (v : T) : keeps_inv (push_back cfg v) := by
  intro s hs
  unfold push_back
  rw [get_state_bind]
  by_cases hfull : s.self.size_ = s.self.capacity_
  · simp only [hfull, if_true]
    exact inv_bind s hs (fun _ s1 h _ => by simp [raise] at h)
  · simp only [hfull, if_false]
    refine inv_bind s hs (fun _ s1 h _ => ?_)
    have : s1 = s := by rw [snd_of_eq h]; rfl
    rw [this]
    exact keeps_inv_emplace_incr cfg v s hs

theorem keeps_inv_grow_body (cfg : Config) (v : T) :
    keeps_inv (do
      let s ← get_state
      _emplace cfg s.self.size_ v
      incr_size : M (State T) Unit) := by
  intro s hs
  rw [get_state_bind]
  exact keeps_inv_emplace_incr cfg v s hs

theorem keeps_inv_pop_back (cfg : Config) : keeps_inv (pop_back cfg : M (State T) Unit) := by
  intro s hs
  unfold pop_back
  rw [get_state_bind]
  refine inv_bind s (keeps_inv_cassert _ _ s hs) (fun _ s1 h _ => ?_)
  have : s1 = s := by rw [snd_of_eq h, cassert_state]
  rw [this]
  by_cases he : s.self.size_ = 0
  · have hc : ¬ ((!s.self.empty) = true) := by simp [empty, size, he]
    rw [if_neg hc]
    exact hs
  · have hc : (!s.self.empty) = true := by simp [empty, size, he]
    rw [if_pos hc]
    have hd : (decr_size s).2.self.inv := by
      obtain ⟨i1, i2, i3, i4⟩ := hs
      simp only [decr_size, he, if_false]
      exact ⟨by simp only; omega, i2, i3, i4⟩
    refine inv_bind s hd (fun _ s2 h2 hs2 => ?_)
    rw [get_state_bind]
    exact keeps_inv__destroy cfg _ s2 hs2

theorem keeps_inv__copy_construct_loop (cfg : Config) (n : Nat) (src : List (Option T))
    (s : State T) (hs : s.self.inv) :
    (_copy_construct_loop cfg n s.self.size_ src s).2.self.inv := by
  induction n generalizing src s with
  | zero => exact hs
  | succ n ih =>
    unfold _copy_construct_loop
    refine inv_bind s (keeps_inv_deref _ s hs) (fun x s1 h _ => ?_)
    have e1 : s1 = s := by rw [snd_of_eq h, deref_state]
    rw [e1]
    refine inv_bind s (keeps_inv__emplace cfg _ x s hs) (fun a s2 h2 _ => ?_)
    obtain ⟨hi, hsz⟩ := incr_size_after_emplace cfg x s s2 a hs h2
    refine inv_bind s2 hi (fun _ s3 h3 hs3 => ?_)
    have e3 : s3 = (incr_size s2).2 := snd_of_eq h3
    have : s.self.size_ + 1 = s3.self.size_ := by rw [e3, hsz]
    rw [this]
    exact ih src.tail s3 hs3

theorem keeps_inv__copy_construct (cfg : Config) (n : Nat) (src : List (Option T)) :
    keeps_inv (_copy_construct cfg n src) := by
  intro s hs
  unfold _copy_construct
  rw [get_state_bind]
  refine inv_bind s (keeps_inv_cassert _ _ s hs) (fun _ s1 h _ => ?_)
  have e1 : s1 = s := by rw [snd_of_eq h, cassert_state]
  rw [e1]
  refine inv_bind s (keeps_inv_cassert _ _ s hs) (fun _ s2 h2 _ => ?_)
  have e2 : s2 = s := by rw [snd_of_eq h2, cassert_state]
  rw [e2]
  exact keeps_inv__copy_construct_loop cfg n src s hs

theorem keeps_inv__copy_assign (n dst : Nat) (src : List (Option T)) :
    keeps_inv (_copy_assign n dst src) := by
  induction n generalizing dst src with
  | zero => exact keeps_inv_pure _
  | succ n ih =>
    unfold _copy_assign
    exact keeps_inv_bind (keeps_inv_assign_element _ _) (fun _ => ih _ _)

end fixed_capacity_vector
end fcv

namespace fcv
namespace fixed_capacity_vector
variable {T : Type}

theorem keeps_inv_guard {β : Type} {c : Prop} [Decidable c] (e : Failure)
    {k : PUnit → M (State T) β} (hk : ∀ y, keeps_inv (k y)) :
    keeps_inv (if c then raise e >>= k else pure PUnit.unit >>= k) := by
  split
  · exact keeps_inv_bind (keeps_inv_raise _) hk
  · exact keeps_inv_bind (keeps_inv_pure _) hk

theorem keeps_inv_insert (cfg : Config) (pos : Nat) (v : T) : keeps_inv (insert cfg pos v) := by
  unfold insert
  refine keeps_inv_bind keeps_inv_get_state (fun _ => ?_)
  dsimp only
  refine keeps_inv_guard _ (fun _ => ?_)
  refine keeps_inv_bind (keeps_inv__check_iterator _ _ _) (fun _ => ?_)
  refine keeps_inv_bind (keeps_inv_push_back _ _) (fun _ => ?_)
  refine keeps_inv_bind keeps_inv_get_state (fun _ => ?_)
  exact keeps_inv_bind (keeps_inv_rotate_reverse _ _ _) (fun _ => keeps_inv_pure _)

theorem keeps_inv_erase (cfg : Config) (pos : Nat) : keeps_inv (erase cfg pos : M (State T) Nat) := by
  unfold erase
  refine keeps_inv_bind (keeps_inv__check_iterator _ _ _) (fun _ => ?_)
  refine keeps_inv_bind keeps_inv_get_state (fun _ => ?_)
  refine keeps_inv_bind (keeps_inv_rotate _ _ _) (fun _ => ?_)
  exact keeps_inv_bind (keeps_inv_pop_back _) (fun _ => keeps_inv_pure _)

theorem keeps_inv_resize (cfg : Config) (n : Nat) (v : T) : keeps_inv (resize cfg n v) := by
  unfold resize
  refine keeps_inv_bind keeps_inv_get_state (fun _ => ?_)
  dsimp only
  refine keeps_inv_guard _ (fun _ => ?_)
  refine keeps_inv_bind (keeps_inv_while _ (keeps_inv_pop_back _) _) (fun _ => ?_)
  refine keeps_inv_bind keeps_inv_get_state (fun _ => ?_)
  exact keeps_inv_while _ (keeps_inv_grow_body cfg v) _

theorem keeps_inv_resize_default [Inhabited T] (cfg : Config) (n : Nat) :
    keeps_inv (resize_default cfg n : M (State T) Unit) := by
  unfold resize_default value_type_init
  refine keeps_inv_bind ?_ (fun _ => keeps_inv_resize _ _ _)
  exact keeps_inv_bind (keeps_inv_fallible _ _) (fun _ => keeps_inv_pure _)

theorem keeps_inv_clear (cfg : Config) : keeps_inv (clear cfg : M (State T) Unit) := by
  unfold clear
  exact keeps_inv_bind keeps_inv_get_state (fun _ => keeps_inv_while _ (keeps_inv_pop_back _) _)

theorem keeps_inv_assign_il [Inhabited T] (cfg : Config) (il : List T) :
    keeps_inv (assign_il cfg il) := by
  unfold assign_il
  refine keeps_inv_bind keeps_inv_get_state (fun _ => ?_)
  dsimp only
  refine keeps_inv_guard _ (fun _ => ?_)
  refine keeps_inv_ite ?_ ?_
  · exact keeps_inv_bind (keeps_inv_resize_default _ _) (fun _ => keeps_inv__copy_assign _ _ _)
  · refine keeps_inv_bind (keeps_inv__copy_assign _ _ _) (fun _ => ?_)
    exact keeps_inv_bind keeps_inv_get_state (fun _ => keeps_inv__copy_construct _ _ _)

theorem keeps_inv_call [Inhabited T] (cfg : Config) (c : Call T) : keeps_inv (c.run cfg) := by
  cases c with
  | push_back v => exact keeps_inv_push_back cfg v
  | pop_back => exact keeps_inv_pop_back cfg
  | insert pos v =>
    exact keeps_inv_bind (keeps_inv_insert cfg pos v) (fun _ => keeps_inv_pure _)
  | erase pos =>
    exact keeps_inv_bind (keeps_inv_erase cfg pos) (fun _ => keeps_inv_pure _)
  | resize n v => exact keeps_inv_resize cfg n v
  | resize_default n => exact keeps_inv_resize_default cfg n
  | clear => exact keeps_inv_clear cfg
  | assign_il il => exact keeps_inv_assign_il cfg il

/-! ## Storage reconciliation keeps the invariant -/

theorem while_loop_ok_cond {σ : Type} (cond : σ → Bool) (body : M σ Unit) (fuel : Nat) (s s1 : σ)
    (a : Unit) (h : while_loop cond body fuel s = (Outcome.ok a, s1)) : cond s1 = false := by
  induction fuel generalizing s with
  | zero =>
    unfold while_loop at h
    split at h
    · simp at h
    · rename_i hc
      injection h with _ h
      rw [← h]
      simpa using hc
  | succ fuel ih =>
    unfold while_loop at h
    split at h
    · obtain ⟨_, t, _, ht⟩ := bind_ok_inv h
      exact ih t ht
    · rename_i hc
      injection h with _ h
      rw [← h]
      simpa using hc

theorem clear_ok_size (cfg : Config) (s s1 : State T) (a : Unit)
    (h : clear cfg s = (Outcome.ok a, s1)) : s1.self.size_ = 0 := by
  unfold clear at h
  rw [get_state_bind] at h
  have := while_loop_ok_cond _ _ _ _ _ _ h
  simpa [size] using this

theorem _free_inv (cfg : Config) (s : State T) (hs : s.self.inv) (h0 : s.self.size_ = 0) :
    (_free cfg s).2.self.inv ∧ (_free cfg s).2.self.size_ = 0 := by
  unfold _free
  rw [get_state_bind]
  by_cases hc : s.self.capacity_ = 0
  · have : ¬ s.self.capacity_ ≠ 0 := by simpa using hc
    rw [if_neg this]
    exact ⟨hs, h0⟩
  · rw [if_pos hc]
    have hfinal : ∀ t : State T, t.self.size_ = 0 →
        (({ t with self := { t.self with capacity_ := 0, buffer_ := none } } : State T).self.inv ∧
         ({ t with self := { t.self with capacity_ := 0, buffer_ := none } } : State T).self.size_ = 0) := by
      intro t ht
      exact ⟨⟨by show t.self.size_ ≤ 0; omega, by show (0 : Nat) < size_type_mod; decide,
        by simp, by simp [slots]⟩, ht⟩
    show ((M.bind _ _ s).2.self.inv ∧ (M.bind _ _ s).2.self.size_ = 0)
    unfold M.bind
    rcases hr : cassert cfg s.self.buffer_.isSome s with ⟨r, s1⟩
    have e1 : s1 = s := by rw [snd_of_eq hr, cassert_state]
    cases r with
    | fail e => simp only; rw [e1]; exact ⟨hs, h0⟩
    | ok a =>
      simp only
      rw [e1]
      exact hfinal _ h0

theorem _alloc_inv (cfg : Config) (c : Nat) (s : State T) (hs : s.self.inv)
    (h0 : s.self.size_ = 0) (hc : c < size_type_mod) :
    (_alloc cfg c s).2.self.inv ∧ (_alloc cfg c s).2.self.size_ = 0 := by
  unfold _alloc
  rw [get_state_bind]
  show ((M.bind _ _ s).2.self.inv ∧ (M.bind _ _ s).2.self.size_ = 0)
  unfold M.bind
  rcases hr : cassert cfg s.self.buffer_.isNone s with ⟨r, s1⟩
  have e1 : s1 = s := by rw [snd_of_eq hr, cassert_state]
  cases r with
  | fail e => simp only; rw [e1]; exact ⟨hs, h0⟩
  | ok a =>
    simp only
    rw [e1]
    by_cases hz : c = 0
    · have : ¬ c ≠ 0 := by simpa using hz
      simp only [this, if_false, M.pure_run, M.bind_run, M.bind]
      exact ⟨⟨by show s.self.size_ ≤ c; omega, hc, by simp [hz], by simp [slots, hz]⟩, h0⟩
    · simp only [hz, ne_eq, not_false_eq_true, if_true, allocate, M.bind_run, M.bind, get_state,
        fallible]
      by_cases ht : s.world.throws s.world.clock = true
      · simp only [ht, if_true]
        exact ⟨hs, h0⟩
      · simp only [ht, Bool.false_eq_true, if_false, M.pure_run]
        exact ⟨⟨by show s.self.size_ ≤ c; omega, hc, by simp [hz], by simp [slots]⟩, h0⟩

end fixed_capacity_vector
end fcv

namespace fcv
namespace fixed_capacity_vector
variable {T : Type}

/-! ## Operations on two containers keep the invariant -/

theorem bind_cases {σ α β : Type} {m : M σ α} {f : α → M σ β} (Q : σ → Prop) (s : σ)
    (hfail : ∀ e s1, m s = (Outcome.fail e, s1) → Q s1)
    (hok : ∀ a s1, m s = (Outcome.ok a, s1) → Q (f a s1).2) : Q ((m >>= f) s).2 := by
  show Q (M.bind m f s).2
  unfold M.bind
  rcases hr : m s with ⟨r, s1⟩
  cases r with
  | ok a => exact hok a s1 hr
  | fail e => exact hfail e s1 hr

theorem on_self_eq {α : Type} (m : M (State T) α) (s : State2 T) :
    on_self m s = ((m { self := s.self, world := s.world }).1,
      { self := (m { self := s.self, world := s.world }).2.self, other := s.other,
        world := (m { self := s.self, world := s.world }).2.world }) := rfl

theorem on_self_inv {α : Type} {m : M (State T) α} (hm : keeps_inv m) (s : State2 T)
    (hs : s.self.inv) : (on_self m s).2.self.inv ∧ (on_self m s).2.other = s.other := by
  rw [on_self_eq]
  exact ⟨hm _ hs, rfl⟩

theorem on_self_clear_ok (cfg : Config) (s s1 : State2 T) (a : Unit) (hs : s.self.inv)
    (h : on_self (clear cfg) s = (Outcome.ok a, s1)) :
    s1.self.inv ∧ s1.self.size_ = 0 ∧ s1.other = s.other := by
  have hi := on_self_inv (keeps_inv_clear cfg) s hs
  rw [h] at hi
  refine ⟨hi.1, ?_, hi.2⟩
  rw [on_self_eq] at h
  have h1 : (clear cfg { self := s.self, world := s.world }).1 = Outcome.ok a :=
    (congrArg Prod.fst h)
  have h2 : (clear cfg { self := s.self, world := s.world }).2.self = s1.self := by
    have := congrArg Prod.snd h
    simp only at this
    rw [← this]
  rw [← h2]
  exact clear_ok_size cfg _ _ a (Prod.ext h1 rfl)

theorem on_self__free_inv (cfg : Config) (s : State2 T) (hs : s.self.inv) (h0 : s.self.size_ = 0) :
    (on_self (_free cfg) s).2.self.inv ∧ (on_self (_free cfg) s).2.self.size_ = 0 ∧
      (on_self (_free cfg) s).2.other = s.other := by
  rw [on_self_eq]
  have := _free_inv cfg { self := s.self, world := s.world } hs h0
  exact ⟨this.1, this.2, rfl⟩

theorem on_self__alloc_inv (cfg : Config) (c : Nat) (s : State2 T) (hs : s.self.inv)
    (h0 : s.self.size_ = 0) (hc : c < size_type_mod) :
    (on_self (_alloc cfg c) s).2.self.inv ∧ (on_self (_alloc cfg c) s).2.other = s.other := by
  rw [on_self_eq]
  have := _alloc_inv cfg c { self := s.self, world := s.world } hs h0 hc
  exact ⟨this.1, rfl⟩

theorem _swap_state_inv (s : State2 T) (hs : s.self.inv) (ho : s.other.inv) :
    (_swap_state s).2.self.inv ∧ (_swap_state s).2.other.inv := by
  unfold _swap_state
  constructor
  · refine inv_of_shape ho ?_ ?_ ?_ ?_ <;> rfl
  · refine inv_of_shape hs ?_ ?_ ?_ ?_ <;> rfl

theorem swap_inv (cfg : Config) (s : State2 T) (hs : s.self.inv) (ho : s.other.inv) :
    (swap cfg s).2.self.inv ∧ (swap cfg s).2.other.inv := by
  unfold swap
  cases cfg.propagate_on_container_swap
  · simp only [Bool.false_eq_true, if_false]
    refine bind_cases (fun t => t.self.inv ∧ t.other.inv) s (fun e s1 h => ?_) (fun a s1 h => ?_)
    · simp [M.pure_run] at h
    · have : s1 = s := by rw [snd_of_eq h]; rfl
      rw [this]
      exact _swap_state_inv s hs ho
  · simp only [if_true]
    refine bind_cases (fun t => t.self.inv ∧ t.other.inv) s (fun e s1 h => ?_) (fun a s1 h => ?_)
    · simp at h
    · have e1 := snd_of_eq h
      simp only at e1
      rw [e1]
      apply _swap_state_inv
      · refine inv_of_shape hs ?_ ?_ ?_ ?_ <;> rfl
      · refine inv_of_shape ho ?_ ?_ ?_ ?_ <;> rfl

theorem assign_move_inv (cfg : Config) (s : State2 T) (hs : s.self.inv) (ho : s.other.inv) :
    (assign_move cfg s).2.self.inv ∧ (assign_move cfg s).2.other.inv := by
  unfold assign_move
  refine bind_cases (fun t => t.self.inv ∧ t.other.inv) s (fun e s1 h => ?_) (fun a s1 h => ?_)
  · have := on_self_inv (keeps_inv_clear cfg) s hs
    rw [h] at this
    exact ⟨this.1, by rw [this.2]; exact ho⟩
  obtain ⟨hs1, hz1, ho1⟩ := on_self_clear_ok cfg s s1 a hs h
  have hf := on_self__free_inv cfg s1 hs1 hz1
  refine bind_cases (fun t => t.self.inv ∧ t.other.inv) s1 (fun e s2 h2 => ?_) (fun a2 s2 h2 => ?_)
  · rw [h2] at hf
    exact ⟨hf.1, by rw [hf.2.2, ho1]; exact ho⟩
  rw [h2] at hf
  obtain ⟨hs2, hz2, ho2⟩ := hf
  simp only at hs2 hz2 ho2
  have ho2i : s2.other.inv := by rw [ho2, ho1]; exact ho
  rw [get_state_bind]
  dsimp only
  have hrest : ∀ t : State2 T, t.self.inv → t.other.inv →
      ((do
        let s ← get_state
        cassert cfg (s.self.size_ == 0 && s.self.capacity_ == 0 && s.self.buffer_.isNone)
        _swap_state : M (State2 T) Unit) t).2.self.inv ∧
      ((do
        let s ← get_state
        cassert cfg (s.self.size_ == 0 && s.self.capacity_ == 0 && s.self.buffer_.isNone)
        _swap_state : M (State2 T) Unit) t).2.other.inv := by
    intro t ht hto
    rw [get_state_bind]
    refine bind_cases (fun u => u.self.inv ∧ u.other.inv) t (fun e u hu => ?_) (fun _ u hu => ?_)
    · have : u = t := by rw [snd_of_eq hu, cassert_state]
      rw [this]; exact ⟨ht, hto⟩
    · have : u = t := by rw [snd_of_eq hu, cassert_state]
      rw [this]; exact _swap_state_inv t ht hto
  split
  · refine bind_cases (fun t => t.self.inv ∧ t.other.inv) s2 (fun e u hu => ?_) (fun _ u hu => ?_)
    · simp at hu
    · have e1 := snd_of_eq hu
      simp only at e1
      rw [e1]
      apply hrest
      · refine inv_of_shape hs2 ?_ ?_ ?_ ?_ <;> rfl
      · exact ho2i
  · refine bind_cases (fun t => t.self.inv ∧ t.other.inv) s2 (fun e u hu => ?_) (fun _ u hu => ?_)
    · simp [M.pure_run] at hu
    · have : u = s2 := by rw [snd_of_eq hu]; rfl
      rw [this]
      exact hrest s2 hs2 ho2i

end fixed_capacity_vector
end fcv

namespace fcv
namespace fixed_capacity_vector
variable {T : Type}

theorem bind_on_self {α β : Type} {m : M (State T) α} (hm : keeps_inv m)
    {f : α → M (State2 T) β} (s : State2 T) (hs : s.self.inv) (ho : s.other.inv)
    (hk : ∀ a s1, s1.self.inv → s1.other.inv →
      (f a s1).2.self.inv ∧ (f a s1).2.other.inv) :
    ((on_self m >>= f) s).2.self.inv ∧ ((on_self m >>= f) s).2.other.inv := by
  have hi := on_self_inv hm s hs
  refine bind_cases (fun t => t.self.inv ∧ t.other.inv) s (fun e s1 h => ?_) (fun a s1 h => ?_)
  · rw [h] at hi
    exact ⟨hi.1, by rw [hi.2]; exact ho⟩
  · rw [h] at hi
    exact hk a s1 hi.1 (by rw [hi.2]; exact ho)

theorem assign_copy_elements_inv [Inhabited T] (cfg : Config) (t : State2 T) (hs : t.self.inv)
    (ho : t.other.inv) :
    ((do
        let s ← get_state
        if s.self.size ≥ s.other.size then
          on_self (resize_default cfg s.other.size)
          on_self (_copy_assign s.other.size 0 (slots s.other.buffer_))
        else
          on_self (_copy_assign s.self.size 0 (slots s.other.buffer_))
          let s ← get_state
          on_self (_copy_construct cfg (s.other.size - s.self.size)
            ((slots s.other.buffer_).drop s.self.size)) : M (State2 T) Unit) t).2.self.inv ∧
    ((do
        let s ← get_state
        if s.self.size ≥ s.other.size then
          on_self (resize_default cfg s.other.size)
          on_self (_copy_assign s.other.size 0 (slots s.other.buffer_))
        else
          on_self (_copy_assign s.self.size 0 (slots s.other.buffer_))
          let s ← get_state
          on_self (_copy_construct cfg (s.other.size - s.self.size)
            ((slots s.other.buffer_).drop s.self.size)) : M (State2 T) Unit) t).2.other.inv := by
  rw [get_state_bind]
  have hlast : ∀ {α : Type} (m : M (State T) α), keeps_inv m → ∀ u : State2 T, u.self.inv →
      u.other.inv → (on_self m u).2.self.inv ∧ (on_self m u).2.other.inv := by
    intro α m hm u hu huo
    have := on_self_inv hm u hu
    exact ⟨this.1, by rw [this.2]; exact huo⟩
  split
  · exact bind_on_self (keeps_inv_resize_default cfg _) t hs ho
      (fun _ s1 h1 h2 => hlast _ (keeps_inv__copy_assign _ _ _) s1 h1 h2)
  · refine bind_on_self (keeps_inv__copy_assign _ _ _) t hs ho (fun _ s1 h1 h2 => ?_)
    rw [get_state_bind]
    exact hlast _ (keeps_inv__copy_construct cfg _ _) s1 h1 h2

theorem assign_copy_inv [Inhabited T] (cfg : Config) (s : State2 T) (hs : s.self.inv)
    (ho : s.other.inv) :
    (assign_copy cfg s).2.self.inv ∧ (assign_copy cfg s).2.other.inv := by
  have hrealloc : ∀ (g : State2 T → State2 T)
      (hg : ∀ t, (g t).self.inv = t.self.inv ∧ (g t).self.size_ = t.self.size_ ∧
        (g t).other = t.other)
      (k : M (State2 T) Unit)
      (hk : ∀ t : State2 T, t.self.inv → t.other.inv → (k t).2.self.inv ∧ (k t).2.other.inv),
      ((on_self (clear cfg) >>= fun _ => on_self (_free cfg) >>= fun _ =>
          (fun t => (Outcome.ok (), g t) : M (State2 T) Unit) >>= fun _ =>
          on_self (_alloc cfg s.other.capacity) >>= fun _ => k) s).2.self.inv ∧
      ((on_self (clear cfg) >>= fun _ => on_self (_free cfg) >>= fun _ =>
          (fun t => (Outcome.ok (), g t) : M (State2 T) Unit) >>= fun _ =>
          on_self (_alloc cfg s.other.capacity) >>= fun _ => k) s).2.other.inv := by
    intro g hg k hk
    refine bind_cases (fun t => t.self.inv ∧ t.other.inv) s (fun e s1 h => ?_) (fun a s1 h => ?_)
    · have := on_self_inv (keeps_inv_clear cfg) s hs
      rw [h] at this
      exact ⟨this.1, by rw [this.2]; exact ho⟩
    obtain ⟨hs1, hz1, ho1⟩ := on_self_clear_ok cfg s s1 a hs h
    have hf := on_self__free_inv cfg s1 hs1 hz1
    refine bind_cases (fun t => t.self.inv ∧ t.other.inv) s1 (fun e s2 h2 => ?_)
      (fun a2 s2 h2 => ?_)
    · rw [h2] at hf
      exact ⟨hf.1, by rw [hf.2.2, ho1]; exact ho⟩
    rw [h2] at hf
    obtain ⟨hs2, hz2, ho2⟩ := hf
    simp only at hs2 hz2 ho2
    refine bind_cases (fun t => t.self.inv ∧ t.other.inv) s2 (fun e s3 h3 => ?_)
      (fun a3 s3 h3 => ?_)
    · simp at h3
    have e3 : s3 = g s2 := by rw [snd_of_eq h3]
    obtain ⟨g1, g2, g3⟩ := hg s2
    have hs3 : s3.self.inv := by rw [e3, g1]; exact hs2
    have hz3 : s3.self.size_ = 0 := by rw [e3, g2]; exact hz2
    have ho3 : s3.other = s.other := by rw [e3, g3, ho2, ho1]
    have ha := on_self__alloc_inv cfg s.other.capacity s3 hs3 hz3 ho.2.1
    refine bind_cases (fun t => t.self.inv ∧ t.other.inv) s3 (fun e s4 h4 => ?_)
      (fun a4 s4 h4 => ?_)
    · rw [h4] at ha
      exact ⟨ha.1, by rw [ha.2, ho3]; exact ho⟩
    · rw [h4] at ha
      exact hk s4 ha.1 (by rw [ha.2, ho3]; exact ho)
  unfold assign_copy
  rw [get_state_bind]
  dsimp only
  split
  · exact hrealloc (fun t => { t with self := { t.self with allocator_ := t.other.allocator_ } })
      (fun t => ⟨rfl, rfl, rfl⟩) _ (fun t => assign_copy_elements_inv cfg t)
  · split
    · have := hrealloc id (fun t => ⟨rfl, rfl, rfl⟩) _ (fun t => assign_copy_elements_inv cfg t)
      exact this
    · refine bind_cases (fun t => t.self.inv ∧ t.other.inv) s (fun e s1 h => ?_) (fun a s1 h => ?_)
      · simp [M.pure_run] at h
      · have : s1 = s := by rw [snd_of_eq h]; rfl
        rw [this]
        exact assign_copy_elements_inv cfg s hs ho

end fixed_capacity_vector
end fcv

namespace fcv
namespace fixed_capacity_vector
variable {T : Type}

/-! ## Every reachable container satisfies the invariant -/

theorem inv_initial (a : Nat) :
    ({ capacity_ := 0, allocator_ := a, buffer_ := none, size_ := 0 } : fixed_capacity_vector T).inv :=
  ⟨le_refl _, by show (0 : Nat) < size_type_mod; decide, by simp, by simp [slots]⟩

theorem ctor_inv (cfg : Config) (c a : Nat) (w : World T) (hc : c < size_type_mod) :
    (ctor cfg c a w).2.self.inv :=
  (_alloc_inv cfg c _ (inv_initial a) rfl hc).1

theorem ctor_il_inv (cfg : Config) (c : Nat) (il : List T) (a : Nat) (w : World T)
    (hc : c < size_type_mod) : (ctor_il cfg c il a w).2.self.inv := by
  unfold ctor_il
  dsimp only
  split
  · exact inv_bind _ (inv_initial a) (fun _ s1 h _ => by simp [raise] at h)
  · refine inv_bind _ (inv_initial a) (fun _ s1 h _ => ?_)
    have e1 := snd_of_eq h
    have ha := _alloc_inv cfg c s1 (by rw [e1]; exact inv_initial a) (by rw [e1]; rfl) hc
    exact inv_bind s1 ha.1 (fun _ s2 _ hs2 => keeps_inv__copy_construct cfg _ _ s2 hs2)

theorem ctor_copy_inv (cfg : Config) (other : fixed_capacity_vector T) (w : World T)
    (ho : other.inv) : (ctor_copy cfg other w).2.self.inv := by
  unfold ctor_copy
  have ha := on_self__alloc_inv cfg other.capacity
    ({ self := { capacity_ := 0, buffer_ := none, size_ := 0,
                 allocator_ := cfg.select_on_container_copy_construction other.allocator_ },
       other := other, world := w } : State2 T) (inv_initial _) rfl ho.2.1
  refine bind_cases (fun t : State2 T => t.self.inv) _ (fun e s1 h => ?_) (fun a s1 h => ?_)
  · rw [h] at ha
    exact ha.1
  · rw [h] at ha
    exact (on_self_inv (keeps_inv__copy_construct cfg _ _) s1 ha.1).1

theorem ctor_move_inv (other : fixed_capacity_vector T) (w : World T) (ho : other.inv) :
    (ctor_move other w).2.self.inv ∧ (ctor_move other w).2.other.inv :=
  _swap_state_inv _ (inv_initial _) ho

theorem call2_inv [Inhabited T] (cfg : Config) (c : Call2) (s : State2 T) (hs : s.self.inv)
    (ho : s.other.inv) : (c.run cfg s).2.self.inv ∧ (c.run cfg s).2.other.inv := by
  cases c with
  | assign_copy => exact assign_copy_inv cfg s hs ho
  | assign_move => exact assign_move_inv cfg s hs ho
  | swap => exact swap_inv cfg s hs ho

theorem reachable_inv [Inhabited T] (cfg : Config) (v : fixed_capacity_vector T)
    (h : Reachable cfg v) : v.inv := by
  induction h with
  | ctor c a w hc _ => exact ctor_inv cfg c a w hc
  | ctor_il c il a w hc _ => exact ctor_il_inv cfg c il a w hc
  | ctor_copy other w _ _ ih => exact ctor_copy_inv cfg other w ih
  | ctor_move_receiver other w _ ih => exact (ctor_move_inv other w ih).1
  | ctor_move_donor other w _ ih => exact (ctor_move_inv other w ih).2
  | call v w c _ _ _ ih => exact keeps_inv_call cfg c _ ih
  | call2_self a b w c _ _ _ iha ihb => exact (call2_inv cfg c _ iha ihb).1
  | call2_other a b w c _ _ _ iha ihb => exact (call2_inv cfg c _ iha ihb).2

/-- C14: every container state reachable from a constructor through public operations called
within their preconditions, in any world and whether the calls return, throw
`std::length_error` or propagate an exception of the element type or of the strategy,
satisfies `size <= capacity`, and its buffer is null exactly when its capacity is zero. -/
theorem reachable_states_satisfy_invariant [Inhabited T] (cfg : Config)
    (v : fixed_capacity_vector T) (h : Reachable cfg v) :
    v.size_ ≤ v.capacity_ ∧ (v.buffer_ = none ↔ v.capacity_ = 0) :=
  have hi := reachable_inv cfg v h
  ⟨hi.1, hi.2.2.1⟩

/-- Witness for C14: the container of capacity 2 after `push_back(1)`, `push_back(2)` and a
third `push_back` that ends with `std::length_error`. -/
theorem reachable_states_satisfy_invariant_witness :
    Reachable debug_build
      ((Call.push_back 3).run debug_build
        { self := ((Call.push_back 2).run debug_build
            { self := ((Call.push_back 1).run debug_build
                { self := (ctor debug_build 2 0 calm_world).2.self, world := calm_world }).2.self,
              world := calm_world }).2.self,
          world := calm_world }).2.self ∧
    ((Call.push_back 3).run debug_build
        { self := ((Call.push_back 2).run debug_build
            { self := ((Call.push_back 1).run debug_build
                { self := (ctor debug_build 2 0 calm_world).2.self, world := calm_world }).2.self,
              world := calm_world }).2.self,
          world := calm_world }).1 = Outcome.fail Failure.length_error ∧
    full_vector.size_ ≤ full_vector.capacity_ ∧
    (full_vector.buffer_ = none ↔ full_vector.capacity_ = 0) := by
  have hr : Reachable debug_build
      ((Call.push_back 3).run debug_build
        { self := ((Call.push_back 2).run debug_build
            { self := ((Call.push_back 1).run debug_build
                { self := (ctor debug_build 2 0 calm_world).2.self, world := calm_world }).2.self,
              world := calm_world }).2.self,
          world := calm_world }).2.self :=
    Reachable.call _ calm_world (Call.push_back 3)
      (Reachable.call _ calm_world (Call.push_back 2)
        (Reachable.call _ calm_world (Call.push_back 1)
          (Reachable.ctor 2 0 calm_world (by decide) (by decide)) trivial trivial)
        trivial trivial)
      trivial trivial
  have he : ((Call.push_back 3).run debug_build
        { self := ((Call.push_back 2).run debug_build
            { self := ((Call.push_back 1).run debug_build
                { self := (ctor debug_build 2 0 calm_world).2.self, world := calm_world }).2.self,
              world := calm_world }).2.self,
          world := calm_world }).2.self = full_vector := by decide
  refine ⟨hr, by decide, ?_⟩
  rw [← he]
  exact reachable_states_satisfy_invariant debug_build _ hr

end fixed_capacity_vector
end fcv
